import Mathlib

/-!
NDN client core: exclude-set algebra, pending-Interest lookup, legacy decoder
and encoders, identity storage.

A shallow embedding of `js/encrypt/producer.js` (the static helpers
`getExcludeEntries`, `setExcludeEntries`, `findEntryBeforeOrAt`, `excludeAfter`,
`excludeBefore`, `excludeRange`), of `js/NDN.js`
(`NDN.getEntryForExpressedInterest`), of `latest/encoding/BinaryXMLDecoder.js`
(the header decode, the blob and element readers, the peek operations) and of
`js/encoding/DynamicBuffer.js` (`ensureLength`, `set`); further on, of
`js/Signature.js`, `js/KeyLocator.js`, `js/ContentName.js`,
`js/security/identity/basic-identity-storage.js` and
`js/util/name-enumeration.js` (`upcall`, `endsWithSegmentNumber`).

Conventions of the embedding:
* a name component is the list of its bytes (`List Nat`, each byte a number
  below 256);
* a JavaScript array is a `List`, an array index is an `Int` (the code uses
  `-1` for "not found");
* a call that can throw returns an `Outcome`: the state of the mutated object
  after the call and the error thrown, if any;
* a decoder call returns a `Run`: it returned, it threw, or its loop is still
  running after the given number of turns (`fuel`); header values are kept as
  32-bit patterns, as the bitwise operators of the language leave them.
-/

/-- A name component: its bytes, in order. -/
abbrev Component := List Nat

/-- Modelled from the spec: `Name.Component.compare` is not among the sources.
The spec orders components byte-lexicographically, a proper prefix sorting
before its extension; the result is negative, zero or positive. -/
def Component.compare (a b : Component) : Int :=
  if a < b then -1 else if b < a then 1 else 0

/-- Modelled from the spec: `Name.Component.equals` is not among the sources;
two components are equal when their bytes are. -/
def Component.equals (a b : Component) : Bool := decide (a = b)

/-- The array method `Array.prototype.splice(start, deleteCount, ...items)` of
the language: `start` is clamped into `[0, length]` (a negative start counts
from the end), `deleteCount` into `[0, length - start]`. -/
def splice {α : Type} (xs : List α) (start deleteCount : Int) (items : List α) : List α :=
  let len : Int := xs.length
  let s : Int := if start < 0 then max (len + start) 0 else min start len
  let d : Int := min (max deleteCount 0) (len - s)
  xs.take s.toNat ++ items ++ xs.drop (s.toNat + d.toNat)

/-- What a call that may throw leaves behind: the object it works on, and the
error it threw (`none` when it returned normally). -/
structure Outcome (σ : Type) where
  state : σ
  thrown : Option String
deriving DecidableEq, Repr

namespace Producer

/-- Embeds `Producer.ExcludeEntry` (producer.js, lines 435-445). -/
structure ExcludeEntry where
  component_ : Component
  anyFollowsComponent_ : Bool
deriving DecidableEq, Repr

/-- Modelled from the spec: the `Exclude` class is not among the sources. Its
value list holds components and `Exclude.ANY` markers. -/
inductive ExcludeValue where
  | ANY
  | component (c : Component)
deriving DecidableEq, Repr

/-- Modelled from the spec: the `Exclude` object, seen through the methods the
producer calls (`size`, `get`, `clear`, `appendAny`, `appendComponent`): the
list of its values. -/
abbrev Exclude := List ExcludeValue

/-- One turn of the loop of `Producer.getExcludeEntries` (lines 451-462). -/
def getExcludeEntries.step (entries : List ExcludeEntry) (v : ExcludeValue) :
    List ExcludeEntry :=
  match v with
  | ExcludeValue.ANY =>
    if entries.length = 0 then
      entries ++ [⟨[], true⟩]
    else
      match entries.getLast? with
      | some last => entries.dropLast ++ [{ last with anyFollowsComponent_ := true }]
      | none => entries
  | ExcludeValue.component c => entries ++ [⟨c, false⟩]

/-- Embeds `Producer.getExcludeEntries` (lines 447-465). -/
def getExcludeEntries (exclude : Exclude) : List ExcludeEntry :=
  exclude.foldl getExcludeEntries.step []

/-- The values `Producer.setExcludeEntries` appends for the entry at index `i`
(lines 478-491). -/
def setExcludeEntries.values (i : Nat) (entry : ExcludeEntry) : List ExcludeValue :=
  if i = 0 ∧ entry.component_.length = 0 ∧ entry.anyFollowsComponent_ = true then
    [ExcludeValue.ANY]
  else
    ExcludeValue.component entry.component_ ::
      (if entry.anyFollowsComponent_ then [ExcludeValue.ANY] else [])

/-- The loop of `Producer.setExcludeEntries` from index `i` on. -/
def setExcludeEntries.loop : Nat → List ExcludeEntry → List ExcludeValue
  | _, [] => []
  | i, entry :: rest => setExcludeEntries.values i entry ++ setExcludeEntries.loop (i + 1) rest

/-- Embeds `Producer.setExcludeEntries` (lines 472-493): the exclude is cleared, then
refilled from the entries. -/
def setExcludeEntries (_exclude : Exclude) (entries : List ExcludeEntry) : Exclude :=
  setExcludeEntries.loop 0 entries

/-- The `while` loop of `Producer.findEntryBeforeOrAt` (lines 505-510), entered
with `i = k - 1`. -/
def findEntryBeforeOrAt.loop (entries : List ExcludeEntry) (component : Component) :
    Nat → Int
  | 0 => -1
  | i + 1 =>
    match entries[i]? with
    | some e =>
      if Component.compare e.component_ component ≤ 0 then (i : Int)
      else findEntryBeforeOrAt.loop entries component i
    | none => findEntryBeforeOrAt.loop entries component i

/-- Embeds `Producer.findEntryBeforeOrAt` (lines 496-513). -/
def findEntryBeforeOrAt (entries : List ExcludeEntry) (component : Component) : Int :=
  findEntryBeforeOrAt.loop entries component entries.length

/-- The block that `Producer.excludeAfter` (lines 524-546) and
`Producer.excludeRange` (lines 591-613) share word for word: it establishes
the "from" boundary and yields the new entries with `iNewFrom`. Reading a
property of an absent array element throws a `TypeError`. -/
def establishFrom (entries : List ExcludeEntry) (from_ : Component) :
    Except String (List ExcludeEntry × Int) :=
  let iFoundFrom := findEntryBeforeOrAt entries from_
  if iFoundFrom < 0 then
    Except.ok (splice entries 0 0 [⟨from_, true⟩], 0)
  else
    match entries[iFoundFrom.toNat]? with
    | none => Except.error "TypeError"
    | some foundFrom =>
      if !foundFrom.anyFollowsComponent_ then
        if foundFrom.component_.equals from_ then
          Except.ok (entries.set iFoundFrom.toNat { foundFrom with anyFollowsComponent_ := true },
            iFoundFrom)
        else
          Except.ok (splice entries (iFoundFrom + 1) 0 [⟨from_, true⟩], iFoundFrom + 1)
      else
        Except.ok (entries, iFoundFrom)

/-- The entry array of `Producer.excludeAfter` just before
`setExcludeEntries` (lines 522-554). -/
def excludeAfter.entries (entries : List ExcludeEntry) (from_ : Component) :
    Except String (List ExcludeEntry) :=
  match establishFrom entries from_ with
  | Except.error e => Except.error e
  | Except.ok (entries, iNewFrom) =>
    let iRemoveBegin := iNewFrom + 1
    let nRemoveNeeded := (entries.length : Int) - iRemoveBegin
    Except.ok (splice entries iRemoveBegin nRemoveNeeded [])

/-- Embeds `Producer.excludeAfter` (lines 515-557). -/
def excludeAfter (exclude : Exclude) (from_ : Component) : Outcome Exclude :=
  match excludeAfter.entries (getExcludeEntries exclude) from_ with
  | Except.error e => ⟨exclude, some e⟩
  | Except.ok entries => ⟨setExcludeEntries exclude entries, none⟩

/-- The entry array of `Producer.excludeRange` just before
`setExcludeEntries` (lines 589-643). -/
def excludeRange.entries (entries : List ExcludeEntry) (from_ to_ : Component) :
    Except String (List ExcludeEntry) :=
  match establishFrom entries from_ with
  | Except.error e => Except.error e
  | Except.ok (entries, iNewFrom) =>
    let iFoundTo := findEntryBeforeOrAt entries to_
    let foundTo := entries[iFoundTo.toNat]?
    if iFoundTo = iNewFrom then
      Except.ok (splice entries (iNewFrom + 1) 0 [⟨to_, false⟩])
    else
      match (if iFoundTo < 0 then none else foundTo) with
      | none => Except.error "TypeError"
      | some foundTo =>
        let iRemoveBegin := iNewFrom + 1
        if !foundTo.anyFollowsComponent_ then
          if foundTo.component_.equals to_ then
            let iRemoveEnd := iFoundTo
            Except.ok (splice entries iRemoveBegin (iRemoveEnd - iRemoveBegin) [])
          else
            let entries := splice entries (iFoundTo + 1) 0 [⟨to_, false⟩]
            let iRemoveEnd := iFoundTo + 1
            Except.ok (splice entries iRemoveBegin (iRemoveEnd - iRemoveBegin) [])
        else
          let iRemoveEnd := iFoundTo + 1
          Except.ok (splice entries iRemoveBegin (iRemoveEnd - iRemoveBegin) [])

/-- Embeds `Producer.excludeRange` (lines 569-646). The bounds are checked before
the exclude is read. The message for inverted bounds stops before the two
escaped components, whose `toEscapedString` is not among the sources. -/
def excludeRange (exclude : Exclude) (from_ to_ : Component) : Outcome Exclude :=
  if Component.compare from_ to_ ≥ 0 then
    if Component.compare from_ to_ = 0 then
      ⟨exclude, some "excludeRange: from == to. To exclude a single component, sue excludeOne."⟩
    else
      ⟨exclude, some "excludeRange: from must be less than to. Invalid range"⟩
  else
    match excludeRange.entries (getExcludeEntries exclude) from_ to_ with
    | Except.error e => ⟨exclude, some e⟩
    | Except.ok entries => ⟨setExcludeEntries exclude entries, none⟩

/-- Embeds `Producer.excludeBefore` (lines 559-567): `new Name.Component()` is the
zero-length component. -/
def excludeBefore (exclude : Exclude) (to_ : Component) : Outcome Exclude :=
  excludeRange exclude [] to_

/-- The entries are strictly increasing by component order. -/
def StrictlyIncreasing (entries : List ExcludeEntry) : Prop :=
  entries.Pairwise (fun a b => Component.compare a.component_ b.component_ < 0)

instance (entries : List ExcludeEntry) : Decidable (StrictlyIncreasing entries) := by
  unfold StrictlyIncreasing; infer_instance

/-- Modelled from the spec: the query "is component `c` excluded", which no
source file implements over `ExcludeEntry` lists. It is true iff an entry
exactly equals `c`, or the nearest-at-or-before entry for `c` has
`anyFollows = true` and `c` is strictly less than the next entry's component
(or there is no next entry). -/
def isExcluded (entries : List ExcludeEntry) (c : Component) : Bool :=
  entries.any (fun e => e.component_.equals c) ||
    (let i := findEntryBeforeOrAt entries c
     if i < 0 then false
     else
       match entries[i.toNat]? with
       | none => false
       | some e =>
         e.anyFollowsComponent_ &&
           (match entries[i.toNat + 1]? with
            | none => true
            | some next => decide (Component.compare c next.component_ < 0)))

/-- The excludes a program can build from the empty exclude with
`excludeAfter`, `excludeBefore` and `excludeRange`. -/
inductive Reachable : Exclude → Prop where
  | empty : Reachable []
  | after (ex : Exclude) (c : Component) : Reachable ex → Reachable (excludeAfter ex c).state
  | before (ex : Exclude) (c : Component) : Reachable ex → Reachable (excludeBefore ex c).state
  | range (ex : Exclude) (a b : Component) : Reachable ex → Reachable (excludeRange ex a b).state

end Producer

namespace NDN

/-- A name: its components, in order (`name.components`). -/
structure Name where
  components : List Component
deriving DecidableEq, Repr

/-- An Interest, with the fields `NDN.prototype.expressInterest` copies from a
template (NDN.js, lines 82-95); absent selectors are `none`. -/
structure Interest where
  name : Name
  minSuffixComponents : Option Nat
  maxSuffixComponents : Option Nat
  childSelector : Option Nat
  interestLifetime : Option Nat
deriving DecidableEq, Repr

/-- Embeds `PITEntry` (NDN.js, lines 45-48); the closure is kept as a token. -/
structure PITEntry where
  interest : Interest
  closure : Nat
deriving DecidableEq, Repr

/-- One turn of the loop of `NDN.getEntryForExpressedInterest` (lines 56-62).
`matches_name` stands for `Interest.prototype.matches_name`, which is not
among the sources. -/
def getEntryForExpressedInterest.step (matches_name : Interest → Name → Bool) (name : Name)
    (result : Option PITEntry) (entry : PITEntry) : Option PITEntry :=
  if matches_name entry.interest name then
    match result with
    | none => some entry
    | some r =>
      if entry.interest.name.components.length > r.interest.name.components.length then
        some entry
      else some r
  else result

/-- Embeds `NDN.getEntryForExpressedInterest` (NDN.js, lines 50-65), over the table
`NDN.PITTable`; `none` is `null`. -/
def getEntryForExpressedInterest (matches_name : Interest → Name → Bool)
    (PITTable : List PITEntry) (name : Name) : Option PITEntry :=
  PITTable.foldl (getEntryForExpressedInterest.step matches_name name) none

/-- What the loop of `getEntryForExpressedInterest` has established about its
`result` once it has gone through the entries `seen`. -/
def LookupInv (matches_name : Interest → Name → Bool) (name : Name)
    (seen : List PITEntry) (result : Option PITEntry) : Prop :=
  (result = none ↔ ∀ e ∈ seen, matches_name e.interest name = false) ∧
    ∀ r, result = some r →
      r ∈ seen ∧ matches_name r.interest name = true ∧
      ∀ e ∈ seen, matches_name e.interest name = true →
        e.interest.name.components.length ≤ r.interest.name.components.length

/-- What the loop has established about ties: `result` stands at some index
of `seen`, and every matching entry before that index has a strictly shorter
interest name. -/
def LookupFirst (matches_name : Interest → Name → Bool) (name : Name)
    (seen : List PITEntry) (result : Option PITEntry) : Prop :=
  ∀ r, result = some r →
    ∃ i, seen[i]? = some r ∧
      ∀ (j : Nat) (e : PITEntry), j < i → seen[j]? = some e →
        matches_name e.interest name = true →
        e.interest.name.components.length < r.interest.name.components.length

end NDN

/-! ## The binary XML decoder (`latest/encoding/BinaryXMLDecoder.js`) -/

/-- The constant `XML_TAG` (line 6). -/
def XML_TAG : Nat := 0x01

/-- The constant `XML_DTAG` (line 8). -/
def XML_DTAG : Nat := 0x02

/-- The constant `XML_BLOB` (line 14). -/
def XML_BLOB : Nat := 0x05

/-- The constant `XML_CLOSE` (line 18). -/
def XML_CLOSE : Nat := 0x0

/-- The constant `XML_TT_BITS` (line 23). -/
def XML_TT_BITS : Nat := 3

/-- The constant `XML_TT_MASK` (line 24): `(1 << XML_TT_BITS) - 1`. -/
def XML_TT_MASK : Nat := (1 <<< XML_TT_BITS) - 1

/-- The constant `XML_TT_VAL_BITS` (line 25). -/
def XML_TT_VAL_BITS : Nat := XML_TT_BITS + 1

/-- The constant `XML_TT_VAL_MASK` (line 26). -/
def XML_TT_VAL_MASK : Nat := (1 <<< XML_TT_VAL_BITS) - 1

/-- The constant `XML_REG_VAL_BITS` (line 27). -/
def XML_REG_VAL_BITS : Nat := 7

/-- The constant `XML_REG_VAL_MASK` (line 28). -/
def XML_REG_VAL_MASK : Nat := (1 <<< XML_REG_VAL_BITS) - 1

/-- The constant `XML_TT_NO_MORE` (line 29): `1 << XML_REG_VAL_BITS`, 0x80. -/
def XML_TT_NO_MORE : Nat := 1 <<< XML_REG_VAL_BITS

/-- The number a 32-bit pattern stands for once a bitwise operator of the
language has produced it (a signed 32-bit integer). -/
def int32 (bits : Nat) : Int :=
  if bits % 2 ^ 32 < 2 ^ 31 then ((bits % 2 ^ 32 : Nat) : Int)
  else ((bits % 2 ^ 32 : Nat) : Int) - 2 ^ 32

/-- The operator `<<` on a 32-bit pattern: the bits shifted out are lost. -/
def shl32 (bits k : Nat) : Nat := (bits <<< k) % 2 ^ 32

/-- The method `slice(begin, end)` of a byte buffer: a negative index counts
from the end, both indices are clamped into `[0, length]`, and the result is
empty when `end` is not after `begin`. -/
def jsSlice {α : Type} (xs : List α) (begin_ end_ : Int) : List α :=
  let len : Int := xs.length
  let k : Int := if begin_ < 0 then max (len + begin_) 0 else min begin_ len
  let fin : Int := if end_ < 0 then max (len + end_) 0 else min end_ len
  (xs.drop k.toNat).take (fin - k).toNat

/-- What a decoder call comes to: it returns a value, it throws, or its loop is
still running when the fuel is spent. The decoder is given as the call leaves
it. -/
inductive Run (σ α : Type) where
  | ret (value : α) (state : σ)
  | throw (msg : String) (state : σ)
  | timeout
deriving DecidableEq, Repr

/-- The class `TypeAndVal` (lines 799-811): `t` and `v`. The type is only ever
built from `next & XML_TT_MASK`; the value is a signed 32-bit integer. -/
structure TypeAndVal where
  t : Nat
  v : Int
deriving DecidableEq, Repr

/-- A start tag as the decoder's callers pass it: a dictionary number or a
string (its character codes). -/
inductive Tag where
  | num (n : Int)
  | str (s : List Nat)
deriving DecidableEq, Repr

/-- The decoder object (lines 63-71): the buffer `istream`, whose bytes are
numbers below 256, and the cursor `offset`, a number that the arithmetic of
the code can make negative. -/
structure BinaryXMLDecoder where
  istream : List Nat
  offset : Int
deriving DecidableEq, Repr

namespace BinaryXMLDecoder

/-- The read `this.istream[this.offset]`: `none` is `undefined`, the value of a
read outside the buffer. -/
def next (d : BinaryXMLDecoder) : Option Nat :=
  if d.offset < 0 then none else d.istream[d.offset.toNat]?

/-- The `do ... while (more)` loop of `decodeTypeAndVal` (lines 603-632), with
`val` kept as its 32-bit pattern. The test `next < 0` is false for a byte and
for `undefined` alike; in `&` and `>>>` an `undefined` operand counts as 0. -/
def decodeTypeAndVal.loop : Nat → BinaryXMLDecoder → Nat → Run BinaryXMLDecoder (Option TypeAndVal)
  | 0, _, _ => Run.timeout
  | fuel + 1, d, val =>
    let next := d.next
    if next = some 0 ∧ val = 0 then
      Run.ret none d
    else
      let n := next.getD 0
      let more := (n &&& XML_TT_NO_MORE) = 0
      if more then
        let val := shl32 val XML_REG_VAL_BITS ||| (n &&& XML_REG_VAL_MASK)
        decodeTypeAndVal.loop fuel { d with offset := d.offset + 1 } val
      else
        let type := n &&& XML_TT_MASK
        let val := shl32 val XML_TT_VAL_BITS ||| ((n >>> XML_TT_BITS) &&& XML_TT_VAL_MASK)
        Run.ret (some ⟨type, int32 val⟩) { d with offset := d.offset + 1 }

/-- Embeds `BinaryXMLDecoder.prototype.decodeTypeAndVal` (lines 590-637); `none` is
`null`. The loop may run for `fuel` turns. -/
def decodeTypeAndVal (fuel : Nat) (d : BinaryXMLDecoder) :
    Run BinaryXMLDecoder (Option TypeAndVal) :=
  decodeTypeAndVal.loop fuel d 0

/-- The pattern of `val` after the loop has taken the bytes `hs`, none of
them the last byte of the header, starting from `val`. -/
def headerAcc (val : Nat) (hs : List Nat) : Nat :=
  hs.foldl (fun v b => shl32 v XML_REG_VAL_BITS ||| (b &&& XML_REG_VAL_MASK)) val

/-- The value of the header made of the bytes `hs` and then `last`, as the
loop computes it. -/
def headerVal (hs : List Nat) (last : Nat) : Int :=
  int32 (shl32 (headerAcc 0 hs) XML_TT_VAL_BITS |||
    ((last >>> XML_TT_BITS) &&& XML_TT_VAL_MASK))

/-- No byte of `hs` stops the loop early: none of them is a zero byte met
while `val` is zero. -/
def NoEarlyNull : Nat → List Nat → Prop
  | _, [] => True
  | val, b :: rest =>
    ¬ (b = 0 ∧ val = 0) ∧
      NoEarlyNull (shl32 val XML_REG_VAL_BITS ||| (b &&& XML_REG_VAL_MASK)) rest

/-- The end of `decodeBlob` (lines 711-715), reached with a length that is not
`null`: the slice, then `this.offset += blobLength`. -/
def decodeBlob.bytes (d : BinaryXMLDecoder) (blobLength : Int) :
    Run BinaryXMLDecoder (List Nat) :=
  Run.ret (jsSlice d.istream d.offset (d.offset + blobLength))
    { d with offset := d.offset + blobLength }

/-- Embeds `BinaryXMLDecoder.prototype.decodeBlob` (lines 688-720); `none` is a
`blobLength` left out. Calling `val()` on a `null` header throws a
`TypeError`. -/
def decodeBlob (fuel : Nat) (d : BinaryXMLDecoder) (blobLength : Option Int) :
    Run BinaryXMLDecoder (List Nat) :=
  match blobLength with
  | none =>
    match decodeTypeAndVal fuel d with
    | Run.timeout => Run.timeout
    | Run.throw msg d1 => Run.throw msg d1
    | Run.ret none d1 => Run.throw "TypeError" d1
    | Run.ret (some tv) d1 => decodeBlob.bytes d1 tv.v
  | some n => decodeBlob.bytes d n

/-- Embeds `BinaryXMLDecoder.prototype.decodeUString` (lines 770-797), called with a
`byteLength` that is not `null`: after `decodeBlob` has moved the cursor, the
text is sliced at the new cursor and the cursor is moved again. The text is
given by its character codes, `toString('ascii')` clearing the high bit of
each byte. -/
def decodeUString (fuel : Nat) (d : BinaryXMLDecoder) (byteLength : Int) :
    Run BinaryXMLDecoder (List Nat) :=
  match decodeBlob fuel d (some byteLength) with
  | Run.timeout => Run.timeout
  | Run.throw msg d1 => Run.throw msg d1
  | Run.ret _stringBytes d1 =>
    let tempBuffer := jsSlice d1.istream d1.offset (d1.offset + byteLength)
    Run.ret (tempBuffer.map (fun b => b &&& 0x7F)) { d1 with offset := d1.offset + byteLength }

/-- The test `decodedTag != startTag` of the language between two tags; how a
string compares with a number is left to `strNum`. -/
def Tag.differs (strNum : List Nat → Int → Bool) : Tag → Tag → Bool
  | Tag.num a, Tag.num b => decide (a ≠ b)
  | Tag.str a, Tag.str b => decide (a ≠ b)
  | Tag.str a, Tag.num b => !strNum a b
  | Tag.num a, Tag.str b => !strNum b a

/-- The tag `readStartElement` decodes from the header `tv` (lines 193-216). -/
def readStartElement.decodedTag (fuel : Nat) (d1 : BinaryXMLDecoder) (tv : TypeAndVal) :
    Run BinaryXMLDecoder (Option Tag) :=
  if tv.t = XML_TAG then
    match decodeUString fuel d1 (tv.v + 1) with
    | Run.timeout => Run.timeout
    | Run.throw msg d2 => Run.throw msg d2
    | Run.ret s d2 => Run.ret (some (Tag.str s)) d2
  else if tv.t = XML_DTAG then
    Run.ret (some (Tag.num tv.v)) d1
  else
    Run.ret none d1

/-- Embeds `BinaryXMLDecoder.prototype.readStartElement` (lines 173-241, the later
of the two definitions, which is the one in force). On a mismatch the
statement before the `throw` names `startag`, which nothing defines; with
attributes given, the call `readAttributes(attributes)` names a function that
nothing defines. `attributes` only records whether the argument is given. -/
def readStartElement (strNum : List Nat → Int → Bool) (fuel : Nat) (d : BinaryXMLDecoder)
    (startTag : Tag) (attributes : Bool) : Run BinaryXMLDecoder Unit :=
  match decodeTypeAndVal fuel d with
  | Run.timeout => Run.timeout
  | Run.throw msg d1 => Run.throw msg d1
  | Run.ret none d1 => Run.throw "Expected start element, got something not a tag." d1
  | Run.ret (some tv) d1 =>
    match readStartElement.decodedTag fuel d1 tv with
    | Run.timeout => Run.timeout
    | Run.throw msg d2 => Run.throw msg d2
    | Run.ret none d2 => Run.throw "ReferenceError: startag is not defined" d2
    | Run.ret (some decodedTag) d2 =>
      if Tag.differs strNum decodedTag startTag then
        Run.throw "ReferenceError: startag is not defined" d2
      else if attributes then
        Run.throw "ReferenceError: readAttributes is not defined" d2
      else
        Run.ret () d2

/-- Embeds `BinaryXMLDecoder.prototype.readEndElement` (lines 512-523). -/
def readEndElement (d : BinaryXMLDecoder) : Run BinaryXMLDecoder Unit :=
  let next := d.next
  let d1 := { d with offset := d.offset + 1 }
  if next ≠ some XML_CLOSE then
    Run.throw "ContentDecodingException: Expected end element" d1
  else
    Run.ret () d1

/-- Embeds `BinaryXMLDecoder.prototype.readBlob` (lines 546-556). -/
def readBlob (fuel : Nat) (d : BinaryXMLDecoder) : Run BinaryXMLDecoder (List Nat) :=
  match decodeBlob fuel d none with
  | Run.timeout => Run.timeout
  | Run.throw msg d1 => Run.throw msg d1
  | Run.ret blob d1 =>
    match readEndElement d1 with
    | Run.timeout => Run.timeout
    | Run.throw msg d2 => Run.throw msg d2
    | Run.ret _ d2 => Run.ret blob d2

/-- Embeds `BinaryXMLDecoder.prototype.readBinaryElement` (lines 491-509). -/
def readBinaryElement (strNum : List Nat → Int → Bool) (fuel : Nat) (d : BinaryXMLDecoder)
    (startTag : Tag) (attributes : Bool) : Run BinaryXMLDecoder (List Nat) :=
  match readStartElement strNum fuel d startTag attributes with
  | Run.timeout => Run.timeout
  | Run.throw msg d1 => Run.throw msg d1
  | Run.ret _ d1 => readBlob fuel d1

/-- The body of the `try` block of `peekStartElementAsString` (lines 311-337).
`tagToString` reads the dictionary `CCNProtocolDTagsStrings`, which is not
among the sources. -/
def peekStartElementAsString.body (tagToString : Int → Option (List Nat)) (fuel : Nat)
    (d : BinaryXMLDecoder) : Run BinaryXMLDecoder (Option (List Nat)) :=
  match decodeTypeAndVal fuel d with
  | Run.timeout => Run.timeout
  | Run.throw msg d1 => Run.throw msg d1
  | Run.ret none d1 => Run.ret none d1
  | Run.ret (some tv) d1 =>
    if tv.t = XML_TAG then
      match decodeUString fuel d1 (tv.v + 1) with
      | Run.timeout => Run.timeout
      | Run.throw msg d2 => Run.throw msg d2
      | Run.ret s d2 => Run.ret (some s) d2
    else if tv.t = XML_DTAG then
      Run.ret (tagToString tv.v) d1
    else
      Run.ret none d1

/-- Embeds `BinaryXMLDecoder.prototype.peekStartElementAsString` (lines 301-379):
the `catch` block is empty, the `finally` block puts `previousOffset` back,
and `decodedTag` (still `null` after an exception) is returned. -/
def peekStartElementAsString (tagToString : Int → Option (List Nat)) (fuel : Nat)
    (d : BinaryXMLDecoder) : Run BinaryXMLDecoder (Option (List Nat)) :=
  let previousOffset := d.offset
  match peekStartElementAsString.body tagToString fuel d with
  | Run.timeout => Run.timeout
  | Run.throw _ d1 => Run.ret none { d1 with offset := previousOffset }
  | Run.ret decodedTag d1 => Run.ret decodedTag { d1 with offset := previousOffset }

/-- The body of the `try` block of `peekStartElementAsLong` (lines 416-446).
`DEBUG_MAX_LEN` is a local variable of the constructor, so the method sees it
only if something else defines it: `none` is "not defined", and reading it
throws. `stringToTag` reads the dictionary, which is not among the sources. -/
def peekStartElementAsLong.body (DEBUG_MAX_LEN : Option Int)
    (stringToTag : List Nat → Option Int) (fuel : Nat) (d : BinaryXMLDecoder) :
    Run BinaryXMLDecoder (Option Int) :=
  match decodeTypeAndVal fuel d with
  | Run.timeout => Run.timeout
  | Run.throw msg d1 => Run.throw msg d1
  | Run.ret none d1 => Run.ret none d1
  | Run.ret (some tv) d1 =>
    if tv.t = XML_TAG then
      match DEBUG_MAX_LEN with
      | none => Run.throw "ReferenceError: DEBUG_MAX_LEN is not defined" d1
      | some maxLen =>
        if tv.v + 1 > maxLen then
          Run.throw "ContentDecodingException: longer than expected maximum length" d1
        else
          match decodeUString fuel d1 (tv.v + 1) with
          | Run.timeout => Run.timeout
          | Run.throw msg d2 => Run.throw msg d2
          | Run.ret strTag d2 => Run.ret (stringToTag strTag) d2
    else if tv.t = XML_DTAG then
      Run.ret (some tv.v) d1
    else
      Run.ret none d1

/-- Embeds `BinaryXMLDecoder.prototype.peekStartElementAsLong` (lines 405-488). -/
def peekStartElementAsLong (DEBUG_MAX_LEN : Option Int) (stringToTag : List Nat → Option Int)
    (fuel : Nat) (d : BinaryXMLDecoder) : Run BinaryXMLDecoder (Option Int) :=
  let previousOffset := d.offset
  match peekStartElementAsLong.body DEBUG_MAX_LEN stringToTag fuel d with
  | Run.timeout => Run.timeout
  | Run.throw _ d1 => Run.ret none { d1 with offset := previousOffset }
  | Run.ret decodedTag d1 => Run.ret decodedTag { d1 with offset := previousOffset }

/-- Embeds `BinaryXMLDecoder.prototype.peekStartElement` (lines 381-403); a
`startTag` that is neither a string nor a number is `none`. -/
def peekStartElement (tagToString : Int → Option (List Nat)) (DEBUG_MAX_LEN : Option Int)
    (stringToTag : List Nat → Option Int) (fuel : Nat) (d : BinaryXMLDecoder)
    (startTag : Option Tag) : Run BinaryXMLDecoder Bool :=
  match startTag with
  | some (Tag.str s) =>
    match peekStartElementAsString tagToString fuel d with
    | Run.timeout => Run.timeout
    | Run.throw msg d1 => Run.throw msg d1
    | Run.ret decodedTag d1 => Run.ret (decide (decodedTag = some s)) d1
  | some (Tag.num n) =>
    match peekStartElementAsLong DEBUG_MAX_LEN stringToTag fuel d with
    | Run.timeout => Run.timeout
    | Run.throw msg d1 => Run.throw msg d1
    | Run.ret decodedTag d1 => Run.ret (decide (decodedTag = some n)) d1
  | none => Run.throw "SHOULD BE STRING OR NUMBER" d

end BinaryXMLDecoder

/-! ## The growing buffer (`js/encoding/DynamicBuffer.js`) -/

/-- The object `DynamicBuffer` (lines 7-20): the buffer `array` and the field
`length`. -/
structure DynamicBuffer where
  array : List Nat
  length : Nat
deriving DecidableEq, Repr

namespace DynamicBuffer

/-- The allocation `new Buffer(n)`: `n` bytes whose content the language does
not fix; `fresh i % 256` is the byte found at index `i`. -/
def newBuffer (fresh : Nat → Nat) (n : Nat) : List Nat :=
  (List.range n).map (fun i => fresh i % 256)

/-- The method `set(value, offset)` of a byte buffer: the elements of `value`,
non-negative integers, are copied in at `offset`, each stored modulo 256 (a
buffer holds bytes); a `value` that does not fit is a `RangeError`. -/
def bufferSet (target value : List Nat) (offset : Nat) : Except String (List Nat) :=
  if offset + value.length > target.length then
    Except.error "RangeError"
  else
    Except.ok (target.take offset ++ value.map (fun v => v % 256) ++
      target.drop (offset + value.length))

/-- Embeds `DynamicBuffer.prototype.ensureLength` (lines 22-40). -/
def ensureLength (fresh : Nat → Nat) (b : DynamicBuffer) (length : Nat) :
    Except String DynamicBuffer :=
  if b.array.length ≥ length then
    Except.ok b
  else
    let newLength := b.array.length * 2
    let newLength := if length > newLength then length else newLength
    let newArray := newBuffer fresh newLength
    match bufferSet newArray b.array 0 with
    | Except.error e => Except.error e
    | Except.ok newArray => Except.ok { array := newArray, length := newLength }

end DynamicBuffer

namespace DynamicBuffer

/-- Embeds `DynamicBuffer.prototype.set` (lines 42-48): `ensureLength`, then the
copy of `value` into `this.array` at `offset`. -/
def set (fresh : Nat → Nat) (b : DynamicBuffer) (value : List Nat) (offset : Nat) :
    Except String DynamicBuffer :=
  match ensureLength fresh b (value.length + offset) with
  | Except.error e => Except.error e
  | Except.ok b1 =>
    match bufferSet b1.array value offset with
    | Except.error e => Except.error e
    | Except.ok array => Except.ok { b1 with array := array }

end DynamicBuffer

/-! ## Numbers of the language: doubles with integer values -/

/-- The loop of `log2Floor`, for at most `fuel` halvings. -/
def log2Floor.go : Nat → Nat → Nat
  | 0, _ => 0
  | fuel + 1, n => if n < 2 then 0 else log2Floor.go fuel (n / 2) + 1

/-- The position of the highest bit of `n` (0 for 0 and 1). -/
def log2Floor (n : Nat) : Nat := log2Floor.go n n

/-- The integer nearest to the fraction `n / d`, a tie going to the even one:
the rounding of IEEE 754 arithmetic. -/
def roundHalfEven (n d : Nat) : Nat :=
  let k := n / d
  let r := n % d
  if 2 * r < d then k
  else if 2 * r > d then k + 1
  else if k % 2 = 0 then k else k + 1

/-- The number of the language (an IEEE 754 double, 53 significant bits)
nearest to the integer `n`; overflow to `Infinity` is not modelled. -/
def toDouble (n : Nat) : Nat :=
  let e := log2Floor n - 52
  roundHalfEven n (2 ^ e) * 2 ^ e

/-- The value of `Math.floor(a / b)` for numbers `a` and `b` with integer values,
`b` not zero: the quotient is rounded to 53 significant bits
(`2^flog <= a / b < 2^(flog + 1)`, the last bit kept being bit `flog - 52`),
then floored. -/
def floorDivDouble (a b : Nat) : Nat :=
  if a = 0 then 0
  else
    let L : Int := (log2Floor a : Int) - (log2Floor b : Int)
    let flog : Int := if a * 2 ^ (-L).toNat ≥ b * 2 ^ L.toNat then L else L - 1
    let e : Int := flog - 52
    roundHalfEven (a * 2 ^ (-e).toNat) (b * 2 ^ e.toNat) * 2 ^ e.toNat / 2 ^ (-e).toNat

namespace Producer

/-- Embeds `Producer.getRoundedTimeSlot_` (producer.js, lines 246-255) on a time
slot with a non-negative integer value, in the arithmetic of the language:
the number passed is the double nearest to `timeSlot`, `Math.round` leaves a
number with an integer value as it is, the quotient by 3600000.0 and the
product by 3600000.0 are each rounded to a double. -/
def getRoundedTimeSlot_ (timeSlot : Nat) : Nat :=
  toDouble (floorDivDouble (toDouble timeSlot) 3600000 * 3600000)

/-- Embeds `Producer.KeyRequest_` (lines 237-244), without the list
`encryptedKeys`: `repeatAttempts` maps a name URI to a count, `none` where the
map has no entry. -/
structure KeyRequest_ where
  interestCount : Int
  repeatAttempts : String → Option Nat

/-- What `handleTimeout_` reads and writes: the producer's
`maxRepeatAttempts_`, the key request, the names handed to
`sendKeyInterest_` so far, the number of calls of `onEncryptedKeys` so far,
and whether `keyRequests_[timeSlot]` is still there. -/
structure TimeoutState where
  maxRepeatAttempts_ : Nat
  keyRequest : KeyRequest_
  sent : List String
  delivered : Nat
  requestKept : Bool

/-- The first statement of `handleTimeout_` (lines 306-313): re-send or give
up. A missing entry compares as `undefined < max`, which is false. -/
def handleTimeout_.retry (s : TimeoutState) (interestNameUri : String) : TimeoutState :=
  match s.keyRequest.repeatAttempts interestNameUri with
  | some attempts =>
    if attempts < s.maxRepeatAttempts_ then
      { s with
        keyRequest :=
          { s.keyRequest with
            repeatAttempts := fun uri =>
              if uri = interestNameUri then some (attempts + 1)
              else s.keyRequest.repeatAttempts uri }
        sent := s.sent ++ [interestNameUri] }
    else
      { s with
        keyRequest := { s.keyRequest with interestCount := s.keyRequest.interestCount - 1 } }
  | none =>
    { s with
      keyRequest := { s.keyRequest with interestCount := s.keyRequest.interestCount - 1 } }

/-- Embeds `Producer.prototype.handleTimeout_` (lines 290-319) for the interest
whose name has the URI `interestNameUri`; `onEncryptedKeys` tells whether the
callback is not `null`. -/
def handleTimeout_ (s : TimeoutState) (interestNameUri : String) (onEncryptedKeys : Bool) :
    TimeoutState :=
  let s1 := handleTimeout_.retry s interestNameUri
  if s1.keyRequest.interestCount = 0 ∧ onEncryptedKeys = true then
    { s1 with delivered := s1.delivered + 1, requestKept := false }
  else s1

/-- A sequence of consecutive `handleTimeout_` calls for the same interest
name, one per entry of `callbacks`. -/
def handleTimeouts (s : TimeoutState) (interestNameUri : String) (callbacks : List Bool) :
    TimeoutState :=
  callbacks.foldl (fun st cb => handleTimeout_ st interestNameUri cb) s

end Producer

namespace NDN

/-- Modelled from the spec: `Name.size` is not among the sources; the number of
components. -/
def Name.size (n : Name) : Nat := n.components.length

/-- Modelled from the spec: `Name.get(i)` is not among the sources; the spec
has `get(i)` index from the start, a negative `i` from the end. `none` stands
for an index with no component. -/
def Name.get (n : Name) (i : Int) : Option Component :=
  if i < 0 then
    if (-i).toNat ≤ n.components.length then
      n.components[n.components.length - (-i).toNat]?
    else none
  else n.components[i.toNat]?

/-- Modelled from the spec: `Name.getPrefix(n)` is not among the sources; the
first `n` components, a negative `n` dropping the last `|n|`. -/
def Name.getPrefix (n : Name) (k : Int) : Name :=
  if k < 0 then ⟨n.components.take (n.components.length - (-k).toNat)⟩
  else ⟨n.components.take k.toNat⟩

/-- Modelled from the spec: `Name.equals` is not among the sources; equality
is component-wise. -/
def Name.equals (a b : Name) : Bool := decide (a.components = b.components)

end NDN

/-! ## The identity storage (`js/security/identity/basic-identity-storage.js`) -/

namespace BasicIdentityStorage

/-- A value bound to a `?` of a statement: the URI of a name, the escaped
string of a component, a number or a blob. -/
inductive Param where
  | uri (name : NDN.Name)
  | escaped (component : Component)
  | number (n : Int)
  | blob (bytes : List Nat)
deriving DecidableEq, Repr

/-- A database statement handed to `this.database_`. -/
structure Statement where
  sql : String
  params : List Param
deriving DecidableEq, Repr

/-- What a `...Promise` method comes to before it returns: a promise rejected
on the spot, an exception thrown, the value `undefined` (a bare `return`), or
a promise that hangs on the database, with the statements the method has
handed to the database before returning. The statements of the `then`
callbacks come later and are not listed. -/
inductive Returned where
  | rejected (exception : String) (message : String)
  | threw (message : String)
  | undefined
  | pending (issued : List Statement)
deriving DecidableEq, Repr

/-- The statements a call has handed to the database. -/
def Returned.issued : Returned → List Statement
  | Returned.pending l => l
  | _ => []

/-- The call returned a promise rejected with a `SecurityException`, and no
statement went to the database. -/
def Returned.RejectedUnissued (r : Returned) : Prop :=
  (∃ message, r = Returned.rejected "SecurityException" message) ∧ r.issued = []

/-- The second argument of `setDefaultKeyNameForIdentityPromise`: a `Name`, a
boolean, or anything else (left out, `null`, ...). -/
inductive NameOrFlag where
  | name (n : NDN.Name)
  | flag (b : Bool)
  | other
deriving DecidableEq, Repr

/-- The certificate argument of `addCertificatePromise`, by what the method
reads from it before returning. -/
structure Certificate where
  name : NDN.Name
  publicKeyName : NDN.Name
deriving DecidableEq, Repr

/-- The rejection every method starts with when `useSync` is true. -/
def onlyAsync (method : String) : Returned :=
  Returned.rejected "SecurityException"
    ("BasicIdentityStorage." ++ method ++ " is only supported for async")

/-- Embeds `BasicIdentityStorage.prototype.doesIdentityExistPromise` (lines 55-77). -/
def doesIdentityExistPromise (identityName : NDN.Name) (useSync : Bool) : Returned :=
  if useSync then onlyAsync "doesIdentityExistPromise"
  else Returned.pending
    [⟨"SELECT count(*) FROM Identity WHERE identity_name=?", [Param.uri identityName]⟩]

/-- Embeds `BasicIdentityStorage.prototype.addIdentityPromise` (lines 79-102). -/
def addIdentityPromise (identityName : NDN.Name) (useSync : Bool) : Returned :=
  if useSync then onlyAsync "addIdentityPromise"
  else doesIdentityExistPromise identityName false

/-- Embeds `BasicIdentityStorage.prototype.doesKeyExistPromise` (lines 104-128);
`toEscapedString` called on a component that is not there throws. -/
def doesKeyExistPromise (keyName : NDN.Name) (useSync : Bool) : Returned :=
  if useSync then onlyAsync "doesKeyExistPromise"
  else
    match keyName.get (-1) with
    | none => Returned.threw "TypeError"
    | some keyId =>
      Returned.pending
        [⟨"SELECT count(*) FROM Key WHERE identity_name=? AND key_identifier=?",
          [Param.uri (keyName.getPrefix (-1)), Param.escaped keyId]⟩]

/-- Embeds `BasicIdentityStorage.prototype.addKeyPromise` (lines 131-174). -/
def addKeyPromise (keyName : NDN.Name) (_keyType : Int) (_publicKeyDer : List Nat)
    (useSync : Bool) : Returned :=
  if useSync then onlyAsync "addKeyPromise"
  else if keyName.size = 0 then Returned.undefined
  else doesKeyExistPromise keyName false

/-- Embeds `BasicIdentityStorage.prototype.getKeyPromise` (lines 176-206). -/
def getKeyPromise (keyName : NDN.Name) (useSync : Bool) : Returned :=
  if useSync then onlyAsync "getKeyPromise"
  else doesKeyExistPromise keyName false

/-- Embeds `BasicIdentityStorage.prototype.doesCertificateExistPromise`
(lines 208-230). -/
def doesCertificateExistPromise (certificateName : NDN.Name) (useSync : Bool) : Returned :=
  if useSync then onlyAsync "doesCertificateExistPromise"
  else Returned.pending
    [⟨"SELECT count(*) FROM Certificate WHERE cert_name=?", [Param.uri certificateName]⟩]

/-- Embeds `BasicIdentityStorage.prototype.addCertificatePromise` (lines 232-296). -/
def addCertificatePromise (certificate : Certificate) (useSync : Bool) : Returned :=
  if useSync then onlyAsync "addCertificatePromise"
  else doesKeyExistPromise certificate.publicKeyName false

/-- Embeds `BasicIdentityStorage.prototype.getCertificatePromise` (lines 298-331). -/
def getCertificatePromise (certificateName : NDN.Name) (_allowAny : Bool) (useSync : Bool) :
    Returned :=
  if useSync then onlyAsync "getCertificatePromise"
  else doesCertificateExistPromise certificateName false

/-- Embeds `BasicIdentityStorage.prototype.getDefaultIdentityPromise`
(lines 337-360). -/
def getDefaultIdentityPromise (useSync : Bool) : Returned :=
  if useSync then onlyAsync "getDefaultIdentityPromise"
  else Returned.pending [⟨"SELECT identity_name FROM Identity WHERE default_identity=1", []⟩]

/-- Embeds `BasicIdentityStorage.prototype.getDefaultKeyNameForIdentityPromise`
(lines 362-388). -/
def getDefaultKeyNameForIdentityPromise (identityName : NDN.Name) (useSync : Bool) :
    Returned :=
  if useSync then onlyAsync "getDefaultKeyNameForIdentityPromise"
  else Returned.pending
    [⟨"SELECT key_identifier FROM Key WHERE identity_name=? AND default_key=1",
      [Param.uri identityName]⟩]

/-- Embeds `BasicIdentityStorage.prototype.getDefaultCertificateNameForKeyPromise`
(lines 390-419). -/
def getDefaultCertificateNameForKeyPromise (keyName : NDN.Name) (useSync : Bool) :
    Returned :=
  if useSync then onlyAsync "getDefaultCertificateNameForKeyPromise"
  else
    match keyName.get (-1) with
    | none => Returned.threw "TypeError"
    | some keyId =>
      Returned.pending
        [⟨"SELECT cert_name FROM Certificate WHERE identity_name=? AND key_identifier=? AND default_cert=1",
          [Param.uri (keyName.getPrefix (-1)), Param.escaped keyId]⟩]

/-- Embeds `BasicIdentityStorage.prototype.getAllKeyNamesOfIdentityPromise`
(lines 421-448); `nameList` is only written by the row callback. -/
def getAllKeyNamesOfIdentityPromise (identityName : NDN.Name) (_nameList : List NDN.Name)
    (isDefault : Bool) (useSync : Bool) : Returned :=
  if useSync then onlyAsync "getAllKeyNamesOfIdentityPromise"
  else if isDefault then
    Returned.pending
      [⟨"SELECT key_identifier FROM Key WHERE default_key=1 and identity_name=?",
        [Param.uri identityName]⟩]
  else
    Returned.pending
      [⟨"SELECT key_identifier FROM Key WHERE default_key=0 and identity_name=?",
        [Param.uri identityName]⟩]

/-- Embeds `BasicIdentityStorage.prototype.setDefaultIdentityPromise`
(lines 450-476). -/
def setDefaultIdentityPromise (_identityName : NDN.Name) (useSync : Bool) : Returned :=
  if useSync then onlyAsync "setDefaultIdentityPromise"
  else Returned.pending
    [⟨"UPDATE Identity SET default_identity=0 WHERE default_identity=1", []⟩]

/-- Embeds `BasicIdentityStorage.prototype.setDefaultKeyNameForIdentityPromise`
(lines 478-519): a boolean second argument takes the place of `useSync`, and
only a `Name` is kept as `identityNameCheck`. -/
def setDefaultKeyNameForIdentityPromise (keyName : NDN.Name) (identityNameCheck : NameOrFlag)
    (useSync : Bool) : Returned :=
  let useSync : Bool :=
    match identityNameCheck with
    | NameOrFlag.flag b => b
    | _ => useSync
  let identityNameCheck : Option NDN.Name :=
    match identityNameCheck with
    | NameOrFlag.name n => some n
    | _ => none
  if useSync then onlyAsync "setDefaultKeyNameForIdentityPromise"
  else
    match keyName.get (-1) with
    | none => Returned.threw "TypeError"
    | some _keyId =>
      let identityName := keyName.getPrefix (-1)
      match identityNameCheck with
      | some check =>
        if check.size ≠ 0 ∧ check.equals identityName = false then
          Returned.rejected "SecurityException"
            "Specified identity name does not match the key name"
        else
          Returned.pending
            [⟨"UPDATE Key SET default_key=0 WHERE default_key=1 and identity_name=?",
              [Param.uri identityName]⟩]
      | none =>
        Returned.pending
          [⟨"UPDATE Key SET default_key=0 WHERE default_key=1 and identity_name=?",
            [Param.uri identityName]⟩]

/-- Embeds `BasicIdentityStorage.prototype.setDefaultCertificateNameForKeyPromise`
(lines 521-552). -/
def setDefaultCertificateNameForKeyPromise (keyName : NDN.Name)
    (_certificateName : NDN.Name) (useSync : Bool) : Returned :=
  if useSync then onlyAsync "setDefaultCertificateNameForKeyPromise"
  else
    match keyName.get (-1) with
    | none => Returned.threw "TypeError"
    | some keyId =>
      Returned.pending
        [⟨"UPDATE Certificate SET default_cert=0 WHERE default_cert=1 AND identity_name=? AND key_identifier=?",
          [Param.uri (keyName.getPrefix (-1)), Param.escaped keyId]⟩]

/-- Embeds `BasicIdentityStorage.prototype.deleteCertificateInfoPromise`
(lines 558-578). -/
def deleteCertificateInfoPromise (certificateName : NDN.Name) (useSync : Bool) : Returned :=
  if useSync then onlyAsync "deleteCertificateInfoPromise"
  else if certificateName.size = 0 then Returned.undefined
  else Returned.pending
    [⟨"DELETE FROM Certificate WHERE cert_name=?", [Param.uri certificateName]⟩]

/-- Embeds `BasicIdentityStorage.prototype.deletePublicKeyInfoPromise`
(lines 580-610). -/
def deletePublicKeyInfoPromise (keyName : NDN.Name) (useSync : Bool) : Returned :=
  if useSync then onlyAsync "deletePublicKeyInfoPromise"
  else if keyName.size = 0 then Returned.undefined
  else
    match keyName.get (-1) with
    | none => Returned.threw "TypeError"
    | some keyId =>
      Returned.pending
        [⟨"DELETE FROM Certificate WHERE identity_name=? AND key_identifier=?",
          [Param.uri (keyName.getPrefix (-1)), Param.escaped keyId]⟩]

/-- Embeds `BasicIdentityStorage.prototype.deleteIdentityInfoPromise`
(lines 612-639). -/
def deleteIdentityInfoPromise (identityName : NDN.Name) (useSync : Bool) : Returned :=
  if useSync then onlyAsync "deleteIdentityInfoPromise"
  else Returned.pending
    [⟨"DELETE FROM Certificate WHERE identity_name=?", [Param.uri identityName]⟩]

end BasicIdentityStorage

/-! ## The legacy encoders (`js/Signature.js`, `js/KeyLocator.js`, `js/ContentName.js`) -/

/-- The tag dictionary `CCNProtocolDTags`, which is not among the sources: the
numbers of the tags these classes name, left open. -/
structure CCNProtocolDTags where
  Name : Nat
  Component : Nat
  Signature : Nat
  SignatureBits : Nat
  Witness : Nat
  DigestAlgorithm : Nat
  KeyLocator : Nat
  Key : Nat
  Certificate : Nat
deriving DecidableEq, Repr

/-- A write operation handed to the encoder: `writeStartElement(tag)`,
`writeElement(tag, content)` (`none` is a `null` content) or
`writeEndElement()`. -/
inductive WriteOp where
  | startElement (tag : Nat)
  | element (tag : Nat) (content : Option (List Nat))
  | endElement
deriving DecidableEq, Repr

/-- Modelled from the spec: the class `BinaryXMLEncoder` is not among the
sources. The encoder is the list of the write operations issued to it so
far. -/
abbrev Encoder := List WriteOp

/-- A value of the field `DigestAlgorithm` that is not `null`: a string of the
language, as the constructor's comment has it (`String _digestAlgorithm`),
which has no method `equals`; or an object that has one, given by its
name. -/
inductive DigestAlgorithmValue where
  | string (s : String)
  | object (name : String)
deriving DecidableEq, Repr

/-- The object `Signature` (Signature.js, lines 7-12); `none` is `null`. The
field `signature` is the field `Signature` of the source, which cannot bear
the name of its own structure here. -/
structure Signature where
  Witness : Option (List Nat)
  signature : Option (List Nat)
  DigestAlgorithm : Option DigestAlgorithmValue
deriving DecidableEq, Repr

/-- Embeds `Signature.prototype.validate` (lines 53-55). -/
def Signature.validate (s : Signature) : Bool := s.signature.isSome

/-- The end of `Signature.prototype.encode` (lines 41-48), from the test of the
witness on. -/
def Signature.encode.rest (tags : CCNProtocolDTags) (s : Signature) (encoder : Encoder) :
    Outcome Encoder :=
  let encoder :=
    match s.Witness with
    | some w => encoder ++ [WriteOp.element tags.Witness (some w)]
    | none => encoder
  let encoder := encoder ++ [WriteOp.element tags.SignatureBits s.signature]
  ⟨encoder ++ [WriteOp.endElement], none⟩

/-- Embeds `Signature.prototype.encode` (lines 29-49). `isDefaultDigest` and
`getDigestOID` stand for `CCNDigestHelper` and `OIDLookup`, which are not
among the sources. On a `DigestAlgorithm` that is a string the call of
`equals` throws a `TypeError`, after `writeStartElement`. -/
def Signature.encode (tags : CCNProtocolDTags) (isDefaultDigest : String → Bool)
    (getDigestOID : String → List Nat) (s : Signature) (encoder : Encoder) :
    Outcome Encoder :=
  if !s.validate then
    ⟨encoder, some "Cannot encode: field values missing."⟩
  else
    let encoder := encoder ++ [WriteOp.startElement tags.Signature]
    match s.DigestAlgorithm with
    | some (DigestAlgorithmValue.string _) => ⟨encoder, some "TypeError"⟩
    | some (DigestAlgorithmValue.object alg) =>
      if !isDefaultDigest alg then
        Signature.encode.rest tags s
          (encoder ++ [WriteOp.element tags.DigestAlgorithm (some (getDigestOID alg))])
      else Signature.encode.rest tags s encoder
    | none => Signature.encode.rest tags s encoder

/-- The constant `KeyLocatorType.NAME` (KeyLocator.js, line 7). -/
def KeyLocatorType.NAME : Nat := 1

/-- The constant `KeyLocatorType.KEY` (line 8). -/
def KeyLocatorType.KEY : Nat := 2

/-- The constant `KeyLocatorType.CERTIFICATE` (line 9). -/
def KeyLocatorType.CERTIFICATE : Nat := 3

/-- The object `KeyLocator` (lines 12-28); `none` is `null` or a field never
set. The key name is given by the write operations its own `to_ccnb` issues,
`KeyName.to_ccnb` not being among the sources. -/
structure KeyLocator where
  type : Option Nat
  keyName : Option (List WriteOp)
  publicKey : Option (List Nat)
  certificate : Option (List Nat)
deriving DecidableEq, Repr

/-- Embeds `KeyLocator.prototype.validate` (lines 125-127). -/
def KeyLocator.validate (k : KeyLocator) : Bool :=
  k.keyName.isSome || k.publicKey.isSome || k.certificate.isSome

/-- Embeds `KeyLocator.prototype.to_ccnb` (lines 90-119). With the type `NAME`
and no key name, `this.keyName.to_ccnb(encoder)` is a call on `null` and
throws a `TypeError`. -/
def KeyLocator.to_ccnb (tags : CCNProtocolDTags) (k : KeyLocator) (encoder : Encoder) :
    Outcome Encoder :=
  if !k.validate then
    ⟨encoder, some "Cannot encode: field values missing."⟩
  else
    let encoder := encoder ++ [WriteOp.startElement tags.KeyLocator]
    if k.type = some KeyLocatorType.KEY then
      ⟨encoder ++ [WriteOp.element tags.Key k.publicKey] ++ [WriteOp.endElement], none⟩
    else if k.type = some KeyLocatorType.CERTIFICATE then
      ⟨encoder ++ [WriteOp.element tags.Certificate k.certificate] ++ [WriteOp.endElement],
        none⟩
    else if k.type = some KeyLocatorType.NAME then
      match k.keyName with
      | none => ⟨encoder, some "TypeError"⟩
      | some ops => ⟨encoder ++ ops ++ [WriteOp.endElement], none⟩
    else
      ⟨encoder ++ [WriteOp.endElement], none⟩

/-- The object `ContentName` (ContentName.js, lines 7-28): its components,
each a byte array; `none` is `null`. -/
structure ContentName where
  components : Option (List (List Nat))
deriving DecidableEq, Repr

/-- Embeds `ContentName.prototype.to_ccnb` (lines 89-100). -/
def ContentName.to_ccnb (tags : CCNProtocolDTags) (n : ContentName) (encoder : Encoder) :
    Outcome Encoder :=
  match n.components with
  | none => ⟨encoder, some "CANNOT ENCODE EMPTY CONTENT NAME"⟩
  | some components =>
    ⟨encoder ++ [WriteOp.startElement tags.Name] ++
        components.map (fun c => WriteOp.element tags.Component (some c)) ++
        [WriteOp.endElement], none⟩

/-- The value of a hexadecimal digit given by its character code. -/
def hexVal (c : Nat) : Option Nat :=
  if 48 ≤ c ∧ c ≤ 57 then some (c - 48)
  else if 65 ≤ c ∧ c ≤ 70 then some (c - 55)
  else if 97 ≤ c ∧ c ≤ 102 then some (c - 87)
  else none

/-- What follows a `%` in the argument of `unescape`: `u` and four
hexadecimal digits, or two hexadecimal digits, give the character code they
write and the number of characters they take. -/
def unescape.escape (rest : List Nat) : Option (Nat × Nat) :=
  match rest with
  | 117 :: a :: b :: c :: d :: _ =>
    match hexVal a, hexVal b, hexVal c, hexVal d with
    | some x, some y, some z, some w => some (((x * 16 + y) * 16 + z) * 16 + w, 5)
    | _, _, _, _ => none
  | a :: b :: _ =>
    match hexVal a, hexVal b with
    | some x, some y => some (x * 16 + y, 2)
    | _, _ => none
  | _ => none

/-- The scan of `unescape`, with the number of characters still to skip. -/
def unescape.go : Nat → List Nat → List Nat
  | _, [] => []
  | skip + 1, _ :: rest => unescape.go skip rest
  | 0, c :: rest =>
    if c = 37 then
      match unescape.escape rest with
      | some (code, n) => code :: unescape.go n rest
      | none => c :: unescape.go 0 rest
    else c :: unescape.go 0 rest

/-- The global function `unescape` of the language, on a string given by its
character codes. -/
def unescape (s : List Nat) : List Nat := unescape.go 0 s

/-- The string method `split('/')`. -/
def splitSlash : List Nat → List (List Nat)
  | [] => [[]]
  | c :: rest =>
    if c = 47 then [] :: splitSlash rest
    else
      match splitSlash rest with
      | hd :: tl => (c :: hd) :: tl
      | [] => [[c]]

/-- Embeds `ContentName.prototype.getName` (lines 30-40). `toString` stands for
`DataUtils.toString`, which is not among the sources. With `null` components
the read of `length` throws. -/
def ContentName.getName (toString : List Nat → List Nat) (n : ContentName) :
    Except String (List Nat) :=
  match n.components with
  | none => Except.error "TypeError"
  | some components =>
    Except.ok (components.foldl (fun output c => output ++ [47] ++ toString c) [])

/-- Embeds `ContentName.createNameArray` (lines 58-73). -/
def ContentName.createNameArray (name : List Nat) : List (List Nat) :=
  let name := unescape name
  let array := splitSlash name
  let array := if name.head? = some 47 then array.drop 1 else array
  let array := if name.getLast? = some 47 then array.dropLast else array
  array

/-- An element of the array given to `ContentName.makeBlob`: a string, an
object (a byte array) or something else. -/
inductive NamePart where
  | str (s : List Nat)
  | blob (b : List Nat)
  | other
deriving DecidableEq, Repr

/-- Embeds `ContentName.makeBlob` (lines 42-56); `none` is an entry left
unset. `toNumbersFromString` stands for `DataUtils.toNumbersFromString`,
which is not among the sources. -/
def ContentName.makeBlob (toNumbersFromString : List Nat → List Nat)
    (name : List NamePart) : List (Option (List Nat)) :=
  name.map fun part =>
    match part with
    | NamePart.str s => some (toNumbersFromString s)
    | NamePart.blob b => some b
    | NamePart.other => none

/-- Modelled from the spec: the header bytes that come before the last one,
the base-128 digits of `n`, most significant first, none for 0. -/
def encodeTypeAndVal.digits : Nat → Nat → List Nat
  | 0, _ => []
  | fuel + 1, n => if n = 0 then [] else encodeTypeAndVal.digits fuel (n / 128) ++ [n % 128]

/-- Modelled from the spec: the header writer of `BinaryXMLEncoder`, which is
not among the sources. The spec has each element begin with a base-128
integer header for a (type, value) pair; the layout is the one the constants
of the decoder fix: the low `XML_TT_VAL_BITS` bits of the value and the type
go into the last byte, which carries `XML_TT_NO_MORE`, and the bits above
them go before it, seven per byte. -/
def encodeTypeAndVal (type val : Nat) : List Nat :=
  encodeTypeAndVal.digits val (val >>> XML_TT_VAL_BITS) ++
    [XML_TT_NO_MORE ||| ((val &&& XML_TT_VAL_MASK) <<< XML_TT_BITS) ||| type]

/-- Modelled from the spec: the bytes `BinaryXMLEncoder` emits for a write
operation. A tag opens with a dictionary-tag header and is closed by the
terminator byte; a content is a blob leaf, its header giving its length. -/
def WriteOp.bytes : WriteOp → List Nat
  | WriteOp.startElement tag => encodeTypeAndVal XML_DTAG tag
  | WriteOp.element tag (some content) =>
    encodeTypeAndVal XML_DTAG tag ++ encodeTypeAndVal XML_BLOB content.length ++ content ++
      [XML_CLOSE]
  | WriteOp.element tag none => encodeTypeAndVal XML_DTAG tag ++ [XML_CLOSE]
  | WriteOp.endElement => [XML_CLOSE]

/-- Modelled from the spec: the output of the encoder, the bytes of its write
operations in order. -/
def Encoder.bytes (encoder : Encoder) : List Nat :=
  encoder.flatMap WriteOp.bytes

/-- What the decoder needs from outside the sources: how a string compares
with a number, the two dictionary lookups, and `DEBUG_MAX_LEN`. -/
structure DecoderGlobals where
  strNum : List Nat → Int → Bool
  tagToString : Int → Option (List Nat)
  DEBUG_MAX_LEN : Option Int
  stringToTag : List Nat → Option Int

/-- The `while` loop of `ContentName.prototype.from_ccnb` (lines 82-84), for at
most `turns` turns. -/
def ContentName.from_ccnb.loop (g : DecoderGlobals) (tags : CCNProtocolDTags) (fuel : Nat) :
    Nat → BinaryXMLDecoder → List (List Nat) → Run BinaryXMLDecoder (List (List Nat))
  | 0, _, _ => Run.timeout
  | turns + 1, d, components =>
    match BinaryXMLDecoder.peekStartElement g.tagToString g.DEBUG_MAX_LEN g.stringToTag fuel d
        (some (Tag.num tags.Component)) with
    | Run.timeout => Run.timeout
    | Run.throw msg d1 => Run.throw msg d1
    | Run.ret false d1 => Run.ret components d1
    | Run.ret true d1 =>
      match BinaryXMLDecoder.readBinaryElement g.strNum fuel d1 (Tag.num tags.Component)
          false with
      | Run.timeout => Run.timeout
      | Run.throw msg d2 => Run.throw msg d2
      | Run.ret blob d2 => ContentName.from_ccnb.loop g tags fuel turns d2 (components ++ [blob])

/-- Embeds `ContentName.prototype.from_ccnb` (lines 76-87): the name decoded, and
the decoder as the call leaves it. -/
def ContentName.from_ccnb (g : DecoderGlobals) (tags : CCNProtocolDTags) (fuel : Nat)
    (d : BinaryXMLDecoder) : Run BinaryXMLDecoder ContentName :=
  match BinaryXMLDecoder.readStartElement g.strNum fuel d (Tag.num tags.Name) false with
  | Run.timeout => Run.timeout
  | Run.throw msg d1 => Run.throw msg d1
  | Run.ret _ d1 =>
    match ContentName.from_ccnb.loop g tags fuel fuel d1 [] with
    | Run.timeout => Run.timeout
    | Run.throw msg d2 => Run.throw msg d2
    | Run.ret components d2 =>
      match BinaryXMLDecoder.readEndElement d2 with
      | Run.timeout => Run.timeout
      | Run.throw msg d3 => Run.throw msg d3
      | Run.ret _ d3 => Run.ret ⟨some components⟩ d3

/-! ## Opening the identity database (`basic-identity-storage.js`, constructor) -/

namespace BasicIdentityStorage

/-- The environment variables `getUserHomePath` reads; `none` is a variable
that is not set. -/
structure Env where
  HOME : Option String
  HOMEPATH : Option String
  USERPROFILE : Option String
deriving DecidableEq, Repr

/-- The operator `||` of the language between values that are strings or
`undefined` (`none`): the left one when it is a non-empty string, else the
right one. -/
def orElse (a b : Option String) : Option String :=
  match a with
  | some s => if s = "" then b else some s
  | none => b

/-- Embeds `BasicIdentityStorage.getUserHomePath` (lines 641-647). -/
def getUserHomePath (env : Env) : Option String :=
  orElse env.HOME (orElse env.HOMEPATH env.USERPROFILE)

/-- What the constructor has done when it returns: the value of its local
variable `databaseFilePath_`, and the first argument of `new Sqlite3Promise`,
the file the database is opened on. -/
structure Constructed where
  databaseFilePath_ : Option String
  opened : Option String
deriving DecidableEq, Repr

/-- Embeds the constructor `BasicIdentityStorage` (lines 39-48). `join` stands
for `path.join` of the platform, which throws when an argument is not a
string; it is called only when `databaseFilePath` is `undefined` or empty.
The base constructor `IdentityStorage` is not among the sources. -/
def new (join : List (Option String) → Except String String) (env : Env)
    (databaseFilePath : Option String) : Except String Constructed :=
  let given : Bool :=
    match databaseFilePath with
    | some s => decide (s ≠ "")
    | none => false
  if given then
    Except.ok ⟨databaseFilePath, databaseFilePath⟩
  else
    match join [getUserHomePath env, some ".ndn", some "ndnsec-public-info.db"] with
    | Except.error e => Except.error e
    | Except.ok defaultPath => Except.ok ⟨some defaultPath, databaseFilePath⟩

end BasicIdentityStorage

/-! ## The header value as a formula -/

/-- The number `sum of b_i * 128^(k-1-i)` that the bytes `b_0 .. b_{k-1}` write
in base 128, most significant first. -/
def base128 : List Nat → Nat
  | [] => 0
  | b :: rest => b * 128 ^ rest.length + base128 rest

/-- The header value as a closed formula: the base-128 number of the bytes
before the last one, times 16, plus bits 3 to 6 of the last byte. -/
def headerFormula (hs : List Nat) (last : Nat) : Int :=
  ((base128 hs * 16 + ((last >>> 3) &&& 15) : Nat) : Int)

/-! ## Name enumeration (`js/util/name-enumeration.js`) -/

namespace NameEnumeration

/-- The constants of `Closure` that `upcall` names; `closure.js` is not among
the sources, so their values are left open. -/
structure ClosureConstants where
  UPCALL_CONTENT : Int
  UPCALL_CONTENT_UNVERIFIED : Int
  RESULT_OK : Int
deriving DecidableEq, Repr

/-- The name of a data packet as `upcall` reads it: its `components`; `none` is
`null`. -/
structure DataName where
  components : Option (List (List Nat))
deriving DecidableEq, Repr

/-- The field `signedInfo` of a data packet: its `finalBlockID`; `none` is
`null`. -/
structure SignedInfo where
  finalBlockID : Option (List Nat)
deriving DecidableEq, Repr

/-- The data packet `upcallInfo.contentObject`. -/
structure Data where
  name : DataName
  content : List Nat
  signedInfo : Option SignedInfo
deriving DecidableEq, Repr

/-- Embeds `NameEnumeration.endsWithSegmentNumber` (lines 135-139). -/
def endsWithSegmentNumber (name : DataName) : Bool :=
  match name.components with
  | none => false
  | some components =>
    decide (components.length ≥ 1) &&
      (match components.getLast? with
       | some last => decide (last.length ≥ 1) && decide (last.head? = some 0)
       | none => false)

/-- The object `NameEnumeration.Closure` (lines 39-47): the field
`contentParts`, and what the closure has done to the outside so far: the
interests handed to `ndn.expressInterest` (the name prefix and the segment
number added to it) and the arguments of the calls of `onComponents` (`none`
is `null`). -/
structure Closure where
  contentParts : List (List Nat)
  expressed : List (List (List Nat) × Nat)
  onComponentsCalls : List (Option (List (List Nat)))
deriving DecidableEq, Repr

/-- What a call of `upcall` comes to: the closure after it, and the value
returned (`none` is `undefined`). -/
structure Upcalled where
  closure : Closure
  returned : Option Int
deriving DecidableEq, Repr

/-- What `upcall` takes from outside the sources: the constants of `Closure`,
`DataUtils.bigEndianToUnsignedInt`, the result of
`NameEnumeration.parseComponents` (which runs the decoder of
`binary-xml-decoder.js` over a tag dictionary, neither among the sources) as
a value or an exception, and whether the callback `onComponents` throws on a
list of components. -/
structure Globals where
  closureConstants : ClosureConstants
  bigEndianToUnsignedInt : List Nat → Nat
  parseComponents : List Nat → Except String (List (List Nat))
  onComponentsThrows : List (List Nat) → Bool

/-- The end of the `else` branch of `upcall` (lines 87-89): fetch the next
segment. -/
def upcall.fetchNext (g : Globals) (c : Closure) (namePrefix : List (List Nat))
    (expectedSegmentNumber : Nat) : Upcalled :=
  ⟨{ c with expressed := c.expressed ++ [(namePrefix, expectedSegmentNumber + 1)] },
    some g.closureConstants.RESULT_OK⟩

/-- Embeds `NameEnumeration.Closure.prototype.upcall` (lines 55-101). An
`upcallInfo` of `none` stands for one that is `null` or has no
`contentObject`: reading from it throws inside the `try` block, whose `catch`
only logs. The calls `onComponents(null)` and `expressInterest` end their
branches, so whether they throw changes nothing but the log line. -/
def upcall (g : Globals) (c : Closure) (kind : Int) (upcallInfo : Option Data) : Upcalled :=
  if kind = g.closureConstants.UPCALL_CONTENT ∨
      kind = g.closureConstants.UPCALL_CONTENT_UNVERIFIED then
    match upcallInfo with
    | none => ⟨c, some g.closureConstants.RESULT_OK⟩
    | some data =>
      if !endsWithSegmentNumber data.name then
        ⟨{ c with onComponentsCalls := c.onComponentsCalls ++ [none] },
          some g.closureConstants.RESULT_OK⟩
      else
        match data.name.components.bind List.getLast?, data.name.components with
        | some last, some components =>
          let segmentNumber := g.bigEndianToUnsignedInt last
          let expectedSegmentNumber := c.contentParts.length
          if segmentNumber ≠ expectedSegmentNumber then
            ⟨{ c with expressed := c.expressed ++ [(components.dropLast, expectedSegmentNumber)] },
              some g.closureConstants.RESULT_OK⟩
          else
            let c1 := { c with contentParts := c.contentParts ++ [data.content] }
            match data.signedInfo.bind SignedInfo.finalBlockID with
            | some finalBlockID =>
              let finalSegmentNumber := g.bigEndianToUnsignedInt finalBlockID
              if segmentNumber = finalSegmentNumber then
                match g.parseComponents c1.contentParts.flatten with
                | Except.error _ => ⟨c1, some g.closureConstants.RESULT_OK⟩
                | Except.ok parsed =>
                  ⟨{ c1 with onComponentsCalls := c1.onComponentsCalls ++ [some parsed] },
                    if g.onComponentsThrows parsed then some g.closureConstants.RESULT_OK
                    else none⟩
              else upcall.fetchNext g c1 components.dropLast expectedSegmentNumber
            | none => upcall.fetchNext g c1 components.dropLast expectedSegmentNumber
        | _, _ => ⟨c, some g.closureConstants.RESULT_OK⟩
  else
    ⟨{ c with onComponentsCalls := c.onComponentsCalls ++ [none] },
      some g.closureConstants.RESULT_OK⟩

/-- The closure after a sequence of upcalls, each given by its `kind` and its
`upcallInfo`. -/
def upcalls (g : Globals) (c : Closure) (calls : List (Int × Option Data)) : Closure :=
  calls.foldl (fun c call => (upcall g c call.1 call.2).closure) c

/-- A content upcall of the sequence `calls` carried the segment number `i` and
the content `part`. -/
def Received (g : Globals) (calls : List (Int × Option Data)) (i : Nat) (part : List Nat) :
    Prop :=
  ∃ kind data last, (kind, some data) ∈ calls ∧
    (kind = g.closureConstants.UPCALL_CONTENT ∨
      kind = g.closureConstants.UPCALL_CONTENT_UNVERIFIED) ∧
    endsWithSegmentNumber data.name = true ∧
    data.name.components.bind List.getLast? = some last ∧
    g.bigEndianToUnsignedInt last = i ∧ data.content = part

end NameEnumeration

/-! ## The component order -/

theorem Component.compare_neg_iff (a b : Component) : Component.compare a b < 0 ↔ a < b := by
  unfold Component.compare
  by_cases h : a < b
  · simp [h]
  · by_cases h2 : b < a <;> simp [h, h2]

theorem Component.compare_pos_iff (a b : Component) : 0 < Component.compare a b ↔ b < a := by
  unfold Component.compare
  by_cases h : a < b
  · simp [h, not_lt_of_lt h]
  · by_cases h2 : b < a <;> simp [h, h2]

theorem Component.compare_nonpos_iff (a b : Component) : Component.compare a b ≤ 0 ↔ a ≤ b := by
  rw [← not_lt, Component.compare_pos_iff, not_lt]

theorem Component.compare_nonneg_iff (a b : Component) : Component.compare a b ≥ 0 ↔ b ≤ a := by
  rw [ge_iff_le, ← not_lt, Component.compare_neg_iff, not_lt]

theorem Component.compare_zero_iff (a b : Component) : Component.compare a b = 0 ↔ a = b := by
  unfold Component.compare
  by_cases h : a < b
  · simp [h, ne_of_lt h]
  · by_cases h2 : b < a
    · simp [h, h2, ne_of_gt h2]
    · simp [h, h2, le_antisymm (not_lt.mp h2) (not_lt.mp h)]

theorem Component.equals_iff (a b : Component) : Component.equals a b = true ↔ a = b := by
  simp [Component.equals]

/-! ## `splice` on in-range arguments -/

theorem splice_nat {α : Type} (xs : List α) (n d : Nat) (items : List α) :
    splice xs (n : Int) (d : Int) items = xs.take n ++ items ++ xs.drop (n + d) := by
  unfold splice
  have h0 : ¬ ((n : Int) < 0) := by omega
  simp only [h0, if_false]
  by_cases hn : n ≤ xs.length
  · have e1 : (min (n : Int) (xs.length : Int)).toNat = n := by omega
    rw [e1]
    by_cases hd : n + d ≤ xs.length
    · have e2 : (min (max (d : Int) 0) ((xs.length : Int) - min (n : Int) (xs.length : Int))).toNat
          = d := by omega
      rw [e2]
    · have e2 : (min (max (d : Int) 0) ((xs.length : Int) - min (n : Int) (xs.length : Int))).toNat
          = xs.length - n := by omega
      rw [e2]
      have e3 : n + (xs.length - n) = xs.length := by omega
      rw [e3, List.drop_of_length_le (le_refl _), List.drop_of_length_le (by omega)]
  · have e1 : (min (n : Int) (xs.length : Int)).toNat = xs.length := by omega
    rw [e1]
    rw [List.take_of_length_le (le_refl _), List.take_of_length_le (by omega),
      List.drop_of_length_le (by omega), List.drop_of_length_le (by omega)]

/-- A `splice` that starts right after the entry `b`. -/
theorem splice_boundary {α : Type} (P X items : List α) (b : α) (s d : Int) (k : Nat)
    (hs : s = (P.length : Int) + 1) (hd : d = (k : Int)) :
    splice (P ++ b :: X) s d items = P ++ b :: (items ++ X.drop k) := by
  have hs2 : s = ((P.length + 1 : Nat) : Int) := by omega
  rw [hs2, hd, splice_nat]
  have e1 : P ++ b :: X = (P ++ [b]) ++ X := by simp
  have htake : List.take (P.length + 1) (P ++ b :: X) = P ++ [b] := by
    rw [e1]; exact List.take_left' (by simp)
  have hdrop : List.drop (P.length + 1 + k) (P ++ b :: X) = List.drop k X := by
    rw [e1, ← List.drop_drop]
    congr 1
    exact List.drop_left' (by simp)
  rw [htake, hdrop]
  simp

theorem drop_append_cons {α : Type} (M rest : List α) (e : α) :
    (M ++ e :: rest).drop (M.length + 1) = rest := by
  have e1 : M ++ e :: rest = (M ++ [e]) ++ rest := by simp
  rw [e1]
  exact List.drop_left' (by simp)

theorem getElem?_mid {α : Type} (pre post : List α) (e : α) :
    (pre ++ e :: post)[pre.length]? = some e := by
  rw [List.getElem?_append_right (le_refl _)]
  simp

theorem getElem?_after {α : Type} (pre post : List α) (e : α) (j : Nat) :
    (pre ++ e :: post)[pre.length + 1 + j]? = post[j]? := by
  rw [List.getElem?_append_right (by omega)]
  have : pre.length + 1 + j - pre.length = j + 1 := by omega
  rw [this, List.getElem?_cons_succ]

/-- A `splice` whose delete count is not positive removes nothing. -/
theorem splice_nat_nonpos {α : Type} (xs : List α) (n : Nat) (d : Int) (hd : d ≤ 0)
    (items : List α) :
    splice xs (n : Int) d items = xs.take n ++ items ++ xs.drop n := by
  have h := splice_nat xs n 0 items
  unfold splice at h ⊢
  have e : max d 0 = max ((0 : Nat) : Int) 0 := by omega
  rw [e]
  simpa using h

namespace Producer

/-! ## Reading back what `setExcludeEntries` wrote -/

theorem getExcludeEntries_step_component (acc : List ExcludeEntry) (c : Component) :
    getExcludeEntries.step acc (ExcludeValue.component c) = acc ++ [⟨c, false⟩] := rfl

theorem getExcludeEntries_step_any_snoc (acc : List ExcludeEntry) (e : ExcludeEntry) :
    getExcludeEntries.step (acc ++ [e]) ExcludeValue.ANY
      = acc ++ [{ e with anyFollowsComponent_ := true }] := by
  simp [getExcludeEntries.step]

theorem foldl_step_loop (es : List ExcludeEntry) :
    ∀ (i : Nat) (acc : List ExcludeEntry), (i = 0 → acc = []) →
      (setExcludeEntries.loop i es).foldl getExcludeEntries.step acc = acc ++ es := by
  induction es with
  | nil => intro i acc _; simp [setExcludeEntries.loop]
  | cons e rest ih =>
    intro i acc hacc
    rw [setExcludeEntries.loop, List.foldl_append]
    have key : (setExcludeEntries.values i e).foldl getExcludeEntries.step acc = acc ++ [e] := by
      unfold setExcludeEntries.values
      split
      · rename_i h
        obtain ⟨hi, hc, ha⟩ := h
        have hnil : e.component_ = [] := List.length_eq_zero.mp hc
        rw [hacc hi]
        cases e with
        | mk c a =>
          simp only at hnil ha
          subst hnil; subst ha
          simp [getExcludeEntries.step]
      · cases e with
        | mk c a =>
          cases a
          · simp [getExcludeEntries.step]
          · simp only [if_true, List.foldl_cons, List.foldl_nil,
              getExcludeEntries_step_component, getExcludeEntries_step_any_snoc]
    rw [key, ih (i + 1) (acc ++ [e]) (by omega)]
    simp

/-- Reading the entries back from the exclude that `setExcludeEntries` wrote
gives the entries written. -/
theorem getExcludeEntries_setExcludeEntries (ex : Exclude) (es : List ExcludeEntry) :
    getExcludeEntries (setExcludeEntries ex es) = es := by
  unfold getExcludeEntries setExcludeEntries
  simpa using foldl_step_loop es 0 [] (fun _ => rfl)

/-! ## The lookup loop -/

theorem loop_skip (L : List ExcludeEntry) (c : Component) (m : Nat) :
    ∀ k, m ≤ k →
      (∀ i e, m ≤ i → i < k → L[i]? = some e → c < e.component_) →
      findEntryBeforeOrAt.loop L c k = findEntryBeforeOrAt.loop L c m := by
  intro k hk
  induction k, hk using Nat.le_induction with
  | base => intro _; rfl
  | succ k hmk ih =>
    intro h
    rw [findEntryBeforeOrAt.loop]
    have ih2 := ih (fun i e h1 h2 h3 => h i e h1 (by omega) h3)
    cases hget : L[k]? with
    | none => simpa using ih2
    | some e =>
      have hlt := h k e hmk (by omega) hget
      have : ¬ Component.compare e.component_ c ≤ 0 := by
        rw [Component.compare_nonpos_iff]; exact not_le.mpr hlt
      simp only [this, if_false]
      exact ih2

theorem loop_hit (L : List ExcludeEntry) (c : Component) (i : Nat) (e : ExcludeEntry)
    (hget : L[i]? = some e) (hle : e.component_ ≤ c) :
    findEntryBeforeOrAt.loop L c (i + 1) = (i : Int) := by
  rw [findEntryBeforeOrAt.loop, hget]
  simp [(Component.compare_nonpos_iff _ _).mpr hle]

/-- The lookup on `pre ++ e :: post` when `e` is at or before `c` and all of
`post` is after `c`. -/
theorem findEntryBeforeOrAt_split (pre post : List ExcludeEntry) (e : ExcludeEntry)
    (c : Component) (hle : e.component_ ≤ c) (hpost : ∀ x ∈ post, c < x.component_) :
    findEntryBeforeOrAt (pre ++ e :: post) c = (pre.length : Int) := by
  unfold findEntryBeforeOrAt
  rw [loop_skip (pre ++ e :: post) c (pre.length + 1) _ (by simp)]
  · exact loop_hit _ _ _ e (getElem?_mid pre post e) hle
  · intro i x h1 h2 hget
    apply hpost
    have hi : i = pre.length + 1 + (i - (pre.length + 1)) := by omega
    rw [hi, getElem?_after] at hget
    exact List.getElem?_mem hget

/-- The lookup finds nothing when every entry is after `c`. -/
theorem findEntryBeforeOrAt_none (L : List ExcludeEntry) (c : Component)
    (h : ∀ x ∈ L, c < x.component_) : findEntryBeforeOrAt L c = -1 := by
  unfold findEntryBeforeOrAt
  rw [loop_skip L c 0 _ (Nat.zero_le _)]
  · rfl
  · intro i x _ _ hget
    exact h x (List.getElem?_mem hget)

/-- What the loop returns after scanning the indices below `k`. -/
theorem loop_spec (L : List ExcludeEntry) (c : Component) :
    ∀ k, k ≤ L.length →
      (findEntryBeforeOrAt.loop L c k = -1 ∧
          ∀ j e, j < k → L[j]? = some e → 0 < Component.compare e.component_ c) ∨
      (∃ i e, i < k ∧ findEntryBeforeOrAt.loop L c k = (i : Int) ∧ L[i]? = some e ∧
          Component.compare e.component_ c ≤ 0 ∧
          ∀ j x, i < j → j < k → L[j]? = some x → 0 < Component.compare x.component_ c) := by
  intro k
  induction k with
  | zero =>
    intro _
    left
    exact ⟨rfl, fun j e hj => absurd hj (Nat.not_lt_zero _)⟩
  | succ k ih =>
    intro hk
    have hlt : k < L.length := by omega
    rw [findEntryBeforeOrAt.loop]
    have hget : L[k]? = some L[k] := List.getElem?_eq_getElem hlt
    rw [hget]
    by_cases hc : Component.compare L[k].component_ c ≤ 0
    · right
      refine ⟨k, L[k], by omega, by simp [hc], hget, hc, ?_⟩
      intro j x h1 h2
      omega
    · simp only [hc, if_false]
      rcases ih (by omega) with ⟨h1, h2⟩ | ⟨i, e, h1, h2, h3, h4, h5⟩
      · left
        refine ⟨h1, ?_⟩
        intro j x hj hx
        by_cases hjk : j = k
        · subst hjk
          rw [hget] at hx
          cases hx
          omega
        · exact h2 j x (by omega) hx
      · right
        refine ⟨i, e, by omega, h2, h3, h4, ?_⟩
        intro j x hij hj hx
        by_cases hjk : j = k
        · subst hjk
          rw [hget] at hx
          cases hx
          omega
        · exact h5 j x hij (by omega) hx

/-- The two outcomes of the lookup, as a decomposition of the array. -/
theorem findEntryBeforeOrAt_cases (L : List ExcludeEntry) (c : Component) :
    (findEntryBeforeOrAt L c = -1 ∧ ∀ x ∈ L, c < x.component_) ∨
    (∃ pre e post, L = pre ++ e :: post ∧ findEntryBeforeOrAt L c = (pre.length : Int) ∧
        e.component_ ≤ c ∧ ∀ x ∈ post, c < x.component_) := by
  rcases loop_spec L c L.length (le_refl _) with ⟨h1, h2⟩ | ⟨i, e, h1, h2, h3, h4, h5⟩
  · left
    refine ⟨h1, ?_⟩
    intro x hx
    obtain ⟨j, hj, rfl⟩ := List.getElem_of_mem hx
    exact (Component.compare_pos_iff _ _).mp (h2 j _ hj (List.getElem?_eq_getElem hj))
  · right
    have hsplit : L = L.take i ++ e :: L.drop (i + 1) := by
      have he : L[i] = e := by
        have := List.getElem?_eq_getElem h1
        rw [this] at h3
        exact Option.some.inj h3
      rw [← he, ← List.drop_eq_getElem_cons h1, List.take_append_drop]
    have hlen : (L.take i).length = i := by
      rw [List.length_take]; omega
    refine ⟨L.take i, e, L.drop (i + 1), hsplit, ?_, (Component.compare_nonpos_iff _ _).mp h4, ?_⟩
    · rw [hlen]; exact h2
    · intro x hx
      obtain ⟨j, hj, rfl⟩ := List.getElem_of_mem hx
      rw [List.getElem_drop]
      have hj2 : i + 1 + j < L.length := by
        rw [List.length_drop] at hj; omega
      exact (Component.compare_pos_iff _ _).mp
        (h5 (i + 1 + j) _ (by omega) hj2 (List.getElem?_eq_getElem hj2))

/-! ## Strictly increasing lists -/

theorem strictlyIncreasing_iff (L : List ExcludeEntry) :
    StrictlyIncreasing L ↔ L.Pairwise (fun a b => a.component_ < b.component_) := by
  unfold StrictlyIncreasing
  constructor <;> intro h <;> refine h.imp ?_ <;> intro a b hab
  · exact (Component.compare_neg_iff _ _).mp hab
  · exact (Component.compare_neg_iff _ _).mpr hab

/-- An entry with the same component can take the place of another. -/
theorem pairwise_replace (P R : List ExcludeEntry) (e b : ExcludeEntry)
    (hb : b.component_ = e.component_)
    (h : (P ++ e :: R).Pairwise (fun a b => a.component_ < b.component_)) :
    (P ++ b :: R).Pairwise (fun a b => a.component_ < b.component_) := by
  rw [List.pairwise_append] at h ⊢
  obtain ⟨h1, h2, h3⟩ := h
  rw [List.pairwise_cons] at h2 ⊢
  refine ⟨h1, ⟨?_, h2.2⟩, ?_⟩
  · intro x hx; rw [hb]; exact h2.1 x hx
  · intro x hx y hy
    rcases List.mem_cons.mp hy with rfl | hy
    · rw [hb]; exact h3 x hx e (List.mem_cons_self _ _)
    · exact h3 x hx y (List.mem_cons_of_mem _ hy)

/-- A new entry can be put right after `e` when it lies between `e` and all
that follows. -/
theorem pairwise_insert_after (P R : List ExcludeEntry) (e t : ExcludeEntry)
    (het : e.component_ < t.component_) (hR : ∀ x ∈ R, t.component_ < x.component_)
    (h : (P ++ e :: R).Pairwise (fun a b => a.component_ < b.component_)) :
    (P ++ e :: t :: R).Pairwise (fun a b => a.component_ < b.component_) := by
  rw [List.pairwise_append] at h ⊢
  obtain ⟨h1, h2, h3⟩ := h
  rw [List.pairwise_cons] at h2
  refine ⟨h1, ?_, ?_⟩
  · rw [List.pairwise_cons, List.pairwise_cons]
    refine ⟨?_, hR, h2.2⟩
    intro x hx
    rcases List.mem_cons.mp hx with rfl | hx
    · exact het
    · exact h2.1 x hx
  · intro x hx y hy
    rcases List.mem_cons.mp hy with rfl | hy
    · exact h3 x hx y (List.mem_cons_self _ _)
    · rcases List.mem_cons.mp hy with rfl | hy
      · exact lt_trans (h3 x hx e (List.mem_cons_self _ _)) het
      · exact h3 x hx y (List.mem_cons_of_mem _ hy)

/-- Dropping a middle stretch keeps the order. -/
theorem pairwise_drop_middle (P M R : List ExcludeEntry)
    (h : (P ++ (M ++ R)).Pairwise (fun a b => a.component_ < b.component_)) :
    (P ++ R).Pairwise (fun a b => a.component_ < b.component_) := by
  refine h.sublist ?_
  exact List.Sublist.append (List.Sublist.refl P) (List.sublist_append_right M R)

/-! ## The "from" boundary -/

/-- The shape of the array once the "from" boundary stands: the boundary `b`
sits at index `iNewFrom`, carries the ANY flag, is at or before `from`, and
every later entry is after `from`. -/
theorem establishFrom_shape (L : List ExcludeEntry) (from_ : Component) :
    ∃ P b R, establishFrom L from_ = Except.ok (P ++ b :: R, (P.length : Int)) ∧
      b.anyFollowsComponent_ = true ∧ b.component_ ≤ from_ ∧
      (∀ x ∈ R, from_ < x.component_) ∧
      (StrictlyIncreasing L → StrictlyIncreasing (P ++ b :: R)) := by
  rcases findEntryBeforeOrAt_cases L from_ with ⟨h1, h2⟩ | ⟨pre, e, post, hL, hfind, hle, hpost⟩
  · refine ⟨[], ⟨from_, true⟩, L, ?_, rfl, le_refl _, h2, ?_⟩
    · unfold establishFrom
      simp only [h1]
      have := splice_nat L 0 0 [(⟨from_, true⟩ : ExcludeEntry)]
      simp at this
      simp [this]
    · intro hs
      rw [strictlyIncreasing_iff] at hs ⊢
      simpa using And.intro h2 hs
  · have hget : L[(pre.length : Int).toNat]? = some e := by
      rw [hL]; simpa using getElem?_mid pre post e
    have hnn : ¬ ((pre.length : Int) < 0) := by omega
    unfold establishFrom
    simp only [hfind, hnn, if_false, hget]
    cases hany : e.anyFollowsComponent_ with
    | true =>
      refine ⟨pre, e, post, ?_, hany, hle, hpost, ?_⟩
      · simp [hL]
      · intro hs; rw [← hL]; exact hs
    | false =>
      by_cases heq : e.component_ = from_
      · refine ⟨pre, { e with anyFollowsComponent_ := true }, post, ?_, rfl, hle, hpost, ?_⟩
        · have : Component.equals e.component_ from_ = true :=
            (Component.equals_iff _ _).mpr heq
          simp [this, hL]
        · intro hs
          rw [strictlyIncreasing_iff] at hs ⊢
          rw [hL] at hs
          exact pairwise_replace pre post e _ rfl hs
      · refine ⟨pre ++ [e], ⟨from_, true⟩, post, ?_, rfl, le_refl _, hpost, ?_⟩
        · have : Component.equals e.component_ from_ = false := by
            rw [← Bool.not_eq_true, Component.equals_iff]; exact heq
          have hsp := splice_nat L (pre.length + 1) 0 [(⟨from_, true⟩ : ExcludeEntry)]
          have htake : List.take (pre.length + 1) L = pre ++ [e] := by
            rw [hL, show pre ++ e :: post = (pre ++ [e]) ++ post by simp]
            exact List.take_left' (by simp)
          have hdrop : List.drop (pre.length + 1) L = post := by
            rw [hL, show pre ++ e :: post = (pre ++ [e]) ++ post by simp]
            exact List.drop_left' (by simp)
          simp only [Nat.add_zero, htake, hdrop] at hsp
          push_cast at hsp
          simp [this, hsp]
        · intro hs
          rw [strictlyIncreasing_iff] at hs ⊢
          rw [hL] at hs
          have := pairwise_insert_after pre post e ⟨from_, true⟩
            (lt_of_le_of_ne hle heq) hpost hs
          simpa using this

/-- The entry array of `excludeAfter`: it ends with the boundary. -/
theorem excludeAfter_entries_shape (L : List ExcludeEntry) (from_ : Component) :
    ∃ P b, excludeAfter.entries L from_ = Except.ok (P ++ [b]) ∧
      b.anyFollowsComponent_ = true ∧ b.component_ ≤ from_ ∧
      (StrictlyIncreasing L → StrictlyIncreasing (P ++ [b])) := by
  obtain ⟨P, b, R, hE, hb, hble, _, hs⟩ := establishFrom_shape L from_
  refine ⟨P, b, ?_, hb, hble, ?_⟩
  · unfold excludeAfter.entries
    rw [hE]
    simp only
    rw [splice_boundary P R [] b _ _ R.length rfl (by simp)]
    simp
  · intro h
    have h2 := hs h
    rw [strictlyIncreasing_iff] at h2 ⊢
    have := pairwise_drop_middle (P ++ [b]) R [] (by simpa using h2)
    simpa using this

/-! ## The "to" boundary -/

/-- The shape of the entry array of `excludeRange` for `from < to`: the "from"
boundary `b`, then either nothing or the entry `to` without ANY flag, then
entries after `to`. -/
theorem excludeRange_entries_shape (L : List ExcludeEntry) (from_ to_ : Component)
    (hlt : from_ < to_) :
    ∃ P b T B, excludeRange.entries L from_ to_ = Except.ok (P ++ b :: (T ++ B)) ∧
      b.anyFollowsComponent_ = true ∧ b.component_ ≤ from_ ∧
      (T = [] ∨ T = [⟨to_, false⟩]) ∧ (∀ x ∈ B, to_ < x.component_) ∧
      (StrictlyIncreasing L → StrictlyIncreasing (P ++ b :: (T ++ B))) := by
  obtain ⟨P, b, R, hE, hb, hble, _, hs⟩ := establishFrom_shape L from_
  have hbto : b.component_ < to_ := lt_of_le_of_lt hble hlt
  unfold excludeRange.entries
  rw [hE]
  simp only
  rcases findEntryBeforeOrAt_cases (P ++ b :: R) to_ with
    ⟨_, h2⟩ | ⟨pre, e, post, hL, hfind, hle, hpost⟩
  · exact absurd (h2 b (by simp)) (not_lt.mpr (le_of_lt hbto))
  · -- where the found entry lies relative to the boundary
    have hcase : (pre = P ∧ e = b ∧ post = R) ∨
        (∃ M, pre = P ++ b :: M ∧ R = M ++ e :: post) := by
      rcases List.append_eq_append_iff.mp hL with ⟨a, h1, h2⟩ | ⟨c, h1, h2⟩
      · cases a with
        | nil =>
          left
          simp at h1 h2
          exact ⟨h1, h2.1.symm, h2.2.symm⟩
        | cons x M =>
          right
          simp at h2
          obtain ⟨rfl, h2⟩ := h2
          exact ⟨M, h1, h2⟩
      · cases c with
        | nil =>
          left
          simp at h1 h2
          exact ⟨h1.symm, h2.1, h2.2⟩
        | cons x c2 =>
          simp at h2
          have : b ∈ post := by rw [h2.2]; simp
          exact absurd (hpost b this) (not_lt.mpr (le_of_lt hbto))
    rcases hcase with ⟨rfl, rfl, rfl⟩ | ⟨M, rfl, rfl⟩
    · -- the found entry is the boundary itself: "to" goes right after it
      refine ⟨pre, e, [⟨to_, false⟩], post, ?_, hb, hble, Or.inr rfl, hpost, ?_⟩
      · simp only [hfind, if_true]
        rw [splice_boundary pre post _ e _ 0 0 rfl rfl]
        simp
      · intro h
        have h2 := hs h
        rw [strictlyIncreasing_iff] at h2 ⊢
        exact pairwise_insert_after pre post e ⟨to_, false⟩ hbto hpost h2
    · have hne : ¬ (((P ++ b :: M).length : Int) = (P.length : Int)) := by
        simp; omega
      have hnn : ¬ (((P ++ b :: M).length : Int) < 0) := by omega
      have hget : (P ++ b :: (M ++ e :: post))[((P ++ b :: M).length : Int).toNat]? = some e := by
        rw [Int.toNat_ofNat, show P ++ b :: (M ++ e :: post) = (P ++ b :: M) ++ e :: post by simp]
        exact getElem?_mid _ _ _
      have hlenM : ((P ++ b :: M).length : Int) = (P.length : Int) + 1 + (M.length : Int) := by
        simp; omega
      have hsorted : StrictlyIncreasing L →
          (P ++ b :: post).Pairwise (fun a b => a.component_ < b.component_) := by
        intro h
        have h2 := hs h
        rw [strictlyIncreasing_iff] at h2
        have := pairwise_drop_middle (P ++ [b]) (M ++ [e]) post (by simpa using h2)
        simpa using this
      simp only [hfind, hne, if_false, hnn, hget]
      cases hany : e.anyFollowsComponent_ with
      | true =>
        refine ⟨P, b, [], post, ?_, hb, hble, Or.inl rfl, hpost, ?_⟩
        · simp only [Bool.not_true, Bool.false_eq_true, if_false]
          rw [splice_boundary P (M ++ e :: post) [] b _ _ (M.length + 1) rfl
            (by rw [hlenM]; push_cast; omega)]
          rw [drop_append_cons]
        · intro h
          rw [strictlyIncreasing_iff]
          simpa using hsorted h
      | false =>
        refine ⟨P, b, [⟨to_, false⟩], post, ?_, hb, hble, Or.inr rfl, hpost, ?_⟩
        · by_cases heq : e.component_ = to_
          · have h1 : Component.equals e.component_ to_ = true :=
              (Component.equals_iff _ _).mpr heq
            have he : e = ⟨to_, false⟩ := by
              cases e with
              | mk c a => simp only at heq hany; subst heq; subst hany; rfl
            simp only [Bool.not_false, if_true, h1]
            rw [splice_boundary P (M ++ e :: post) [] b _ _ M.length rfl
              (by rw [hlenM]; omega)]
            rw [List.drop_left, he]
            simp
          · have h1 : Component.equals e.component_ to_ = false := by
              rw [← Bool.not_eq_true, Component.equals_iff]; exact heq
            simp only [Bool.not_false, if_true, h1, Bool.false_eq_true, if_false]
            have e1 : P ++ b :: (M ++ e :: post) = (P ++ b :: M) ++ e :: post := by simp
            rw [e1, splice_boundary (P ++ b :: M) post _ e _ 0 0 rfl rfl]
            have e2 : (P ++ b :: M) ++ e :: ([(⟨to_, false⟩ : ExcludeEntry)] ++ List.drop 0 post)
                = P ++ b :: (M ++ e :: (⟨to_, false⟩ :: post)) := by simp
            rw [e2, splice_boundary P _ [] b _ _ (M.length + 1) rfl
              (by rw [hlenM]; push_cast; omega)]
            rw [drop_append_cons]
            simp
        · intro h
          rw [strictlyIncreasing_iff]
          exact pairwise_insert_after P post b ⟨to_, false⟩ hbto hpost (hsorted h)

/-! ## The exclusion query on a decomposed array -/

/-- The query at `c` when the nearest entry at or before `c` is `e`. -/
theorem isExcluded_split (pre post : List ExcludeEntry) (e : ExcludeEntry) (c : Component)
    (hle : e.component_ ≤ c) (hpost : ∀ x ∈ post, c < x.component_) :
    isExcluded (pre ++ e :: post) c =
      ((pre ++ e :: post).any (fun x => x.component_.equals c) || e.anyFollowsComponent_) := by
  unfold isExcluded
  rw [findEntryBeforeOrAt_split pre post e c hle hpost]
  have hnn : ¬ ((pre.length : Int) < 0) := by omega
  have hnext : (pre ++ e :: post)[pre.length + 1]? = post[0]? := getElem?_after pre post e 0
  simp only [hnn, if_false, Int.toNat_ofNat, getElem?_mid, hnext]
  cases post with
  | nil => simp
  | cons n rest =>
    have : Component.compare c n.component_ < 0 :=
      (Component.compare_neg_iff _ _).mpr (hpost n (List.mem_cons_self _ _))
    simp [this]

/-- The query at `c` when every entry is after `c`. -/
theorem isExcluded_none (L : List ExcludeEntry) (c : Component)
    (h : ∀ x ∈ L, c < x.component_) : isExcluded L c = false := by
  unfold isExcluded
  rw [findEntryBeforeOrAt_none L c h]
  have : L.any (fun x => x.component_.equals c) = false := by
    rw [List.any_eq_false]
    intro x hx
    rw [Component.equals_iff]
    exact ne_of_gt (h x hx)
  simp [this]

/-- A component between a boundary with the ANY flag and the next entry is
excluded. -/
theorem isExcluded_of_boundary (pre post : List ExcludeEntry) (e : ExcludeEntry)
    (c : Component) (hany : e.anyFollowsComponent_ = true)
    (hle : e.component_ ≤ c) (hpost : ∀ x ∈ post, c < x.component_) :
    isExcluded (pre ++ e :: post) c = true := by
  rw [isExcluded_split pre post e c hle hpost, hany]
  simp

/-- A component that an entry names is excluded. -/
theorem isExcluded_of_mem (L : List ExcludeEntry) (e : ExcludeEntry) (he : e ∈ L) :
    isExcluded L e.component_ = true := by
  unfold isExcluded
  have : L.any (fun x => x.component_.equals e.component_) = true := by
    rw [List.any_eq_true]
    exact ⟨e, he, (Component.equals_iff _ _).mpr rfl⟩
  simp [this]

/-! ## The operations on the exclude object -/

theorem excludeRange_of_entries (ex : Exclude) (from_ to_ : Component) (hlt : from_ < to_)
    (es : List ExcludeEntry)
    (h : excludeRange.entries (getExcludeEntries ex) from_ to_ = Except.ok es) :
    excludeRange ex from_ to_ = ⟨setExcludeEntries ex es, none⟩ := by
  unfold excludeRange
  have : ¬ Component.compare from_ to_ ≥ 0 := by
    rw [Component.compare_nonneg_iff]; exact not_le.mpr hlt
  simp only [this, if_false, h]

theorem excludeRange_of_not_lt (ex : Exclude) (from_ to_ : Component) (hge : ¬ from_ < to_) :
    (excludeRange ex from_ to_).state = ex ∧ (excludeRange ex from_ to_).thrown ≠ none := by
  unfold excludeRange
  have : Component.compare from_ to_ ≥ 0 := by
    rw [Component.compare_nonneg_iff]; exact not_lt.mp hge
  simp only [this, if_true]
  split <;> simp

theorem excludeAfter_of_entries (ex : Exclude) (from_ : Component) (es : List ExcludeEntry)
    (h : excludeAfter.entries (getExcludeEntries ex) from_ = Except.ok es) :
    excludeAfter ex from_ = ⟨setExcludeEntries ex es, none⟩ := by
  unfold excludeAfter
  simp only [h]

theorem strictlyIncreasing_excludeAfter (ex : Exclude) (from_ : Component)
    (h : StrictlyIncreasing (getExcludeEntries ex)) :
    StrictlyIncreasing (getExcludeEntries (excludeAfter ex from_).state) := by
  obtain ⟨P, b, hE, _, _, hs⟩ := excludeAfter_entries_shape (getExcludeEntries ex) from_
  rw [excludeAfter_of_entries ex from_ _ hE, getExcludeEntries_setExcludeEntries]
  exact hs h

theorem strictlyIncreasing_excludeRange (ex : Exclude) (from_ to_ : Component)
    (h : StrictlyIncreasing (getExcludeEntries ex)) :
    StrictlyIncreasing (getExcludeEntries (excludeRange ex from_ to_).state) := by
  by_cases hlt : from_ < to_
  · obtain ⟨P, b, T, B, hE, _, _, _, _, hs⟩ :=
      excludeRange_entries_shape (getExcludeEntries ex) from_ to_ hlt
    rw [excludeRange_of_entries ex from_ to_ hlt _ hE, getExcludeEntries_setExcludeEntries]
    exact hs h
  · rw [(excludeRange_of_not_lt ex from_ to_ hlt).1]
    exact h

/-- After `excludeRange` with `from < to`, every component of the closed range
from `from` to `to` is excluded. -/
theorem excludeRange_covers (ex : Exclude) (from_ to_ c : Component) (hlt : from_ < to_)
    (h1 : from_ ≤ c) (h2 : c ≤ to_) :
    (excludeRange ex from_ to_).thrown = none ∧
      isExcluded (getExcludeEntries (excludeRange ex from_ to_).state) c = true := by
  obtain ⟨P, b, T, B, hE, hb, hble, hT, hB, _⟩ :=
    excludeRange_entries_shape (getExcludeEntries ex) from_ to_ hlt
  rw [excludeRange_of_entries ex from_ to_ hlt _ hE, getExcludeEntries_setExcludeEntries]
  refine ⟨rfl, ?_⟩
  rcases lt_or_eq_of_le h2 with hcl | hce
  · apply isExcluded_of_boundary P (T ++ B) b c hb (le_trans hble h1)
    intro x hx
    rcases List.mem_append.mp hx with hx | hx
    · rcases hT with rfl | rfl
      · simp at hx
      · simp at hx; subst hx; exact hcl
    · exact lt_trans hcl (hB x hx)
  · subst hce
    rcases hT with rfl | rfl
    · apply isExcluded_of_boundary P ([] ++ B) b c hb (le_trans hble h1)
      intro x hx
      exact hB x (by simpa using hx)
    · exact isExcluded_of_mem _ ⟨c, false⟩ (by simp)

/-! ## The exclude-set claims -/

/-- C1. For all components `from < to` and every exclude (its entry list
strictly increasing or not), `Producer.excludeRange(exclude, from, to)` returns
normally and afterwards every component `c` with `from <= c < to` is excluded
under the spec query. -/
theorem excludeRange_excludes_range (exclude : Exclude) (from_ to_ c : Component)
    (hlt : Component.compare from_ to_ < 0) (h1 : Component.compare from_ c ≤ 0)
    (h2 : Component.compare c to_ < 0) :
    (excludeRange exclude from_ to_).thrown = none ∧
      isExcluded (getExcludeEntries (excludeRange exclude from_ to_).state) c = true :=
  excludeRange_covers exclude from_ to_ c ((Component.compare_neg_iff _ _).mp hlt)
    ((Component.compare_nonpos_iff _ _).mp h1)
    (le_of_lt ((Component.compare_neg_iff _ _).mp h2))

theorem excludeRange_excludes_range_witness :
    Component.compare [1] [9] < 0 ∧ Component.compare [1] [4, 2] ≤ 0 ∧
      Component.compare [4, 2] [9] < 0 ∧
      (excludeRange [ExcludeValue.component [3], ExcludeValue.ANY, ExcludeValue.component [6]]
        [1] [9]).thrown = none ∧
      isExcluded (getExcludeEntries
        (excludeRange [ExcludeValue.component [3], ExcludeValue.ANY, ExcludeValue.component [6]]
          [1] [9]).state) [4, 2] = true :=
  ⟨by decide, by decide, by decide,
    excludeRange_excludes_range _ [1] [9] [4, 2] (by decide) (by decide) (by decide)⟩

/-- C2, as stated, fails: on the empty exclude, where `[2]` is not excluded,
`excludeRange(ex, [1], [2])` returns normally and `[2]` is excluded
afterwards. -/
theorem excludeRange_upper_bound_counterexample :
    Component.compare [1] [2] < 0 ∧
      isExcluded (getExcludeEntries []) [2] = false ∧
      (excludeRange [] [1] [2]).thrown = none ∧
      getExcludeEntries (excludeRange [] [1] [2]).state = [⟨[1], true⟩, ⟨[2], false⟩] ∧
      isExcluded (getExcludeEntries (excludeRange [] [1] [2]).state) [2] = true := by
  decide

/-- C2, amended. Closed upper bound: for components `from < to` and every
exclude, after `Producer.excludeRange(exclude, from, to)` the query "is `to`
excluded" is true; `to` is the last component of the excluded range. -/
theorem excludeRange_upper_bound_closed (exclude : Exclude) (from_ to_ : Component)
    (hlt : Component.compare from_ to_ < 0) :
    (excludeRange exclude from_ to_).thrown = none ∧
      isExcluded (getExcludeEntries (excludeRange exclude from_ to_).state) to_ = true :=
  excludeRange_covers exclude from_ to_ to_ ((Component.compare_neg_iff _ _).mp hlt)
    (le_of_lt ((Component.compare_neg_iff _ _).mp hlt)) (le_refl _)

theorem excludeRange_upper_bound_closed_witness :
    Component.compare [1] [2] < 0 ∧ (excludeRange [] [1] [2]).thrown = none ∧
      isExcluded (getExcludeEntries (excludeRange [] [1] [2]).state) [2] = true :=
  ⟨by decide, excludeRange_upper_bound_closed [] [1] [2] (by decide)⟩

/-- C3. The code at a failing input: on the exclude `[5] ANY` (strictly
increasing entries), `excludeRange(ex, [1], [7])` leaves the single entry
`[1] ANY`; the same call again inserts `[7]` after it, so the second
application changes the entry list (and no longer excludes what lies after
`[7]`). -/
theorem excludeRange_twice_differs :
    StrictlyIncreasing (getExcludeEntries [ExcludeValue.component [5], ExcludeValue.ANY]) ∧
      Component.compare [1] [7] < 0 ∧
      getExcludeEntries
        (excludeRange [ExcludeValue.component [5], ExcludeValue.ANY] [1] [7]).state
        = [⟨[1], true⟩] ∧
      getExcludeEntries
        (excludeRange
          (excludeRange [ExcludeValue.component [5], ExcludeValue.ANY] [1] [7]).state
          [1] [7]).state
        = [⟨[1], true⟩, ⟨[7], false⟩] ∧
      isExcluded (getExcludeEntries
        (excludeRange [ExcludeValue.component [5], ExcludeValue.ANY] [1] [7]).state) [8] = true ∧
      isExcluded (getExcludeEntries
        (excludeRange
          (excludeRange [ExcludeValue.component [5], ExcludeValue.ANY] [1] [7]).state
          [1] [7]).state) [8] = false := by
  decide

/-- C4. `Producer.excludeRange(exclude, from, to)` throws if and only if
`from.compare(to) >= 0`, and whenever it throws the exclude object is exactly
what it was before the call. -/
theorem excludeRange_throws_iff (exclude : Exclude) (from_ to_ : Component) :
    ((excludeRange exclude from_ to_).thrown ≠ none ↔ Component.compare from_ to_ ≥ 0) ∧
      ((excludeRange exclude from_ to_).thrown ≠ none →
        (excludeRange exclude from_ to_).state = exclude) := by
  by_cases hlt : from_ < to_
  · obtain ⟨P, b, T, B, hE, _⟩ :=
      excludeRange_entries_shape (getExcludeEntries exclude) from_ to_ hlt
    rw [excludeRange_of_entries exclude from_ to_ hlt _ hE]
    have : ¬ Component.compare from_ to_ ≥ 0 := by
      rw [Component.compare_nonneg_iff]; exact not_le.mpr hlt
    simp [this]
  · have h := excludeRange_of_not_lt exclude from_ to_ hlt
    have : Component.compare from_ to_ ≥ 0 := by
      rw [Component.compare_nonneg_iff]; exact not_lt.mp hlt
    exact ⟨⟨fun _ => this, fun _ => h.2⟩, fun _ => h.1⟩

/-- C5. Ordering invariant: if the entry list read from an exclude is strictly
increasing by component order, it is strictly increasing after
`Producer.excludeAfter`, after `Producer.excludeBefore` and after
`Producer.excludeRange` (for `from < to`, and also when the call throws and
leaves the exclude as it was). -/
theorem strictlyIncreasing_preserved (exclude : Exclude) (from_ to_ : Component)
    (h : StrictlyIncreasing (getExcludeEntries exclude)) :
    StrictlyIncreasing (getExcludeEntries (excludeAfter exclude from_).state) ∧
      StrictlyIncreasing (getExcludeEntries (excludeBefore exclude to_).state) ∧
      StrictlyIncreasing (getExcludeEntries (excludeRange exclude from_ to_).state) :=
  ⟨strictlyIncreasing_excludeAfter exclude from_ h,
    strictlyIncreasing_excludeRange exclude [] to_ h,
    strictlyIncreasing_excludeRange exclude from_ to_ h⟩

theorem strictlyIncreasing_preserved_witness :
    StrictlyIncreasing (getExcludeEntries
        [ExcludeValue.component [1], ExcludeValue.ANY, ExcludeValue.component [3]]) ∧
      (StrictlyIncreasing (getExcludeEntries (excludeAfter
        [ExcludeValue.component [1], ExcludeValue.ANY, ExcludeValue.component [3]] [2]).state) ∧
      StrictlyIncreasing (getExcludeEntries (excludeBefore
        [ExcludeValue.component [1], ExcludeValue.ANY, ExcludeValue.component [3]] [4]).state) ∧
      StrictlyIncreasing (getExcludeEntries (excludeRange
        [ExcludeValue.component [1], ExcludeValue.ANY, ExcludeValue.component [3]]
        [2] [4]).state)) :=
  ⟨by decide, strictlyIncreasing_preserved _ [2] [4] (by decide)⟩

/-- The spec query agrees on the entry lists `[1] ANY [3] ANY [5]` and
`[1] ANY [5]`: both exclude exactly the components from `[1]` to `[5]`. -/
theorem isExcluded_adjacent_ranges (c : Component) :
    isExcluded [⟨[1], true⟩, ⟨[3], true⟩, ⟨[5], false⟩] c
      = isExcluded [⟨[1], true⟩, ⟨[5], false⟩] c := by
  have h13 : ([1] : Component) < [3] := by decide
  have h35 : ([3] : Component) < [5] := by decide
  by_cases h1 : c < [1]
  · rw [isExcluded_none _ c, isExcluded_none _ c]
    · intro x hx
      simp at hx
      rcases hx with rfl | rfl
      · exact h1
      · exact lt_trans h1 (lt_trans h13 h35)
    · intro x hx
      simp at hx
      rcases hx with rfl | rfl | rfl
      · exact h1
      · exact lt_trans h1 h13
      · exact lt_trans h1 (lt_trans h13 h35)
  · have h1le : ([1] : Component) ≤ c := not_lt.mp h1
    by_cases h5 : c < [5]
    · have hb : isExcluded [⟨[1], true⟩, ⟨[5], false⟩] c = true :=
        isExcluded_of_boundary [] [⟨[5], false⟩] ⟨[1], true⟩ c rfl h1le (by
          intro x hx
          simp at hx
          subst hx
          exact h5)
      by_cases h3 : c < [3]
      · have ha : isExcluded [⟨[1], true⟩, ⟨[3], true⟩, ⟨[5], false⟩] c = true :=
          isExcluded_of_boundary [] [⟨[3], true⟩, ⟨[5], false⟩] ⟨[1], true⟩ c rfl h1le (by
            intro x hx
            simp at hx
            rcases hx with rfl | rfl
            · exact h3
            · exact h5)
        rw [ha, hb]
      · have ha : isExcluded [⟨[1], true⟩, ⟨[3], true⟩, ⟨[5], false⟩] c = true :=
          isExcluded_of_boundary [⟨[1], true⟩] [⟨[5], false⟩] ⟨[3], true⟩ c rfl (not_lt.mp h3) (by
            intro x hx
            simp at hx
            subst hx
            exact h5)
        rw [ha, hb]
    · have h5le : ([5] : Component) ≤ c := not_lt.mp h5
      have ha : isExcluded [⟨[1], true⟩, ⟨[3], true⟩, ⟨[5], false⟩] c
          = (([⟨[1], true⟩, ⟨[3], true⟩, ⟨[5], false⟩] : List ExcludeEntry).any
              (fun x => x.component_.equals c) || false) :=
        isExcluded_split [⟨[1], true⟩, ⟨[3], true⟩] [] ⟨[5], false⟩ c h5le (by simp)
      have hb : isExcluded [⟨[1], true⟩, ⟨[5], false⟩] c
          = (([⟨[1], true⟩, ⟨[5], false⟩] : List ExcludeEntry).any
              (fun x => x.component_.equals c) || false) :=
        isExcluded_split [⟨[1], true⟩] [] ⟨[5], false⟩ c h5le (by simp)
      have hne : Component.equals [3] c = false := by
        rw [← Bool.not_eq_true, Component.equals_iff]
        exact ne_of_lt (lt_of_lt_of_le h35 h5le)
      rw [ha, hb]
      simp [hne]

/-- C6, as stated, fails: `excludeRange([1], [3])` followed by
`excludeRange([3], [5])` and the single call `excludeRange([1], [5])` both
start from the empty exclude and exclude exactly the same components under
the spec query, yet they leave different entry lists; the first keeps the
boundary `[3] ANY` between two adjacent entries. -/
theorem normal_form_not_unique :
    Reachable (excludeRange (excludeRange [] [1] [3]).state [3] [5]).state ∧
      Reachable (excludeRange [] [1] [5]).state ∧
      (∀ c : Component,
        isExcluded (getExcludeEntries
            (excludeRange (excludeRange [] [1] [3]).state [3] [5]).state) c
          = isExcluded (getExcludeEntries (excludeRange [] [1] [5]).state) c) ∧
      getExcludeEntries (excludeRange (excludeRange [] [1] [3]).state [3] [5]).state
        = [⟨[1], true⟩, ⟨[3], true⟩, ⟨[5], false⟩] ∧
      getExcludeEntries (excludeRange [] [1] [5]).state = [⟨[1], true⟩, ⟨[5], false⟩] ∧
      getExcludeEntries (excludeRange (excludeRange [] [1] [3]).state [3] [5]).state
        ≠ getExcludeEntries (excludeRange [] [1] [5]).state := by
  have e1 : getExcludeEntries (excludeRange (excludeRange [] [1] [3]).state [3] [5]).state
      = [⟨[1], true⟩, ⟨[3], true⟩, ⟨[5], false⟩] := by decide
  have e2 : getExcludeEntries (excludeRange [] [1] [5]).state
      = [⟨[1], true⟩, ⟨[5], false⟩] := by decide
  refine ⟨Reachable.range _ _ _ (Reachable.range _ _ _ Reachable.empty),
    Reachable.range _ _ _ Reachable.empty, ?_, e1, e2, ?_⟩
  · intro c
    rw [e1, e2]
    exact isExcluded_adjacent_ranges c
  · rw [e1, e2]
    decide

/-- C6, amended. Every entry list obtained from the empty exclude by a
sequence of `excludeAfter` / `excludeBefore` / `excludeRange` calls is strictly
increasing by component order, so no two of its entries carry the same
component. (Lists that exclude the same components need not be equal:
adjacent ranges are not merged.) -/
theorem reachable_strictlyIncreasing (exclude : Exclude) (h : Reachable exclude) :
    StrictlyIncreasing (getExcludeEntries exclude) ∧
      (getExcludeEntries exclude).Pairwise (fun a b => a.component_ ≠ b.component_) := by
  have hs : StrictlyIncreasing (getExcludeEntries exclude) := by
    induction h with
    | empty => exact List.Pairwise.nil
    | after ex c _ ih => exact strictlyIncreasing_excludeAfter ex c ih
    | before ex c _ ih => exact strictlyIncreasing_excludeRange ex [] c ih
    | range ex a b _ ih => exact strictlyIncreasing_excludeRange ex a b ih
  refine ⟨hs, ?_⟩
  rw [strictlyIncreasing_iff] at hs
  exact hs.imp (fun hab => ne_of_lt hab)

theorem reachable_strictlyIncreasing_witness :
    Reachable (excludeAfter (excludeRange [] [1] [3]).state [2]).state ∧
      StrictlyIncreasing
        (getExcludeEntries (excludeAfter (excludeRange [] [1] [3]).state [2]).state) ∧
      (getExcludeEntries (excludeAfter (excludeRange [] [1] [3]).state [2]).state).Pairwise
        (fun a b => a.component_ ≠ b.component_) :=
  ⟨Reachable.after _ _ (Reachable.range _ _ _ Reachable.empty),
    reachable_strictlyIncreasing _ (Reachable.after _ _ (Reachable.range _ _ _ Reachable.empty))⟩

/-- C7. For every exclude (its entry list strictly increasing or not) and
every component `from`, `Producer.excludeAfter(exclude, from)` returns
normally; afterwards every component `c >= from` is excluded, and the entry
list ends with a boundary entry whose component is `<= from` and whose
`anyFollows` flag is true: no entry remains after that boundary. -/
theorem excludeAfter_spec (exclude : Exclude) (from_ : Component) :
    (excludeAfter exclude from_).thrown = none ∧
      (∀ c : Component, Component.compare from_ c ≤ 0 →
        isExcluded (getExcludeEntries (excludeAfter exclude from_).state) c = true) ∧
      ∃ P b, getExcludeEntries (excludeAfter exclude from_).state = P ++ [b] ∧
        Component.compare b.component_ from_ ≤ 0 ∧ b.anyFollowsComponent_ = true := by
  obtain ⟨P, b, hE, hb, hble, _⟩ := excludeAfter_entries_shape (getExcludeEntries exclude) from_
  rw [excludeAfter_of_entries exclude from_ _ hE, getExcludeEntries_setExcludeEntries]
  refine ⟨rfl, ?_, P, b, rfl, (Component.compare_nonpos_iff _ _).mpr hble, hb⟩
  intro c hc
  exact isExcluded_of_boundary P [] b c hb
    (le_trans hble ((Component.compare_nonpos_iff _ _).mp hc)) (by simp)

/-- C8. `Producer.excludeBefore(exclude, to)` has the same effect as
`Producer.excludeRange(exclude, <zero-length component>, to)` (same resulting
exclude, same error if any), and afterwards every component `c < to` is
excluded. -/
theorem excludeBefore_spec (exclude : Exclude) (to_ : Component) :
    excludeBefore exclude to_ = excludeRange exclude [] to_ ∧
      ∀ c : Component, Component.compare c to_ < 0 →
        (excludeBefore exclude to_).thrown = none ∧
        isExcluded (getExcludeEntries (excludeBefore exclude to_).state) c = true := by
  refine ⟨rfl, ?_⟩
  intro c hc
  have hlt : c < to_ := (Component.compare_neg_iff _ _).mp hc
  have h0 : ([] : Component) ≤ c := List.nil_le
  exact excludeRange_covers exclude [] to_ c (lt_of_le_of_lt h0 hlt) h0 (le_of_lt hlt)

/-- C9. `Producer.findEntryBeforeOrAt(entries, c)` returns -1 iff no entry has
a component `<= c`; otherwise it returns the greatest index `i` with
`entries[i].component_ <= c`: every entry at a higher index compares strictly
greater than `c`. (The function only reads the array.) -/
theorem findEntryBeforeOrAt_spec (entries : List ExcludeEntry) (c : Component) :
    (findEntryBeforeOrAt entries c = -1 ↔
        ∀ e ∈ entries, ¬ Component.compare e.component_ c ≤ 0) ∧
      (findEntryBeforeOrAt entries c ≠ -1 →
        ∃ (i : Nat) (hi : i < entries.length), findEntryBeforeOrAt entries c = (i : Int) ∧
          Component.compare (entries.get ⟨i, hi⟩).component_ c ≤ 0 ∧
          ∀ (j : Nat) (hj : j < entries.length), i < j →
            0 < Component.compare (entries.get ⟨j, hj⟩).component_ c) := by
  rcases loop_spec entries c entries.length (le_refl _) with
    ⟨h1, h2⟩ | ⟨i, e, h1, h2, h3, h4, h5⟩
  · refine ⟨⟨fun _ => ?_, fun _ => h1⟩, fun hne => absurd h1 hne⟩
    intro x hx
    obtain ⟨j, hj, rfl⟩ := List.getElem_of_mem hx
    exact not_le.mpr (h2 j _ hj (List.getElem?_eq_getElem hj))
  · have he : entries[i] = e := by
      have := List.getElem?_eq_getElem h1
      rw [this] at h3
      exact Option.some.inj h3
    have hfind : findEntryBeforeOrAt entries c = (i : Int) := h2
    refine ⟨⟨fun h => ?_, fun h => ?_⟩, fun _ => ⟨i, h1, hfind, ?_, ?_⟩⟩
    · rw [hfind] at h; omega
    · exact absurd h4 (h e (List.getElem?_mem h3))
    · simpa [he] using h4
    · intro j hj hij
      exact h5 j _ hij hj (List.getElem?_eq_getElem hj)

end Producer

namespace NDN

/-! ## The pending-Interest lookup -/

theorem lookupInv_step (matches_name : Interest → Name → Bool) (name : Name)
    (seen : List PITEntry) (result : Option PITEntry) (entry : PITEntry)
    (h : LookupInv matches_name name seen result) :
    LookupInv matches_name name (seen ++ [entry])
      (getEntryForExpressedInterest.step matches_name name result entry) := by
  obtain ⟨hnone, hsome⟩ := h
  unfold getEntryForExpressedInterest.step
  by_cases hm : matches_name entry.interest name = true
  · simp only [hm, if_true]
    cases result with
    | none =>
      have hall := hnone.mp rfl
      refine ⟨⟨fun h => by simp at h, fun h => ?_⟩, ?_⟩
      · have := h entry (by simp)
        rw [hm] at this
        exact absurd this (by simp)
      · intro r hr
        simp only [Option.some.injEq] at hr
        subst hr
        refine ⟨by simp, hm, ?_⟩
        intro e he hme
        rcases List.mem_append.mp he with he | he
        · rw [hall e he] at hme
          exact absurd hme (by simp)
        · simp at he
          subst he
          exact le_refl _
    | some r0 =>
      obtain ⟨hr0, hm0, hmax⟩ := hsome r0 rfl
      by_cases hgt : entry.interest.name.components.length > r0.interest.name.components.length
      · simp only [hgt, if_true]
        refine ⟨⟨fun h => by simp at h, fun h => ?_⟩, ?_⟩
        · have := h entry (by simp)
          rw [hm] at this
          exact absurd this (by simp)
        · intro r hr
          simp only [Option.some.injEq] at hr
          subst hr
          refine ⟨by simp, hm, ?_⟩
          intro e he hme
          rcases List.mem_append.mp he with he | he
          · exact le_trans (hmax e he hme) (le_of_lt hgt)
          · simp at he
            subst he
            exact le_refl _
      · simp only [hgt, if_false]
        refine ⟨⟨fun h => by simp at h, fun h => ?_⟩, ?_⟩
        · have := h entry (by simp)
          rw [hm] at this
          exact absurd this (by simp)
        · intro r hr
          simp only [Option.some.injEq] at hr
          subst hr
          refine ⟨by simp [hr0], hm0, ?_⟩
          intro e he hme
          rcases List.mem_append.mp he with he | he
          · exact hmax e he hme
          · simp at he
            subst he
            exact not_lt.mp hgt
  · have hmf : matches_name entry.interest name = false := by
      simpa using hm
    simp only [hmf, Bool.false_eq_true, if_false]
    refine ⟨⟨fun h => ?_, fun h => ?_⟩, ?_⟩
    · intro e he
      rcases List.mem_append.mp he with he | he
      · exact hnone.mp h e he
      · simp at he
        subst he
        exact hmf
    · exact hnone.mpr (fun e he => h e (by simp [he]))
    · intro r hr
      obtain ⟨hr0, hm0, hmax⟩ := hsome r hr
      refine ⟨by simp [hr0], hm0, ?_⟩
      intro e he hme
      rcases List.mem_append.mp he with he | he
      · exact hmax e he hme
      · simp at he
        subst he
        rw [hmf] at hme
        exact absurd hme (by simp)

theorem lookupInv_foldl (matches_name : Interest → Name → Bool) (name : Name)
    (rest : List PITEntry) :
    ∀ (seen : List PITEntry) (result : Option PITEntry),
      LookupInv matches_name name seen result →
      LookupInv matches_name name (seen ++ rest)
        (rest.foldl (getEntryForExpressedInterest.step matches_name name) result) := by
  induction rest with
  | nil => intro seen result h; simpa using h
  | cons e rest ih =>
    intro seen result h
    have := ih (seen ++ [e]) _ (lookupInv_step matches_name name seen result e h)
    simpa using this

/-- C10. `NDN.getEntryForExpressedInterest(name)` returns null iff no entry of
`NDN.PITTable` has an interest that matches `name`; otherwise it returns an
entry of the table whose interest matches `name` and whose interest name has
the greatest component count among all matching entries. (The function only
reads the table.) This holds whatever `matches_name` decides. -/
theorem getEntryForExpressedInterest_spec (matches_name : Interest → Name → Bool)
    (PITTable : List PITEntry) (name : Name) :
    (getEntryForExpressedInterest matches_name PITTable name = none ↔
        ∀ e ∈ PITTable, matches_name e.interest name = false) ∧
      ∀ r, getEntryForExpressedInterest matches_name PITTable name = some r →
        r ∈ PITTable ∧ matches_name r.interest name = true ∧
        ∀ e ∈ PITTable, matches_name e.interest name = true →
          e.interest.name.components.length ≤ r.interest.name.components.length := by
  have h := lookupInv_foldl matches_name name PITTable [] none
    ⟨⟨fun _ => by simp, fun _ => rfl⟩, fun r hr => by simp at hr⟩
  simpa [LookupInv, getEntryForExpressedInterest] using h

end NDN

namespace NDN

theorem lookupFirst_step (matches_name : Interest → Name → Bool) (name : Name)
    (seen : List PITEntry) (result : Option PITEntry) (entry : PITEntry)
    (hinv : LookupInv matches_name name seen result)
    (h : LookupFirst matches_name name seen result) :
    LookupFirst matches_name name (seen ++ [entry])
      (getEntryForExpressedInterest.step matches_name name result entry) := by
  obtain ⟨hnone, hsome⟩ := hinv
  have hold : ∀ (j : Nat) (e : PITEntry), j < seen.length →
      (seen ++ [entry])[j]? = some e → seen[j]? = some e := by
    intro j e hj he
    rwa [List.getElem?_append_left hj] at he
  have hnew : (seen ++ [entry])[seen.length]? = some entry := by
    exact getElem?_mid seen [] entry
  have hkeep : ∀ r, result = some r → ∃ i, (seen ++ [entry])[i]? = some r ∧
      ∀ (j : Nat) (e : PITEntry), j < i → (seen ++ [entry])[j]? = some e →
        matches_name e.interest name = true →
        e.interest.name.components.length < r.interest.name.components.length := by
    intro r hr
    obtain ⟨i, hi, hlt⟩ := h r hr
    have hil : i < seen.length := by
      by_contra hc
      rw [List.getElem?_eq_none (not_lt.mp hc)] at hi
      exact absurd hi (by simp)
    refine ⟨i, ?_, ?_⟩
    · rw [List.getElem?_append_left hil]; exact hi
    · intro j e hj he hm
      exact hlt j e hj (hold j e (by omega) he) hm
  unfold getEntryForExpressedInterest.step
  by_cases hm : matches_name entry.interest name = true
  · simp only [hm, if_true]
    cases result with
    | none =>
      have hall := hnone.mp rfl
      intro r hr
      simp only [Option.some.injEq] at hr
      subst hr
      refine ⟨seen.length, hnew, ?_⟩
      intro j e hj he hme
      have hmem : e ∈ seen := List.getElem?_mem (hold j e hj he)
      rw [hall e hmem] at hme
      exact absurd hme (by simp)
    | some r0 =>
      obtain ⟨_, _, hmax⟩ := hsome r0 rfl
      by_cases hgt : entry.interest.name.components.length > r0.interest.name.components.length
      · simp only [hgt, if_true]
        intro r hr
        simp only [Option.some.injEq] at hr
        subst hr
        refine ⟨seen.length, hnew, ?_⟩
        intro j e hj he hme
        have hmem : e ∈ seen := List.getElem?_mem (hold j e hj he)
        exact lt_of_le_of_lt (hmax e hmem hme) hgt
      · simp only [hgt, if_false]
        exact hkeep
  · have hmf : matches_name entry.interest name = false := by
      simpa using hm
    simp only [hmf, Bool.false_eq_true, if_false]
    exact hkeep

theorem lookupFirst_foldl (matches_name : Interest → Name → Bool) (name : Name)
    (rest : List PITEntry) :
    ∀ (seen : List PITEntry) (result : Option PITEntry),
      LookupInv matches_name name seen result →
      LookupFirst matches_name name seen result →
      LookupFirst matches_name name (seen ++ rest)
        (rest.foldl (getEntryForExpressedInterest.step matches_name name) result) := by
  induction rest with
  | nil => intro seen result _ h; simpa using h
  | cons e rest ih =>
    intro seen result hinv h
    have := ih (seen ++ [e]) _ (lookupInv_step matches_name name seen result e hinv)
      (lookupFirst_step matches_name name seen result e hinv h)
    simpa using this

/-- C11. Tie-break by insertion order: the entry that
`NDN.getEntryForExpressedInterest` returns stands at a table index `i` such
that every matching entry at a lower index has a strictly smaller
interest-name component count, while no matching entry anywhere has a greater
one; so among the matching entries with the maximal count it is the one at
the lowest index. -/
theorem getEntryForExpressedInterest_first (matches_name : Interest → Name → Bool)
    (PITTable : List PITEntry) (name : Name) (r : PITEntry)
    (h : getEntryForExpressedInterest matches_name PITTable name = some r) :
    ∃ i, PITTable[i]? = some r ∧
      (∀ (j : Nat) (e : PITEntry), j < i → PITTable[j]? = some e →
        matches_name e.interest name = true →
        e.interest.name.components.length < r.interest.name.components.length) ∧
      (∀ e ∈ PITTable, matches_name e.interest name = true →
        e.interest.name.components.length ≤ r.interest.name.components.length) := by
  have h0 : LookupInv matches_name name [] none :=
    ⟨⟨fun _ => by simp, fun _ => rfl⟩, fun r hr => by simp at hr⟩
  have h1 := lookupFirst_foldl matches_name name PITTable [] none h0
    (fun r hr => by simp at hr)
  have h2 := lookupInv_foldl matches_name name PITTable [] none h0
  simp only [List.nil_append] at h1 h2
  obtain ⟨i, hi, hlt⟩ := h1 r h
  exact ⟨i, hi, hlt, (h2.2 r h).2.2⟩

theorem getEntryForExpressedInterest_first_witness :
    getEntryForExpressedInterest (fun i n => i.name.components.isPrefixOf n.components)
        [⟨⟨⟨[[97]]⟩, none, none, none, none⟩, 1⟩,
         ⟨⟨⟨[[97], [98]]⟩, none, none, none, none⟩, 2⟩,
         ⟨⟨⟨[[97], [98]]⟩, none, none, none, none⟩, 3⟩]
        ⟨[[97], [98], [99]]⟩
      = some ⟨⟨⟨[[97], [98]]⟩, none, none, none, none⟩, 2⟩ ∧
    ∃ i, ([⟨⟨⟨[[97]]⟩, none, none, none, none⟩, 1⟩,
         ⟨⟨⟨[[97], [98]]⟩, none, none, none, none⟩, 2⟩,
         ⟨⟨⟨[[97], [98]]⟩, none, none, none, none⟩, 3⟩] : List PITEntry)[i]?
        = some ⟨⟨⟨[[97], [98]]⟩, none, none, none, none⟩, 2⟩ ∧
      (∀ (j : Nat) (e : PITEntry), j < i →
        ([⟨⟨⟨[[97]]⟩, none, none, none, none⟩, 1⟩,
         ⟨⟨⟨[[97], [98]]⟩, none, none, none, none⟩, 2⟩,
         ⟨⟨⟨[[97], [98]]⟩, none, none, none, none⟩, 3⟩] : List PITEntry)[j]? = some e →
        e.interest.name.components.isPrefixOf [[97], [98], [99]] = true →
        e.interest.name.components.length < 2) ∧
      (∀ e ∈ ([⟨⟨⟨[[97]]⟩, none, none, none, none⟩, 1⟩,
         ⟨⟨⟨[[97], [98]]⟩, none, none, none, none⟩, 2⟩,
         ⟨⟨⟨[[97], [98]]⟩, none, none, none, none⟩, 3⟩] : List PITEntry),
        e.interest.name.components.isPrefixOf [[97], [98], [99]] = true →
        e.interest.name.components.length ≤ 2) :=
  ⟨by decide,
    getEntryForExpressedInterest_first
      (fun i n => i.name.components.isPrefixOf n.components)
      [⟨⟨⟨[[97]]⟩, none, none, none, none⟩, 1⟩,
       ⟨⟨⟨[[97], [98]]⟩, none, none, none, none⟩, 2⟩,
       ⟨⟨⟨[[97], [98]]⟩, none, none, none, none⟩, 3⟩]
      ⟨[[97], [98], [99]]⟩
      ⟨⟨⟨[[97], [98]]⟩, none, none, none, none⟩, 2⟩ (by decide)⟩

end NDN

namespace DynamicBuffer

theorem newBuffer_length (fresh : Nat → Nat) (n : Nat) : (newBuffer fresh n).length = n := by
  simp [newBuffer]

/-- C20. `DynamicBuffer.ensureLength(length)` never throws. If the array
length is already `>= length`, neither the array nor `this.length` changes;
otherwise the new array length is exactly `max(2 * old array length, length)`
and `this.length` is set to it. In every case the array length afterwards is
`>= length`. -/
theorem ensureLength_spec (fresh : Nat → Nat) (b : DynamicBuffer) (length : Nat) :
    ∃ b2, ensureLength fresh b length = Except.ok b2 ∧
      (b.array.length ≥ length → b2 = b) ∧
      (b.array.length < length →
        b2.array.length = max (2 * b.array.length) length ∧ b2.length = b2.array.length) ∧
      b2.array.length ≥ length := by
  unfold ensureLength
  by_cases h : b.array.length ≥ length
  · rw [if_pos h]
    exact ⟨b, rfl, fun _ => rfl, fun h2 => absurd h (not_le.mpr h2), h⟩
  · rw [if_neg h]
    have hfit : ¬ (0 + b.array.length >
        (newBuffer fresh (if length > b.array.length * 2 then length
          else b.array.length * 2)).length) := by
      rw [newBuffer_length]
      split <;> omega
    simp only [bufferSet, hfit, if_false]
    refine ⟨_, rfl, fun h2 => absurd h2 h, fun _ => ?_, ?_⟩
    · simp only [List.take_zero, List.nil_append, List.length_append, List.length_drop,
        List.length_map, newBuffer_length]
      split <;> omega
    · simp only [List.take_zero, List.nil_append, List.length_append, List.length_drop,
        List.length_map, newBuffer_length]
      split <;> omega

end DynamicBuffer

namespace BinaryXMLDecoder

/-! ## One turn of the header loop -/

theorem next_at (pre post : List Nat) (x : Nat) :
    next ⟨pre ++ x :: post, (pre.length : Int)⟩ = some x := by
  unfold next
  have h : ¬ ((pre.length : Int) < 0) := by omega
  simp only [h, if_false, Int.toNat_ofNat]
  exact getElem?_mid pre post x

theorem next_past_end (d : BinaryXMLDecoder) (h : (d.istream.length : Int) ≤ d.offset) :
    d.next = none := by
  unfold next
  have h0 : ¬ (d.offset < 0) := by omega
  simp only [h0, if_false]
  apply List.getElem?_eq_none
  omega

theorem loop_null (fuel : Nat) (d : BinaryXMLDecoder) (h : d.next = some 0) :
    decodeTypeAndVal.loop (fuel + 1) d 0 = Run.ret none d := by
  rw [decodeTypeAndVal.loop]
  simp [h]

theorem loop_more (fuel : Nat) (d : BinaryXMLDecoder) (val : Nat)
    (hnull : ¬ (d.next = some 0 ∧ val = 0))
    (hmore : (d.next.getD 0 &&& XML_TT_NO_MORE) = 0) :
    decodeTypeAndVal.loop (fuel + 1) d val =
      decodeTypeAndVal.loop fuel { d with offset := d.offset + 1 }
        (shl32 val XML_REG_VAL_BITS ||| (d.next.getD 0 &&& XML_REG_VAL_MASK)) := by
  rw [decodeTypeAndVal.loop]
  simp only [hnull, if_false, hmore, if_true]

theorem loop_last (fuel : Nat) (d : BinaryXMLDecoder) (val : Nat)
    (hnull : ¬ (d.next = some 0 ∧ val = 0))
    (hlast : (d.next.getD 0 &&& XML_TT_NO_MORE) ≠ 0) :
    decodeTypeAndVal.loop (fuel + 1) d val =
      Run.ret (some ⟨d.next.getD 0 &&& XML_TT_MASK,
          int32 (shl32 val XML_TT_VAL_BITS |||
            ((d.next.getD 0 >>> XML_TT_BITS) &&& XML_TT_VAL_MASK))⟩)
        { d with offset := d.offset + 1 } := by
  rw [decodeTypeAndVal.loop]
  simp only [hnull, if_false, hlast]

/-- Once the cursor is at or past the end of the buffer, every read gives
`undefined`, `more` stays true, and the loop never ends. -/
theorem loop_past_end (fuel : Nat) :
    ∀ (d : BinaryXMLDecoder) (val : Nat), (d.istream.length : Int) ≤ d.offset →
      decodeTypeAndVal.loop fuel d val = Run.timeout := by
  induction fuel with
  | zero => intro d val _; rfl
  | succ k ih =>
    intro d val h
    have hn := next_past_end d h
    rw [loop_more k d val (by simp [hn]) (by simp [hn])]
    apply ih
    show (d.istream.length : Int) ≤ d.offset + 1
    omega

/-- The loop only moves the cursor forward and never touches the buffer. -/
theorem loop_forward (fuel : Nat) :
    ∀ (d : BinaryXMLDecoder) (val : Nat),
      (∀ v d2, decodeTypeAndVal.loop fuel d val = Run.ret v d2 →
        d.offset ≤ d2.offset ∧ d2.istream = d.istream) ∧
      (∀ msg d2, decodeTypeAndVal.loop fuel d val ≠ Run.throw msg d2) := by
  induction fuel with
  | zero =>
    intro d val
    exact ⟨fun v d2 h => by simp [decodeTypeAndVal.loop] at h,
      fun msg d2 h => by simp [decodeTypeAndVal.loop] at h⟩
  | succ k ih =>
    intro d val
    by_cases hnull : d.next = some 0 ∧ val = 0
    · obtain ⟨h1, h2⟩ := hnull
      subst h2
      rw [loop_null k d h1]
      refine ⟨fun v d2 h => ?_, fun msg d2 h => by simp at h⟩
      simp only [Run.ret.injEq] at h
      obtain ⟨_, rfl⟩ := h
      exact ⟨le_refl _, rfl⟩
    · by_cases hmore : (d.next.getD 0 &&& XML_TT_NO_MORE) = 0
      · rw [loop_more k d val hnull hmore]
        obtain ⟨h1, h2⟩ := ih { d with offset := d.offset + 1 }
          (shl32 val XML_REG_VAL_BITS ||| (d.next.getD 0 &&& XML_REG_VAL_MASK))
        refine ⟨fun v d2 h => ?_, h2⟩
        obtain ⟨h3, h4⟩ := h1 v d2 h
        simp only at h3 h4
        exact ⟨by omega, h4⟩
      · rw [loop_last k d val hnull hmore]
        refine ⟨fun v d2 h => ?_, fun msg d2 h => by simp at h⟩
        simp only [Run.ret.injEq] at h
        obtain ⟨_, rfl⟩ := h
        exact ⟨by simp, rfl⟩

/-- The loop on a header: the bytes `hs` all leave `more` true, the byte
`last` ends the header, and the cursor stops right after `last`. -/
theorem loop_header (rest : List Nat) (last : Nat) (hlast : last &&& XML_TT_NO_MORE ≠ 0)
    (hs : List Nat) :
    ∀ (pre : List Nat) (val fuel : Nat), hs.length < fuel →
      (∀ b ∈ hs, b &&& XML_TT_NO_MORE = 0) → NoEarlyNull val hs →
      decodeTypeAndVal.loop fuel ⟨pre ++ hs ++ last :: rest, (pre.length : Int)⟩ val =
        Run.ret (some ⟨last &&& XML_TT_MASK,
            int32 (shl32 (headerAcc val hs) XML_TT_VAL_BITS |||
              ((last >>> XML_TT_BITS) &&& XML_TT_VAL_MASK))⟩)
          ⟨pre ++ hs ++ last :: rest, (pre.length : Int) + hs.length + 1⟩ := by
  induction hs with
  | nil =>
    intro pre val fuel hfuel _ _
    obtain ⟨k, rfl⟩ : ∃ k, fuel = k + 1 := ⟨fuel - 1, by simp at hfuel; omega⟩
    simp only [List.append_nil]
    have hn : next ⟨pre ++ last :: rest, (pre.length : Int)⟩ = some last :=
      next_at pre rest last
    have hne : last ≠ 0 := by
      intro h0; subst h0; simp at hlast
    have hnull : ¬ (next ⟨pre ++ last :: rest, (pre.length : Int)⟩ = some 0 ∧ val = 0) := by
      rw [hn]
      intro h
      exact hne (Option.some.inj h.1)
    have hl : (next ⟨pre ++ last :: rest, (pre.length : Int)⟩).getD 0 &&& XML_TT_NO_MORE ≠ 0 := by
      rw [hn]; exact hlast
    rw [loop_last k _ val hnull hl, hn]
    simp [headerAcc]
  | cons b hs ih =>
    intro pre val fuel hfuel hcont hnn
    obtain ⟨k, rfl⟩ : ∃ k, fuel = k + 1 := ⟨fuel - 1, by simp at hfuel; omega⟩
    have e0 : pre ++ b :: hs ++ last :: rest = pre ++ b :: (hs ++ last :: rest) := by simp
    have hn : next ⟨pre ++ b :: (hs ++ last :: rest), (pre.length : Int)⟩ = some b :=
      next_at pre (hs ++ last :: rest) b
    obtain ⟨hnn1, hnn2⟩ := hnn
    have hb := hcont b (List.mem_cons_self _ _)
    have hnull : ¬ (next ⟨pre ++ b :: (hs ++ last :: rest), (pre.length : Int)⟩ = some 0
        ∧ val = 0) := by
      rw [hn]
      intro h
      exact hnn1 ⟨Option.some.inj h.1, h.2⟩
    have hm : (next ⟨pre ++ b :: (hs ++ last :: rest), (pre.length : Int)⟩).getD 0
        &&& XML_TT_NO_MORE = 0 := by
      rw [hn]; exact hb
    rw [e0, loop_more k _ val hnull hm, hn]
    have e1 : pre ++ b :: (hs ++ last :: rest) = (pre ++ [b]) ++ hs ++ last :: rest := by simp
    have e2 : (pre.length : Int) + 1 = ((pre ++ [b]).length : Int) := by simp
    simp only [Option.getD_some]
    rw [e1, e2, ih (pre ++ [b]) _ k (by simp at hfuel; omega)
      (fun x hx => hcont x (List.mem_cons_of_mem _ hx)) hnn2]
    simp only [headerAcc, List.foldl_cons, List.length_append, List.length_cons,
      List.length_nil, Nat.cast_add, Nat.cast_one, Nat.cast_zero]
    congr 2
    omega

theorem noEarlyNull_of_ne_zero (hs : List Nat) (h : ∀ b ∈ hs, b ≠ 0) :
    ∀ val, NoEarlyNull val hs := by
  induction hs with
  | nil => intro val; trivial
  | cons b rest ih =>
    intro val
    exact ⟨fun hc => h b (List.mem_cons_self _ _) hc.1,
      ih (fun x hx => h x (List.mem_cons_of_mem _ hx)) _⟩

/-- The header decode on a buffer that holds, at the cursor, the bytes `hs`
(high bit clear, none taken for a close byte) and then `last` (high bit
set). -/
theorem decodeTypeAndVal_header (pre hs rest : List Nat) (last fuel : Nat)
    (hfuel : hs.length < fuel) (hcont : ∀ b ∈ hs, b &&& XML_TT_NO_MORE = 0)
    (hnn : NoEarlyNull 0 hs) (hlast : last &&& XML_TT_NO_MORE ≠ 0) :
    decodeTypeAndVal fuel ⟨pre ++ hs ++ last :: rest, (pre.length : Int)⟩ =
      Run.ret (some ⟨last &&& XML_TT_MASK, headerVal hs last⟩)
        ⟨pre ++ hs ++ last :: rest, (pre.length : Int) + hs.length + 1⟩ :=
  loop_header rest last hlast hs pre 0 fuel hfuel hcont hnn

/-! ## What the decoder calls do to the cursor -/

theorem decodeTypeAndVal_forward (fuel : Nat) (d : BinaryXMLDecoder) (v : Option TypeAndVal)
    (d1 : BinaryXMLDecoder) (h : decodeTypeAndVal fuel d = Run.ret v d1) :
    d.offset ≤ d1.offset ∧ d1.istream = d.istream :=
  (loop_forward fuel d 0).1 v d1 h

theorem decodeTypeAndVal_no_throw (fuel : Nat) (d : BinaryXMLDecoder) (msg : String)
    (d1 : BinaryXMLDecoder) : decodeTypeAndVal fuel d ≠ Run.throw msg d1 :=
  (loop_forward fuel d 0).2 msg d1

theorem decodeTypeAndVal_past_end (fuel : Nat) (d : BinaryXMLDecoder)
    (h : (d.istream.length : Int) ≤ d.offset) : decodeTypeAndVal fuel d = Run.timeout :=
  loop_past_end fuel d 0 h

theorem decodeUString_eq (fuel : Nat) (d : BinaryXMLDecoder) (n : Int) :
    decodeUString fuel d n =
      Run.ret ((jsSlice d.istream (d.offset + n) (d.offset + n + n)).map (fun b => b &&& 0x7F))
        ⟨d.istream, d.offset + n + n⟩ := by
  simp [decodeUString, decodeBlob, decodeBlob.bytes]

/-- The array method `slice` on indices that are not negative. -/
theorem jsSlice_nat {α : Type} (xs : List α) (a b : Nat) :
    jsSlice xs (a : Int) (b : Int) = (xs.drop a).take (b - a) := by
  unfold jsSlice
  have ha : ¬ ((a : Int) < 0) := by omega
  have hb : ¬ ((b : Int) < 0) := by omega
  simp only [ha, hb, if_false]
  by_cases hal : a ≤ xs.length
  · have e1 : (min (a : Int) (xs.length : Int)).toNat = a := by omega
    rw [e1]
    by_cases hbl : b ≤ xs.length
    · have e2 : (min (b : Int) (xs.length : Int) - min (a : Int) (xs.length : Int)).toNat
          = b - a := by omega
      rw [e2]
    · have e2 : (min (b : Int) (xs.length : Int) - min (a : Int) (xs.length : Int)).toNat
          = xs.length - a := by omega
      rw [e2, List.take_of_length_le (by simp), List.take_of_length_le (by simp; omega)]
  · have e1 : (min (a : Int) (xs.length : Int)).toNat = xs.length := by omega
    rw [e1, List.drop_of_length_le (le_refl _), List.drop_of_length_le (by omega)]
    simp

theorem decodeBlob_some_nat (fuel : Nat) (d : BinaryXMLDecoder) (n : Nat)
    (h0 : 0 ≤ d.offset) :
    decodeBlob fuel d (some (n : Int)) =
      Run.ret ((d.istream.drop d.offset.toNat).take n) ⟨d.istream, d.offset + n⟩ := by
  obtain ⟨o, ho⟩ : ∃ o : Nat, d.offset = (o : Int) := ⟨d.offset.toNat, by omega⟩
  simp only [decodeBlob, decodeBlob.bytes, ho, Int.toNat_ofNat]
  have e : (o : Int) + (n : Int) = ((o + n : Nat) : Int) := by push_cast; rfl
  rw [e, jsSlice_nat]
  simp

/-! ## The decoder claims -/

/-- C12. The code at two failing inputs: on the empty buffer, and on the
one-byte buffer `[0x01]` (a header byte that asks for more, with nothing
after it), `decodeTypeAndVal` from cursor 0 is still in its loop whatever the
number of turns allowed: it neither returns a value nor reports a failure. -/
theorem decodeTypeAndVal_never_returns (fuel : Nat) :
    decodeTypeAndVal fuel ⟨[], 0⟩ = Run.timeout ∧
      decodeTypeAndVal fuel ⟨[0x01], 0⟩ = Run.timeout := by
  refine ⟨decodeTypeAndVal_past_end fuel ⟨[], 0⟩ (by simp), ?_⟩
  cases fuel with
  | zero => rfl
  | succ k =>
    have hn : next ⟨[0x01], 0⟩ = some 1 := by decide
    unfold decodeTypeAndVal
    rw [loop_more k ⟨[0x01], 0⟩ 0 (by rw [hn]; simp) (by rw [hn]; decide)]
    exact loop_past_end k _ _ (by simp)

/-- C13, as stated, fails: in `[0x01, 0x8A]` the first byte has its high bit
clear and the header goes on to the second byte, whose high bit is set and
which ends it (type 2, value 17, cursor 2); in `[0x8A, 0x01]` the first byte
has its high bit set and the header ends there (type 2, value 1, cursor 1). -/
theorem decodeTypeAndVal_high_bit_counterexample :
    (0x01 &&& 0x80 = 0) ∧ (0x8A &&& 0x80 ≠ 0) ∧
      decodeTypeAndVal 2 ⟨[0x01, 0x8A], 0⟩ = Run.ret (some ⟨2, 17⟩) ⟨[0x01, 0x8A], 2⟩ ∧
      decodeTypeAndVal 2 ⟨[0x8A, 0x01], 0⟩ = Run.ret (some ⟨2, 1⟩) ⟨[0x8A, 0x01], 1⟩ := by
  decide

/-- C13, amended. In the legacy header read by `decodeTypeAndVal`, a byte
whose high bit (0x80, `XML_TT_NO_MORE`) is clear signals that more header
bytes follow, and the header ends at the first byte whose high bit is set:
with the bytes `hs` (high bit clear, none of them a zero byte met while the
value is still zero, which the loop takes for a close byte) and then `last`
(high bit set) at the cursor, the call returns the type and value read from
them and leaves the cursor right after `last`. -/
theorem decodeTypeAndVal_high_bit_ends_header (pre hs rest : List Nat) (last fuel : Nat)
    (hfuel : hs.length < fuel) (hcont : ∀ b ∈ hs, b &&& XML_TT_NO_MORE = 0)
    (hnn : NoEarlyNull 0 hs) (hlast : last &&& XML_TT_NO_MORE ≠ 0) :
    decodeTypeAndVal fuel ⟨pre ++ hs ++ last :: rest, (pre.length : Int)⟩ =
      Run.ret (some ⟨last &&& XML_TT_MASK, headerVal hs last⟩)
        ⟨pre ++ hs ++ last :: rest, (pre.length : Int) + hs.length + 1⟩ :=
  decodeTypeAndVal_header pre hs rest last fuel hfuel hcont hnn hlast

theorem decodeTypeAndVal_high_bit_ends_header_witness :
    decodeTypeAndVal 3 ⟨[9] ++ [0x01, 0x00] ++ 0x8A :: [7], (([9] : List Nat).length : Int)⟩ =
      Run.ret (some ⟨0x8A &&& XML_TT_MASK, headerVal [0x01, 0x00] 0x8A⟩)
        ⟨[9] ++ [0x01, 0x00] ++ 0x8A :: [7],
          (([9] : List Nat).length : Int) + ([0x01, 0x00] : List Nat).length + 1⟩ :=
  decodeTypeAndVal_high_bit_ends_header [9] [0x01, 0x00] [7] 0x8A 3 (by decide) (by decide)
    ⟨by decide, by decide, trivial⟩ (by decide)

/-- C16. When at least `n` bytes remain after the cursor,
`decodeBlob(istream, n)` returns exactly the `n` bytes at positions
`[offset, offset + n)` of the buffer, advances the offset by exactly `n`, and
leaves the buffer unchanged. -/
theorem decodeBlob_exact (fuel : Nat) (d : BinaryXMLDecoder) (n : Nat)
    (h0 : 0 ≤ d.offset) (hn : d.offset + n ≤ d.istream.length) :
    ∃ bytes, decodeBlob fuel d (some (n : Int)) = Run.ret bytes ⟨d.istream, d.offset + n⟩ ∧
      bytes.length = n ∧
      ∀ i, i < n → bytes[i]? = d.istream[d.offset.toNat + i]? := by
  refine ⟨_, decodeBlob_some_nat fuel d n h0, ?_, ?_⟩
  · rw [List.length_take, List.length_drop]
    omega
  · intro i hi
    rw [List.getElem?_take_of_lt hi, List.getElem?_drop]

theorem decodeBlob_exact_witness :
    ∃ bytes, decodeBlob 0 ⟨[1, 2, 3, 4, 5], 1⟩ (some ((3 : Nat) : Int))
        = Run.ret bytes ⟨[1, 2, 3, 4, 5], 1 + (3 : Nat)⟩ ∧
      bytes.length = 3 ∧
      ∀ i, i < 3 → bytes[i]? = ([1, 2, 3, 4, 5] : List Nat)[(1 : Int).toNat + i]? :=
  decodeBlob_exact 0 ⟨[1, 2, 3, 4, 5], 1⟩ 3 (by decide) (by decide)

/-- C17, as stated, fails: with one byte left and three asked for,
`decodeBlob(istream, 3)` does not fail; it returns the one byte and leaves the
cursor at 3, past the end of the buffer. -/
theorem decodeBlob_short_counterexample :
    decodeBlob 0 ⟨[7], 0⟩ (some 3) = Run.ret [7] ⟨[7], 3⟩ ∧
      ([7] : List Nat).length < 3 := by
  decide

/-- C17, amended. `decodeBlob(istream, n)` with a length that is not negative
never fails: when the cursor is inside the buffer and fewer than `n` bytes
remain between it and the end of the buffer, the call returns the bytes that remain, fewer than `n`, and still
adds `n` to the cursor, which ends past the end of the buffer. -/
theorem decodeBlob_short (fuel : Nat) (d : BinaryXMLDecoder) (n : Nat)
    (h0 : 0 ≤ d.offset) (h1 : d.offset ≤ d.istream.length)
    (hn : (d.istream.length : Int) < d.offset + n) :
    decodeBlob fuel d (some (n : Int)) =
        Run.ret (d.istream.drop d.offset.toNat) ⟨d.istream, d.offset + n⟩ ∧
      (d.istream.drop d.offset.toNat).length < n ∧
      (d.istream.length : Int) < d.offset + n := by
  have hlen : (d.istream.drop d.offset.toNat).length < n := by
    rw [List.length_drop]; omega
  refine ⟨?_, hlen, hn⟩
  rw [decodeBlob_some_nat fuel d n h0, List.take_of_length_le (le_of_lt hlen)]

theorem decodeBlob_short_witness :
    decodeBlob 0 ⟨[7, 8], 1⟩ (some ((3 : Nat) : Int)) =
        Run.ret (([7, 8] : List Nat).drop (1 : Int).toNat) ⟨[7, 8], 1 + (3 : Nat)⟩ ∧
      (([7, 8] : List Nat).drop (1 : Int).toNat).length < 3 ∧
      ((([7, 8] : List Nat).length : Nat) : Int) < 1 + (3 : Nat) :=
  decodeBlob_short 0 ⟨[7, 8], 1⟩ 3 (by decide) (by decide) (by decide)

theorem decodeTypeAndVal_cases (fuel : Nat) (d : BinaryXMLDecoder) :
    decodeTypeAndVal fuel d = Run.timeout ∨
      ∃ v d1, decodeTypeAndVal fuel d = Run.ret v d1 ∧ d.offset ≤ d1.offset ∧
        d1.istream = d.istream := by
  cases h : decodeTypeAndVal fuel d with
  | timeout => exact Or.inl rfl
  | throw msg d1 => exact absurd h (decodeTypeAndVal_no_throw fuel d msg d1)
  | ret v d1 =>
    obtain ⟨h1, h2⟩ := decodeTypeAndVal_forward fuel d v d1 h
    exact Or.inr ⟨v, d1, rfl, h1, h2⟩

theorem restore_eq (d d1 : BinaryXMLDecoder) (h : d1.istream = d.istream) :
    ({ d1 with offset := d.offset } : BinaryXMLDecoder) = d := by
  cases d; cases d1
  simp only at h
  subst h
  rfl

theorem peekStartElementAsString_restores (tagToString : Int → Option (List Nat))
    (fuel : Nat) (d : BinaryXMLDecoder) :
    (peekStartElementAsString tagToString fuel d = Run.timeout ∧
        decodeTypeAndVal fuel d = Run.timeout) ∨
      ∃ v, peekStartElementAsString tagToString fuel d = Run.ret v d := by
  unfold peekStartElementAsString peekStartElementAsString.body
  rcases decodeTypeAndVal_cases fuel d with h | ⟨v, d1, h, _, hi⟩
  · left
    simp [h]
  · right
    rw [h]
    cases v with
    | none => exact ⟨none, by simp [restore_eq d d1 hi]⟩
    | some tv =>
      simp only
      by_cases ht : tv.t = XML_TAG
      · simp only [ht, if_true, decodeUString_eq]
        exact ⟨_, by rw [restore_eq d ⟨d1.istream, _⟩ hi]⟩
      · simp only [ht, if_false]
        by_cases ht2 : tv.t = XML_DTAG
        · simp only [ht2, if_true]
          exact ⟨_, by rw [restore_eq d d1 hi]⟩
        · simp only [ht2, if_false]
          exact ⟨_, by rw [restore_eq d d1 hi]⟩

theorem peekStartElementAsLong_restores (DEBUG_MAX_LEN : Option Int)
    (stringToTag : List Nat → Option Int) (fuel : Nat) (d : BinaryXMLDecoder) :
    (peekStartElementAsLong DEBUG_MAX_LEN stringToTag fuel d = Run.timeout ∧
        decodeTypeAndVal fuel d = Run.timeout) ∨
      ∃ v, peekStartElementAsLong DEBUG_MAX_LEN stringToTag fuel d = Run.ret v d := by
  unfold peekStartElementAsLong peekStartElementAsLong.body
  rcases decodeTypeAndVal_cases fuel d with h | ⟨v, d1, h, _, hi⟩
  · left
    simp [h]
  · right
    rw [h]
    cases v with
    | none => exact ⟨none, by simp [restore_eq d d1 hi]⟩
    | some tv =>
      simp only
      by_cases ht : tv.t = XML_TAG
      · simp only [ht, if_true]
        cases DEBUG_MAX_LEN with
        | none => exact ⟨none, by simp [restore_eq d d1 hi]⟩
        | some maxLen =>
          simp only
          by_cases hmax : tv.v + 1 > maxLen
          · simp only [hmax, if_true]
            exact ⟨none, by rw [restore_eq d d1 hi]⟩
          · simp only [hmax, if_false, decodeUString_eq]
            exact ⟨_, by rw [restore_eq d ⟨d1.istream, _⟩ hi]⟩
      · simp only [ht, if_false]
        by_cases ht2 : tv.t = XML_DTAG
        · simp only [ht2, if_true]
          exact ⟨_, by rw [restore_eq d d1 hi]⟩
        · simp only [ht2, if_false]
          exact ⟨_, by rw [restore_eq d d1 hi]⟩

/-- C14. Peek leaves the cursor where it was: for every buffer and cursor
position, each of `peekStartElementAsLong`, `peekStartElementAsString` and
`peekStartElement` either returns with the decoder exactly as it was before
the call (same offset, same buffer), whatever happened inside, or, for
`peekStartElement` given a tag that is neither a string nor a number, throws
with the decoder as it was; the only other outcome is that the header loop of
`decodeTypeAndVal` has not ended. -/
theorem peek_restores_offset (tagToString : Int → Option (List Nat))
    (DEBUG_MAX_LEN : Option Int) (stringToTag : List Nat → Option Int) (fuel : Nat)
    (d : BinaryXMLDecoder) (startTag : Option Tag) :
    ((peekStartElementAsLong DEBUG_MAX_LEN stringToTag fuel d = Run.timeout ∧
          decodeTypeAndVal fuel d = Run.timeout) ∨
        ∃ v, peekStartElementAsLong DEBUG_MAX_LEN stringToTag fuel d = Run.ret v d) ∧
      ((peekStartElementAsString tagToString fuel d = Run.timeout ∧
          decodeTypeAndVal fuel d = Run.timeout) ∨
        ∃ v, peekStartElementAsString tagToString fuel d = Run.ret v d) ∧
      ((peekStartElement tagToString DEBUG_MAX_LEN stringToTag fuel d startTag = Run.timeout ∧
          decodeTypeAndVal fuel d = Run.timeout) ∨
        (∃ v, peekStartElement tagToString DEBUG_MAX_LEN stringToTag fuel d startTag
          = Run.ret v d) ∨
        (startTag = none ∧
          ∃ msg, peekStartElement tagToString DEBUG_MAX_LEN stringToTag fuel d startTag
            = Run.throw msg d)) := by
  refine ⟨peekStartElementAsLong_restores DEBUG_MAX_LEN stringToTag fuel d,
    peekStartElementAsString_restores tagToString fuel d, ?_⟩
  unfold peekStartElement
  cases startTag with
  | none => exact Or.inr (Or.inr ⟨rfl, _, rfl⟩)
  | some tag =>
    cases tag with
    | num n =>
      rcases peekStartElementAsLong_restores DEBUG_MAX_LEN stringToTag fuel d with
        ⟨h1, h2⟩ | ⟨v, h⟩
      · exact Or.inl ⟨by simp [h1], h2⟩
      · exact Or.inr (Or.inl ⟨decide (v = some n), by rw [h]⟩)
    | str s =>
      rcases peekStartElementAsString_restores tagToString fuel d with ⟨h1, h2⟩ | ⟨v, h⟩
      · exact Or.inl ⟨by simp [h1], h2⟩
      · exact Or.inr (Or.inl ⟨decide (v = some s), by rw [h]⟩)

/-- C15. For a numeric expected tag `t` and a cursor at a dictionary-tag
(DTAG) header with value `v` (the bytes `hs` with high bit clear, none taken
for a close byte, then `last` with high bit set and type bits `XML_DTAG`),
`readStartElement(t)` succeeds iff `v = t`; on success and on mismatch alike
the cursor has advanced by exactly the header's byte length and no further;
and with the cursor at a close byte the call fails. -/
theorem readStartElement_dtag (strNum : List Nat → Int → Bool) (pre hs rest : List Nat)
    (last fuel : Nat) (t : Int) (hfuel : hs.length < fuel)
    (hcont : ∀ b ∈ hs, b &&& XML_TT_NO_MORE = 0) (hnn : NoEarlyNull 0 hs)
    (hlast : last &&& XML_TT_NO_MORE ≠ 0) (htype : last &&& XML_TT_MASK = XML_DTAG) :
    ((∃ d2, readStartElement strNum fuel ⟨pre ++ hs ++ last :: rest, (pre.length : Int)⟩
          (Tag.num t) false = Run.ret () d2) ↔ headerVal hs last = t) ∧
      (headerVal hs last = t →
        readStartElement strNum fuel ⟨pre ++ hs ++ last :: rest, (pre.length : Int)⟩
            (Tag.num t) false
          = Run.ret () ⟨pre ++ hs ++ last :: rest, (pre.length : Int) + hs.length + 1⟩) ∧
      (headerVal hs last ≠ t →
        ∃ msg, readStartElement strNum fuel ⟨pre ++ hs ++ last :: rest, (pre.length : Int)⟩
            (Tag.num t) false
          = Run.throw msg ⟨pre ++ hs ++ last :: rest, (pre.length : Int) + hs.length + 1⟩) ∧
      (∀ (d : BinaryXMLDecoder) (k : Nat), d.next = some XML_CLOSE →
        ∃ msg, readStartElement strNum (k + 1) d (Tag.num t) false = Run.throw msg d) := by
  have hdec := decodeTypeAndVal_header pre hs rest last fuel hfuel hcont hnn hlast
  have hne : XML_DTAG ≠ XML_TAG := by decide
  have hrun : readStartElement strNum fuel ⟨pre ++ hs ++ last :: rest, (pre.length : Int)⟩
      (Tag.num t) false =
      if headerVal hs last = t then
        Run.ret () ⟨pre ++ hs ++ last :: rest, (pre.length : Int) + hs.length + 1⟩
      else
        Run.throw "ReferenceError: startag is not defined"
          ⟨pre ++ hs ++ last :: rest, (pre.length : Int) + hs.length + 1⟩ := by
    unfold readStartElement
    rw [hdec]
    simp only [readStartElement.decodedTag, htype, hne, if_false, if_true, Tag.differs]
    by_cases hv : headerVal hs last = t <;> simp [hv]
  refine ⟨⟨fun h => ?_, fun h => ⟨_, by rw [hrun, if_pos h]⟩⟩,
    fun h => by rw [hrun, if_pos h], fun h => ⟨_, by rw [hrun, if_neg h]⟩, ?_⟩
  · by_contra hv
    obtain ⟨d2, h2⟩ := h
    rw [hrun, if_neg hv] at h2
    exact absurd h2 (by simp)
  · intro d k hclose
    have : decodeTypeAndVal (k + 1) d = Run.ret none d := loop_null k d hclose
    exact ⟨_, by unfold readStartElement; rw [this]⟩

theorem readStartElement_dtag_witness :
    ((∃ d2, readStartElement (fun _ _ => false) 2
          ⟨[9] ++ [0x01] ++ 0x8A :: [7], (([9] : List Nat).length : Int)⟩
          (Tag.num 17) false = Run.ret () d2) ↔ headerVal [0x01] 0x8A = 17) ∧
      (headerVal [0x01] 0x8A = 17 →
        readStartElement (fun _ _ => false) 2
            ⟨[9] ++ [0x01] ++ 0x8A :: [7], (([9] : List Nat).length : Int)⟩
            (Tag.num 17) false
          = Run.ret () ⟨[9] ++ [0x01] ++ 0x8A :: [7],
              (([9] : List Nat).length : Int) + ([0x01] : List Nat).length + 1⟩) ∧
      (headerVal [0x01] 0x8A ≠ 17 →
        ∃ msg, readStartElement (fun _ _ => false) 2
            ⟨[9] ++ [0x01] ++ 0x8A :: [7], (([9] : List Nat).length : Int)⟩
            (Tag.num 17) false
          = Run.throw msg ⟨[9] ++ [0x01] ++ 0x8A :: [7],
              (([9] : List Nat).length : Int) + ([0x01] : List Nat).length + 1⟩) ∧
      (∀ (d : BinaryXMLDecoder) (k : Nat), d.next = some XML_CLOSE →
        ∃ msg, readStartElement (fun _ _ => false) (k + 1) d (Tag.num 17) false
          = Run.throw msg d) :=
  readStartElement_dtag (fun _ _ => false) [9] [0x01] [7] 0x8A 2 17 (by decide) (by decide)
    ⟨by decide, trivial⟩ (by decide) (by decide)

/-- C18. The code at a failing input: the element `[0x8A, 0x8D, 0x41, 0x00]`
(DTAG header for tag 1, BLOB header for length 1, one payload byte, close
byte) is read back as `[0x41]` with the cursor after the close byte; on its
strict prefixes `[0x8A]` and `[]` the call `readBinaryElement(1)` is still in
the header loop of `decodeTypeAndVal` whatever the number of turns allowed:
it does not fail, it never comes back. -/
theorem readBinaryElement_prefix_hangs (strNum : List Nat → Int → Bool) (fuel : Nat) :
    readBinaryElement strNum 2 ⟨[0x8A, 0x8D, 0x41, 0x00], 0⟩ (Tag.num 1) false
        = Run.ret [0x41] ⟨[0x8A, 0x8D, 0x41, 0x00], 4⟩ ∧
      readBinaryElement strNum fuel ⟨[0x8A], 0⟩ (Tag.num 1) false = Run.timeout ∧
      readBinaryElement strNum fuel ⟨[], 0⟩ (Tag.num 1) false = Run.timeout := by
  refine ⟨by rfl, ?_, ?_⟩
  · cases fuel with
    | zero => rfl
    | succ k =>
      have hn : next ⟨[0x8A], 0⟩ = some 0x8A := by decide
      have hdec : decodeTypeAndVal (k + 1) ⟨[0x8A], 0⟩
          = Run.ret (some ⟨2, 1⟩) ⟨[0x8A], 1⟩ := by
        unfold decodeTypeAndVal
        rw [loop_last k ⟨[0x8A], 0⟩ 0 (by rw [hn]; simp) (by rw [hn]; decide), hn]
        rfl
      have hstart : readStartElement strNum (k + 1) ⟨[0x8A], 0⟩ (Tag.num 1) false
          = Run.ret () ⟨[0x8A], 1⟩ := by
        unfold readStartElement
        rw [hdec]
        rfl
      have hend : decodeTypeAndVal (k + 1) ⟨[0x8A], 1⟩ = Run.timeout :=
        decodeTypeAndVal_past_end (k + 1) ⟨[0x8A], 1⟩ (by simp)
      unfold readBinaryElement
      rw [hstart]
      simp only [readBlob, decodeBlob, hend]
  · have h : decodeTypeAndVal fuel ⟨[], 0⟩ = Run.timeout :=
      decodeTypeAndVal_past_end fuel ⟨[], 0⟩ (by simp)
    unfold readBinaryElement readStartElement
    rw [h]

/-- C19, as stated, fails: on the BLOB header `[0x40, 0, 0, 0, 0x85]`, whose
value has bit 31 set and is the number -2147483648 in the 32-bit arithmetic
of the code, `decodeBlob` without a length returns (an empty byte sequence)
and leaves the offset at 5 - 2147483648, below the offset 0 it started
from. -/
theorem decodeBlob_rewinds_counterexample :
    decodeBlob 5 ⟨[0x40, 0, 0, 0, 0x85], 0⟩ none
        = Run.ret [] ⟨[0x40, 0, 0, 0, 0x85], -2147483643⟩ ∧
      decodeTypeAndVal 5 ⟨[0x40, 0, 0, 0, 0x85], 0⟩
        = Run.ret (some ⟨XML_BLOB, -2147483648⟩) ⟨[0x40, 0, 0, 0, 0x85], 5⟩ ∧
      (-2147483643 : Int) < 0 := by
  decide

/-- C19, amended. Every successful call of `decodeTypeAndVal` and
`readEndElement` leaves the offset greater than or equal to its value before
the call; `decodeBlob` with a length adds exactly that length; `decodeBlob`
without a length, `readBlob` and `readStartElement` end at the offset reached
after the header they decode plus the length that header gives (plus one for
the close byte of `readBlob`; twice the length plus two for a text tag), so
they leave the offset greater than or equal to its value before the call
whenever that 32-bit header value is not negative; `readBinaryElement` is
`readStartElement` followed by `readBlob`. -/
theorem cursor_forward (strNum : List Nat → Int → Bool) (fuel : Nat)
    (d : BinaryXMLDecoder) :
    (∀ v d2, decodeTypeAndVal fuel d = Run.ret v d2 → d.offset ≤ d2.offset) ∧
      (∀ d2, readEndElement d = Run.ret () d2 → d2.offset = d.offset + 1) ∧
      (∀ (n : Int) bytes d2, decodeBlob fuel d (some n) = Run.ret bytes d2 →
        d2.offset = d.offset + n) ∧
      (∀ bytes d2, decodeBlob fuel d none = Run.ret bytes d2 →
        ∃ tv d1, decodeTypeAndVal fuel d = Run.ret (some tv) d1 ∧
          d2.offset = d1.offset + tv.v ∧ (0 ≤ tv.v → d.offset ≤ d2.offset)) ∧
      (∀ bytes d2, readBlob fuel d = Run.ret bytes d2 →
        ∃ tv d1, decodeTypeAndVal fuel d = Run.ret (some tv) d1 ∧
          d2.offset = d1.offset + tv.v + 1 ∧ (0 ≤ tv.v → d.offset ≤ d2.offset)) ∧
      (∀ t attrs d2, readStartElement strNum fuel d t attrs = Run.ret () d2 →
        ∃ tv d1, decodeTypeAndVal fuel d = Run.ret (some tv) d1 ∧
          ((tv.t = XML_TAG ∧ d2.offset = d1.offset + (tv.v + 1) + (tv.v + 1)) ∨
            (tv.t ≠ XML_TAG ∧ d2.offset = d1.offset)) ∧
          ((tv.t = XML_TAG → 0 ≤ tv.v + 1) → d.offset ≤ d2.offset)) ∧
      (∀ t attrs bytes d2, readBinaryElement strNum fuel d t attrs = Run.ret bytes d2 →
        ∃ d1, readStartElement strNum fuel d t attrs = Run.ret () d1 ∧
          readBlob fuel d1 = Run.ret bytes d2) := by
  have hblob : ∀ bytes d2, decodeBlob fuel d none = Run.ret bytes d2 →
      ∃ tv d1, decodeTypeAndVal fuel d = Run.ret (some tv) d1 ∧
        d2.offset = d1.offset + tv.v ∧ (0 ≤ tv.v → d.offset ≤ d2.offset) := by
    intro bytes d2 h
    unfold decodeBlob at h
    rcases decodeTypeAndVal_cases fuel d with h1 | ⟨v, d1, h1, hle, _⟩
    · rw [h1] at h; simp at h
    · rw [h1] at h
      cases v with
      | none => simp at h
      | some tv =>
        simp only [decodeBlob.bytes, Run.ret.injEq] at h
        obtain ⟨_, rfl⟩ := h
        exact ⟨tv, d1, h1, rfl, fun h0 => by simp only; omega⟩
  refine ⟨fun v d2 h => (decodeTypeAndVal_forward fuel d v d2 h).1, ?_, ?_, hblob, ?_, ?_, ?_⟩
  · intro d2 h
    unfold readEndElement at h
    by_cases hc : d.next ≠ some XML_CLOSE
    · simp [hc] at h
    · simp only [hc, if_false, Run.ret.injEq, true_and] at h
      rw [← h]
  · intro n bytes d2 h
    simp only [decodeBlob, decodeBlob.bytes, Run.ret.injEq] at h
    rw [← h.2]
  · intro bytes d2 h
    unfold readBlob at h
    cases hb : decodeBlob fuel d none with
    | timeout => rw [hb] at h; simp at h
    | throw msg d1 => rw [hb] at h; simp at h
    | ret blob d1 =>
      rw [hb] at h
      obtain ⟨tv, d0, h1, h2, h3⟩ := hblob blob d1 hb
      simp only [readEndElement] at h
      by_cases hc : d1.next ≠ some XML_CLOSE
      · simp [hc] at h
      · simp only [hc, if_false, Run.ret.injEq] at h
        obtain ⟨_, rfl⟩ := h
        refine ⟨tv, d0, h1, by simp only; omega, fun h0 => ?_⟩
        have := h3 h0
        simp only
        omega
  · intro t attrs d2 h
    unfold readStartElement at h
    rcases decodeTypeAndVal_cases fuel d with h1 | ⟨v, d1, h1, hle, _⟩
    · rw [h1] at h; simp at h
    · rw [h1] at h
      cases v with
      | none => simp at h
      | some tv =>
        simp only [readStartElement.decodedTag] at h
        refine ⟨tv, d1, h1, ?_⟩
        by_cases ht : tv.t = XML_TAG
        · simp only [ht, if_true, decodeUString_eq] at h
          have hd2 : d2 = ⟨d1.istream, d1.offset + (tv.v + 1) + (tv.v + 1)⟩ := by
            split at h
            · simp at h
            · split at h
              · simp at h
              · simp only [Run.ret.injEq, true_and] at h
                exact h.symm
          subst hd2
          exact ⟨Or.inl ⟨ht, rfl⟩, fun h0 => by have := h0 ht; simp only; omega⟩
        · simp only [ht, if_false] at h
          have hd2 : d2 = d1 := by
            by_cases ht2 : tv.t = XML_DTAG
            · simp only [ht2, if_true] at h
              split at h
              · simp at h
              · split at h
                · simp at h
                · simp only [Run.ret.injEq, true_and] at h
                  exact h.symm
            · simp [ht2] at h
          subst hd2
          exact ⟨Or.inr ⟨ht, rfl⟩, fun _ => hle⟩
  · intro t attrs bytes d2 h
    unfold readBinaryElement at h
    cases hs : readStartElement strNum fuel d t attrs with
    | timeout => rw [hs] at h; simp at h
    | throw msg d1 => rw [hs] at h; simp at h
    | ret u d1 =>
      rw [hs] at h
      exact ⟨d1, rfl, h⟩

end BinaryXMLDecoder

namespace DynamicBuffer

/-! ## Growing and writing -/

theorem map_mod_of_bytes (l : List Nat) (h : ∀ v ∈ l, v < 256) :
    l.map (fun v => v % 256) = l := by
  induction l with
  | nil => rfl
  | cons x xs ih =>
    rw [List.map_cons, ih (fun v hv => h v (by simp [hv])),
      Nat.mod_eq_of_lt (h x (by simp))]

/-- The array after `ensureLength` starts with the old array, a buffer of
bytes. -/
theorem ensureLength_prefix (fresh : Nat → Nat) (b : DynamicBuffer) (n : Nat)
    (hb : ∀ v ∈ b.array, v < 256) :
    ∃ tail len, ensureLength fresh b n = Except.ok ⟨b.array ++ tail, len⟩ ∧
      n ≤ (b.array ++ tail).length := by
  unfold ensureLength
  by_cases h : b.array.length ≥ n
  · rw [if_pos h]
    exact ⟨[], b.length, by simp, by simpa using h⟩
  · rw [if_neg h]
    have hfit : ¬ (0 + b.array.length >
        (newBuffer fresh (if n > b.array.length * 2 then n
          else b.array.length * 2)).length) := by
      rw [newBuffer_length]
      split <;> omega
    simp only [bufferSet, hfit, if_false, map_mod_of_bytes b.array hb]
    refine ⟨List.drop (0 + b.array.length) (newBuffer fresh
        (if n > b.array.length * 2 then n else b.array.length * 2)),
      (if n > b.array.length * 2 then n else b.array.length * 2), by simp, ?_⟩
    simp only [List.length_append, List.length_drop, newBuffer_length]
    split <;> omega

/-- What `set` leaves in the window, for any array of non-negative integers:
each element modulo 256. -/
theorem set_window (fresh : Nat → Nat) (b : DynamicBuffer) (value : List Nat) (offset : Nat)
    (hb : ∀ v ∈ b.array, v < 256) :
    ∃ tail len, set fresh b value offset =
        Except.ok ⟨(b.array ++ tail).take offset ++ value.map (fun v => v % 256) ++
          (b.array ++ tail).drop (offset + value.length), len⟩ ∧
      value.length + offset ≤ (b.array ++ tail).length := by
  obtain ⟨tail, len, hE, hlen⟩ := ensureLength_prefix fresh b (value.length + offset) hb
  have hfit : ¬ (offset + value.length > (b.array ++ tail).length) := by omega
  refine ⟨tail, len, ?_, hlen⟩
  unfold set
  rw [hE]
  simp only [bufferSet, hfit, if_false]

/-- C21. On a buffer of bytes and a `value` of bytes,
`DynamicBuffer.set(value, offset)` never throws; afterwards the array holds
`value` at the indices `[offset, offset + value.length)`, and every byte at an
index below the old array length and outside that window is unchanged,
whether or not the call reallocated; `ensureLength` alone changes no byte at
an index below the old array length. For a `value` of any non-negative
integers the window holds each of them modulo 256. -/
theorem set_spec (fresh : Nat → Nat) (b : DynamicBuffer) (value : List Nat) (offset : Nat)
    (hb : ∀ v ∈ b.array, v < 256) (hvalue : ∀ v ∈ value, v < 256) :
    (∃ b2, set fresh b value offset = Except.ok b2 ∧
      (∀ i, i < value.length → b2.array[offset + i]? = value[i]?) ∧
      (∀ i, i < b.array.length → (i < offset ∨ offset + value.length ≤ i) →
        b2.array[i]? = b.array[i]?)) ∧
    (∀ n, ∃ b3, ensureLength fresh b n = Except.ok b3 ∧
      ∀ i, i < b.array.length → b3.array[i]? = b.array[i]?) ∧
    (∀ (numbers : List Nat), ∃ b4, set fresh b numbers offset = Except.ok b4 ∧
      ∀ i, i < numbers.length →
        b4.array[offset + i]? = (numbers.map (fun v => v % 256))[i]?) := by
  have window : ∀ (numbers : List Nat), ∃ b4, set fresh b numbers offset = Except.ok b4 ∧
      (∀ i, i < numbers.length →
        b4.array[offset + i]? = (numbers.map (fun v => v % 256))[i]?) ∧
      (∀ i, i < b.array.length → (i < offset ∨ offset + numbers.length ≤ i) →
        b4.array[i]? = b.array[i]?) := by
    intro numbers
    obtain ⟨tail, len, hS, hlen⟩ := set_window fresh b numbers offset hb
    have hl : ((b.array ++ tail).take offset).length = offset := by
      rw [List.length_take]; omega
    have hm : (numbers.map (fun v => v % 256)).length = numbers.length := List.length_map _ _
    refine ⟨_, hS, ?_, ?_⟩
    · intro i hi
      show ((b.array ++ tail).take offset ++ numbers.map (fun v => v % 256) ++
        (b.array ++ tail).drop (offset + numbers.length))[offset + i]? = _
      rw [List.append_assoc, List.getElem?_append_right (by omega), hl,
        List.getElem?_append_left (by omega)]
      congr 1
      omega
    · intro i hi hout
      show ((b.array ++ tail).take offset ++ numbers.map (fun v => v % 256) ++
        (b.array ++ tail).drop (offset + numbers.length))[i]? = b.array[i]?
      rcases hout with h1 | h2
      · rw [List.append_assoc, List.getElem?_append_left (by omega),
          List.getElem?_take_of_lt h1, List.getElem?_append_left hi]
      · rw [List.getElem?_append_right (by simp [hl]; omega), List.getElem?_drop]
        have e : offset + numbers.length +
            (i - ((b.array ++ tail).take offset ++ numbers.map (fun v => v % 256)).length)
              = i := by
          simp only [List.length_append, hl, hm]
          omega
        rw [e, List.getElem?_append_left hi]
  refine ⟨?_, ?_, ?_⟩
  · obtain ⟨b2, h1, h2, h3⟩ := window value
    refine ⟨b2, h1, ?_, h3⟩
    intro i hi
    rw [h2 i hi, map_mod_of_bytes value hvalue]
  · intro n
    obtain ⟨tail, len, hE, _⟩ := ensureLength_prefix fresh b n hb
    refine ⟨_, hE, ?_⟩
    intro i hi
    exact List.getElem?_append_left hi
  · intro numbers
    obtain ⟨b4, h1, h2, _⟩ := window numbers
    exact ⟨b4, h1, h2⟩

theorem set_spec_witness :
    (∃ b2, set (fun _ => 0) ⟨[1, 2, 3], 3⟩ [7, 8] 2 = Except.ok b2 ∧
      (∀ i, i < ([7, 8] : List Nat).length → b2.array[2 + i]? = ([7, 8] : List Nat)[i]?) ∧
      (∀ i, i < ([1, 2, 3] : List Nat).length →
        (i < 2 ∨ 2 + ([7, 8] : List Nat).length ≤ i) →
        b2.array[i]? = ([1, 2, 3] : List Nat)[i]?)) ∧
    (∀ n, ∃ b3, ensureLength (fun _ => 0) ⟨[1, 2, 3], 3⟩ n = Except.ok b3 ∧
      ∀ i, i < ([1, 2, 3] : List Nat).length → b3.array[i]? = ([1, 2, 3] : List Nat)[i]?) ∧
    (∀ (numbers : List Nat), ∃ b4, set (fun _ => 0) ⟨[1, 2, 3], 3⟩ numbers 2 = Except.ok b4 ∧
      ∀ i, i < numbers.length →
        b4.array[2 + i]? = (numbers.map (fun v => v % 256))[i]?) :=
  set_spec (fun _ => 0) ⟨[1, 2, 3], 3⟩ [7, 8] 2 (by decide) (by decide)

end DynamicBuffer

namespace Producer

/-! ## Time slots and retries -/

theorem log2Floor_go_le : ∀ (fuel n k : Nat), n < 2 ^ (k + 1) → log2Floor.go fuel n ≤ k := by
  intro fuel
  induction fuel with
  | zero => intro n k _; simp [log2Floor.go]
  | succ fuel ih =>
    intro n k h
    rw [log2Floor.go]
    by_cases h2 : n < 2
    · simp [h2]
    · simp only [h2, if_false]
      cases k with
      | zero => simp at h; omega
      | succ k =>
        have : n / 2 < 2 ^ (k + 1) := by
          rw [Nat.pow_succ] at h
          omega
        have := ih (n / 2) k this
        omega

/-- An integer below 2^53 is a double. -/
theorem toDouble_small (n : Nat) (h : n < 2 ^ 53) : toDouble n = n := by
  unfold toDouble
  have hl : log2Floor n ≤ 52 := log2Floor_go_le n n 52 h
  have he : log2Floor n - 52 = 0 := by omega
  simp only [he, pow_zero, Nat.mul_one]
  unfold roundHalfEven
  simp [Nat.mod_one]

theorem roundHalfEven_bounds (n d : Nat) :
    n / d ≤ roundHalfEven n d ∧ roundHalfEven n d ≤ n / d + 1 ∧
      (roundHalfEven n d = n / d + 1 → d ≤ 2 * (n % d)) := by
  unfold roundHalfEven
  simp only
  split
  · exact ⟨le_refl _, by omega, fun h => by omega⟩
  · split
    · exact ⟨by omega, le_refl _, fun _ => by omega⟩
    · split
      · exact ⟨le_refl _, by omega, fun h => by omega⟩
      · exact ⟨by omega, le_refl _, fun _ => by omega⟩

/-- Below 2^53 the rounded quotient by 3600000 never reaches the next integer:
the quotient is below 2^32, so at least 21 bits after the point are kept, and
a remainder of at most 3599999 stays more than half a step below. -/
theorem floorDivDouble_small (t : Nat) (h : t < 2 ^ 53) :
    floorDivDouble t 3600000 = t / 3600000 := by
  unfold floorDivDouble
  by_cases h0 : t = 0
  · simp [h0]
  · simp only [h0, if_false]
    have hb : log2Floor 3600000 = 21 := by decide
    have hl : log2Floor t ≤ 52 := log2Floor_go_le t t 52 h
    rw [hb]
    generalize hflog : (if t * 2 ^ (-((log2Floor t : Int) - ((21 : Nat) : Int))).toNat ≥
        3600000 * 2 ^ ((log2Floor t : Int) - ((21 : Nat) : Int)).toNat
      then (log2Floor t : Int) - ((21 : Nat) : Int)
      else (log2Floor t : Int) - ((21 : Nat) : Int) - 1) = flog
    have hf : flog ≤ 31 := by
      rw [← hflog]
      split <;> omega
    have e1 : (flog - 52).toNat = 0 := by omega
    obtain ⟨s, hs, hs21⟩ : ∃ s : Nat, (-(flog - 52)).toNat = s ∧ 21 ≤ s :=
      ⟨_, rfl, by omega⟩
    rw [e1, hs]
    simp only [pow_zero, Nat.mul_one]
    have hP : 2 ^ 21 ≤ 2 ^ s := Nat.pow_le_pow_right (by norm_num) hs21
    generalize 2 ^ s = P at hP
    obtain ⟨b1, b2, b3⟩ := roundHalfEven_bounds (t * P) 3600000
    generalize roundHalfEven (t * P) 3600000 = m at b1 b2 b3
    have ht : t = 3600000 * (t / 3600000) + t % 3600000 := (Nat.div_add_mod t 3600000).symm
    have hr : t % 3600000 < 3600000 := Nat.mod_lt _ (by norm_num)
    generalize t / 3600000 = k at ht ⊢
    generalize t % 3600000 = r at ht hr
    have hN : t * P = 3600000 * (k * P) + r * P := by
      rw [ht]
      ring
    have hrP : r * P ≤ 3599999 * P := Nat.mul_le_mul_right P (by omega)
    rw [hN] at b1 b2 b3
    have hk1 : (k + 1) * P = k * P + P := by ring
    apply Nat.div_eq_of_lt_le
    · generalize k * P = KP at *
      generalize r * P = RP at *
      omega
    · rw [hk1]
      generalize k * P = KP at *
      generalize r * P = RP at *
      omega

theorem getRoundedTimeSlot_small (t : Nat) (h : t < 2 ^ 53) :
    getRoundedTimeSlot_ t = t / 3600000 * 3600000 := by
  unfold getRoundedTimeSlot_
  rw [toDouble_small t h, floorDivDouble_small t h]
  apply toDouble_small
  have := Nat.div_mul_le_self t 3600000
  omega

/-- C27, as stated, fails: the arithmetic is that of doubles. The time slot
10^19 is a number of the language; its quotient by 3600000 floors to
2777777777777, and the product 9999999999997200000 is not a double: the
result is the nearest one, 9999999999997200384, which is not a multiple of
3600000. -/
theorem getRoundedTimeSlot_counterexample :
    toDouble (10 ^ 19) = 10 ^ 19 ∧
      floorDivDouble (10 ^ 19) 3600000 = 2777777777777 ∧
      getRoundedTimeSlot_ (10 ^ 19) = 9999999999997200384 ∧
      ¬ (3600000 ∣ getRoundedTimeSlot_ (10 ^ 19)) := by
  decide

/-- C27, amended. For every non-negative integer time slot `t` below 2^53
(milliseconds), `Producer.getRoundedTimeSlot_(t)` is the start of the hour
containing `t`: the result `r` is a multiple of 3600000 with
`r <= t < r + 3600000`, and `getRoundedTimeSlot_(r) = r`. -/
theorem getRoundedTimeSlot_spec (t : Nat) (ht : t < 2 ^ 53) :
    3600000 ∣ getRoundedTimeSlot_ t ∧ getRoundedTimeSlot_ t ≤ t ∧
      t < getRoundedTimeSlot_ t + 3600000 ∧
      getRoundedTimeSlot_ (getRoundedTimeSlot_ t) = getRoundedTimeSlot_ t := by
  have hle : t / 3600000 * 3600000 ≤ t := Nat.div_mul_le_self t 3600000
  rw [getRoundedTimeSlot_small t ht,
    getRoundedTimeSlot_small (t / 3600000 * 3600000) (by omega)]
  refine ⟨Dvd.intro_left _ rfl, hle, ?_, ?_⟩
  · have := Nat.div_add_mod t 3600000
    have := Nat.mod_lt t (show 3600000 > 0 by decide)
    omega
  · rw [Nat.mul_div_cancel _ (show 0 < 3600000 by decide)]

theorem getRoundedTimeSlot_spec_witness :
    3600000 ∣ getRoundedTimeSlot_ 1700000000123 ∧
      getRoundedTimeSlot_ 1700000000123 ≤ 1700000000123 ∧
      1700000000123 < getRoundedTimeSlot_ 1700000000123 + 3600000 ∧
      getRoundedTimeSlot_ (getRoundedTimeSlot_ 1700000000123) =
        getRoundedTimeSlot_ 1700000000123 :=
  getRoundedTimeSlot_spec 1700000000123 (by decide)

/-- One `handleTimeout_` call on a request whose count for the name is `a`. -/
theorem handleTimeout_step (s : TimeoutState) (uri : String) (cb : Bool) (a : Nat)
    (ha : s.keyRequest.repeatAttempts uri = some a) :
    (handleTimeout_ s uri cb).maxRepeatAttempts_ = s.maxRepeatAttempts_ ∧
      ((a < s.maxRepeatAttempts_ ∧
          (handleTimeout_ s uri cb).keyRequest.repeatAttempts uri = some (a + 1) ∧
          (handleTimeout_ s uri cb).keyRequest.interestCount = s.keyRequest.interestCount ∧
          (handleTimeout_ s uri cb).sent = s.sent ++ [uri]) ∨
        (¬ a < s.maxRepeatAttempts_ ∧
          (handleTimeout_ s uri cb).keyRequest.repeatAttempts uri = some a ∧
          (handleTimeout_ s uri cb).keyRequest.interestCount
            = s.keyRequest.interestCount - 1 ∧
          (handleTimeout_ s uri cb).sent = s.sent)) := by
  unfold handleTimeout_ handleTimeout_.retry
  rw [ha]
  by_cases hlt : a < s.maxRepeatAttempts_
  · simp only [hlt, if_true]
    split <;> exact ⟨rfl, Or.inl ⟨trivial, by simp, rfl, rfl⟩⟩
  · simp only [hlt, if_false]
    split <;> exact ⟨rfl, Or.inr ⟨not_false, ha, rfl, rfl⟩⟩

/-- A run of `handleTimeout_` calls from a count `a` that does not exceed the
maximum. -/
theorem handleTimeouts_from (uri : String) (cbs : List Bool) :
    ∀ (s : TimeoutState) (a : Nat), s.keyRequest.repeatAttempts uri = some a →
      a ≤ s.maxRepeatAttempts_ →
      (handleTimeouts s uri cbs).maxRepeatAttempts_ = s.maxRepeatAttempts_ ∧
        (handleTimeouts s uri cbs).keyRequest.repeatAttempts uri
          = some (min (a + cbs.length) s.maxRepeatAttempts_) ∧
        (handleTimeouts s uri cbs).sent.length
          = s.sent.length + (min (a + cbs.length) s.maxRepeatAttempts_ - a) ∧
        (handleTimeouts s uri cbs).keyRequest.interestCount
          = s.keyRequest.interestCount
            - ((a + cbs.length - min (a + cbs.length) s.maxRepeatAttempts_ : Nat) : Int) := by
  induction cbs with
  | nil =>
    intro s a ha hle
    simp only [handleTimeouts, List.foldl_nil, List.length_nil, Nat.add_zero]
    rw [Nat.min_eq_left hle]
    simp [ha]
  | cons cb rest ih =>
    intro s a ha hle
    obtain ⟨hmax, hstep⟩ := handleTimeout_step s uri cb a ha
    have hfold : handleTimeouts s uri (cb :: rest)
        = handleTimeouts (handleTimeout_ s uri cb) uri rest := rfl
    rw [hfold]
    rcases hstep with ⟨hlt, h1, h2, h3⟩ | ⟨hge, h1, h2, h3⟩
    · obtain ⟨i1, i2, i3, i4⟩ := ih (handleTimeout_ s uri cb) (a + 1) h1 (by rw [hmax]; omega)
      rw [hmax] at i1 i2 i3 i4
      have e : a + 1 + rest.length = a + (cb :: rest).length := by
        simp only [List.length_cons]; omega
      rw [e] at i2 i3 i4
      refine ⟨i1, i2, ?_, ?_⟩
      · rw [i3, h3]
        simp only [List.length_append, List.length_cons, List.length_nil]
        omega
      · rw [i4, h2]
    · obtain ⟨i1, i2, i3, i4⟩ := ih (handleTimeout_ s uri cb) a h1 (by rw [hmax]; exact hle)
      rw [hmax] at i1 i2 i3 i4
      have hmin1 : min (a + rest.length) s.maxRepeatAttempts_ = s.maxRepeatAttempts_ := by
        omega
      have hmin2 : min (a + (cb :: rest).length) s.maxRepeatAttempts_
          = s.maxRepeatAttempts_ := by
        simp only [List.length_cons]; omega
      rw [hmin1] at i2 i3 i4
      rw [hmin2]
      refine ⟨i1, i2, ?_, ?_⟩
      · rw [i3, h3]
      · rw [i4, h2]
        simp only [List.length_cons]
        omega

/-- C28. Retry bound: for a key request whose `repeatAttempts[uri]` starts at
0, after any sequence of consecutive `handleTimeout_` calls for that interest
name the count is `min(number of calls, maxRepeatAttempts_)`, so it never
exceeds `maxRepeatAttempts_`; the interest has been re-sent exactly that many
times, and `interestCount` has gone down by one for each remaining call. Each
call either increments the count by one, re-sends and leaves `interestCount`
unchanged, or leaves the count unchanged and decrements `interestCount` by
one. -/
theorem handleTimeout_retry_bound (s : TimeoutState) (uri : String) (cbs : List Bool)
    (h0 : s.keyRequest.repeatAttempts uri = some 0) :
    (∃ a, (handleTimeouts s uri cbs).keyRequest.repeatAttempts uri = some a ∧
        a ≤ s.maxRepeatAttempts_ ∧ a = min cbs.length s.maxRepeatAttempts_ ∧
        (handleTimeouts s uri cbs).sent.length = s.sent.length + a ∧
        (handleTimeouts s uri cbs).keyRequest.interestCount
          = s.keyRequest.interestCount - ((cbs.length - a : Nat) : Int)) ∧
      (∀ (st : TimeoutState) (a : Nat) (cb : Bool),
        st.keyRequest.repeatAttempts uri = some a →
        (a < st.maxRepeatAttempts_ ∧
            (handleTimeout_ st uri cb).keyRequest.repeatAttempts uri = some (a + 1) ∧
            (handleTimeout_ st uri cb).keyRequest.interestCount
              = st.keyRequest.interestCount ∧
            (handleTimeout_ st uri cb).sent = st.sent ++ [uri]) ∨
          (¬ a < st.maxRepeatAttempts_ ∧
            (handleTimeout_ st uri cb).keyRequest.repeatAttempts uri = some a ∧
            (handleTimeout_ st uri cb).keyRequest.interestCount
              = st.keyRequest.interestCount - 1 ∧
            (handleTimeout_ st uri cb).sent = st.sent)) := by
  obtain ⟨_, h2, h3, h4⟩ := handleTimeouts_from uri cbs s 0 h0 (Nat.zero_le _)
  simp only [Nat.zero_add, Nat.sub_zero] at h2 h3 h4
  refine ⟨⟨min cbs.length s.maxRepeatAttempts_, h2, Nat.min_le_right _ _, rfl, h3, h4⟩, ?_⟩
  intro st a cb ha
  exact (handleTimeout_step st uri cb a ha).2

theorem handleTimeout_retry_bound_witness :
    (∃ a, (handleTimeouts ⟨3, ⟨2, fun _ => some 0⟩, [], 0, true⟩ "/k"
          [false, false, false, false, true]).keyRequest.repeatAttempts "/k" = some a ∧
        a ≤ 3 ∧ a = min ([false, false, false, false, true] : List Bool).length 3 ∧
        (handleTimeouts ⟨3, ⟨2, fun _ => some 0⟩, [], 0, true⟩ "/k"
          [false, false, false, false, true]).sent.length = ([] : List String).length + a ∧
        (handleTimeouts ⟨3, ⟨2, fun _ => some 0⟩, [], 0, true⟩ "/k"
          [false, false, false, false, true]).keyRequest.interestCount
          = 2 - ((([false, false, false, false, true] : List Bool).length - a : Nat) : Int)) ∧
      (∀ (st : TimeoutState) (a : Nat) (cb : Bool),
        st.keyRequest.repeatAttempts "/k" = some a →
        (a < st.maxRepeatAttempts_ ∧
            (handleTimeout_ st "/k" cb).keyRequest.repeatAttempts "/k" = some (a + 1) ∧
            (handleTimeout_ st "/k" cb).keyRequest.interestCount
              = st.keyRequest.interestCount ∧
            (handleTimeout_ st "/k" cb).sent = st.sent ++ ["/k"]) ∨
          (¬ a < st.maxRepeatAttempts_ ∧
            (handleTimeout_ st "/k" cb).keyRequest.repeatAttempts "/k" = some a ∧
            (handleTimeout_ st "/k" cb).keyRequest.interestCount
              = st.keyRequest.interestCount - 1 ∧
            (handleTimeout_ st "/k" cb).sent = st.sent)) :=
  handleTimeout_retry_bound ⟨3, ⟨2, fun _ => some 0⟩, [], 0, true⟩ "/k"
    [false, false, false, false, true] rfl

end Producer

namespace BasicIdentityStorage

/-! ## The `useSync` guard -/

theorem onlyAsync_rejectedUnissued (method : String) :
    (onlyAsync method).RejectedUnissued :=
  ⟨⟨_, rfl⟩, rfl⟩

theorem get_last_of_size_ne_zero (keyName : NDN.Name) (h : keyName.size ≠ 0) :
    ∃ keyId, keyName.get (-1) = some keyId := by
  unfold NDN.Name.get NDN.Name.size at *
  have h1 : ((-1 : Int) < 0) := by decide
  have h2 : (-(-1 : Int)).toNat = 1 := by decide
  have h3 : 1 ≤ keyName.components.length := by omega
  simp only [h1, if_true, h2, h3]
  exact ⟨keyName.components[keyName.components.length - 1],
    List.getElem?_eq_getElem (by omega)⟩

/-- C29, as stated, fails: `setDefaultKeyNameForIdentityPromise(keyName, false,
true)` takes its boolean second argument for `useSync`, so with `useSync =
true` as third argument it is not rejected and hands an `UPDATE` to the
database. -/
theorem useSync_overridden_counterexample :
    setDefaultKeyNameForIdentityPromise ⟨[[97], [107]]⟩ (NameOrFlag.flag false) true
        = Returned.pending
            [⟨"UPDATE Key SET default_key=0 WHERE default_key=1 and identity_name=?",
              [Param.uri ⟨[[97]]⟩]⟩] ∧
      ¬ (setDefaultKeyNameForIdentityPromise ⟨[[97], [107]]⟩ (NameOrFlag.flag false)
          true).RejectedUnissued := by
  have h : setDefaultKeyNameForIdentityPromise ⟨[[97], [107]]⟩ (NameOrFlag.flag false) true
      = Returned.pending
          [⟨"UPDATE Key SET default_key=0 WHERE default_key=1 and identity_name=?",
            [Param.uri ⟨[[97]]⟩]⟩] := by rfl
  refine ⟨h, ?_⟩
  rw [h]
  intro hc
  obtain ⟨⟨msg, hm⟩, _⟩ := hc
  exact absurd hm (by simp)

/-- C29, amended. Every `BasicIdentityStorage` `...Promise` method called with
`useSync = true` returns a promise rejected with a `SecurityException` and
hands no statement to the database, for every value of its other arguments;
for `setDefaultKeyNameForIdentityPromise` the `useSync` that counts is the
second argument when that is a boolean, and the third otherwise. -/
theorem useSync_rejects (n : NDN.Name) (names : List NDN.Name) (k : Int) (der : List Nat)
    (c : Certificate) (flag : Bool) (check : NameOrFlag) :
    (doesIdentityExistPromise n true).RejectedUnissued ∧
      (addIdentityPromise n true).RejectedUnissued ∧
      (doesKeyExistPromise n true).RejectedUnissued ∧
      (addKeyPromise n k der true).RejectedUnissued ∧
      (getKeyPromise n true).RejectedUnissued ∧
      (doesCertificateExistPromise n true).RejectedUnissued ∧
      (addCertificatePromise c true).RejectedUnissued ∧
      (getCertificatePromise n flag true).RejectedUnissued ∧
      (getDefaultIdentityPromise true).RejectedUnissued ∧
      (getDefaultKeyNameForIdentityPromise n true).RejectedUnissued ∧
      (getDefaultCertificateNameForKeyPromise n true).RejectedUnissued ∧
      (getAllKeyNamesOfIdentityPromise n names flag true).RejectedUnissued ∧
      (setDefaultIdentityPromise n true).RejectedUnissued ∧
      (setDefaultCertificateNameForKeyPromise n n true).RejectedUnissued ∧
      (deleteCertificateInfoPromise n true).RejectedUnissued ∧
      (deletePublicKeyInfoPromise n true).RejectedUnissued ∧
      (deleteIdentityInfoPromise n true).RejectedUnissued ∧
      (setDefaultKeyNameForIdentityPromise n (NameOrFlag.flag true) flag).RejectedUnissued ∧
      ((∀ b, check ≠ NameOrFlag.flag b) →
        (setDefaultKeyNameForIdentityPromise n check true).RejectedUnissued) := by
  refine ⟨onlyAsync_rejectedUnissued _, onlyAsync_rejectedUnissued _,
    onlyAsync_rejectedUnissued _, onlyAsync_rejectedUnissued _,
    onlyAsync_rejectedUnissued _, onlyAsync_rejectedUnissued _,
    onlyAsync_rejectedUnissued _, onlyAsync_rejectedUnissued _,
    onlyAsync_rejectedUnissued _, onlyAsync_rejectedUnissued _,
    onlyAsync_rejectedUnissued _, onlyAsync_rejectedUnissued _,
    onlyAsync_rejectedUnissued _, onlyAsync_rejectedUnissued _,
    onlyAsync_rejectedUnissued _, onlyAsync_rejectedUnissued _,
    onlyAsync_rejectedUnissued _, onlyAsync_rejectedUnissued _, ?_⟩
  intro hcheck
  cases check with
  | flag b => exact absurd rfl (hcheck b)
  | name m => exact onlyAsync_rejectedUnissued _
  | other => exact onlyAsync_rejectedUnissued _

/-- C30, as stated, fails: with the boolean `true` as second argument the call
is rejected with a `SecurityException` and no statement, although that
argument is not a `Name`; and with an empty key name and the check name `/a`,
which differs from `keyName.getPrefix(-1)`, the call throws instead of
returning a rejected promise. -/
theorem setDefaultKeyName_iff_counterexample :
    (setDefaultKeyNameForIdentityPromise ⟨[[97], [107]]⟩ (NameOrFlag.flag true)
        false).RejectedUnissued ∧
      setDefaultKeyNameForIdentityPromise ⟨[]⟩ (NameOrFlag.name ⟨[[97]]⟩) false
        = Returned.threw "TypeError" ∧
      (⟨[[97]]⟩ : NDN.Name).size ≠ 0 ∧
      (⟨[[97]]⟩ : NDN.Name).equals ((⟨[]⟩ : NDN.Name).getPrefix (-1)) = false := by
  refine ⟨onlyAsync_rejectedUnissued _, by rfl, by decide, by decide⟩

/-- C30, amended. For a key name with at least one component and a second
argument that is not a boolean, with `useSync` not set,
`setDefaultKeyNameForIdentityPromise(keyName, identityNameCheck)` returns a
promise rejected with a `SecurityException`, without handing any statement to
the database, iff `identityNameCheck` is a non-empty `Name` different from
`keyName.getPrefix(-1)`; otherwise (the check left out, empty, or equal) it
hands the first `UPDATE` to the database. -/
theorem setDefaultKeyName_check (keyName : NDN.Name) (check : NameOrFlag)
    (hkey : keyName.size ≠ 0) (hcheck : ∀ b, check ≠ NameOrFlag.flag b) :
    ((setDefaultKeyNameForIdentityPromise keyName check false).RejectedUnissued ↔
        ∃ n, check = NameOrFlag.name n ∧ n.size ≠ 0 ∧
          n.components ≠ (keyName.getPrefix (-1)).components) ∧
      ((¬ ∃ n, check = NameOrFlag.name n ∧ n.size ≠ 0 ∧
          n.components ≠ (keyName.getPrefix (-1)).components) →
        setDefaultKeyNameForIdentityPromise keyName check false
          = Returned.pending
              [⟨"UPDATE Key SET default_key=0 WHERE default_key=1 and identity_name=?",
                [Param.uri (keyName.getPrefix (-1))]⟩]) := by
  obtain ⟨keyId, hk⟩ := get_last_of_size_ne_zero keyName hkey
  have hpend : ¬ (Returned.pending
      [⟨"UPDATE Key SET default_key=0 WHERE default_key=1 and identity_name=?",
        [Param.uri (keyName.getPrefix (-1))]⟩]).RejectedUnissued := by
    intro hc
    obtain ⟨⟨msg, hm⟩, _⟩ := hc
    exact absurd hm (by simp)
  cases check with
  | flag b => exact absurd rfl (hcheck b)
  | other =>
    have hrun : setDefaultKeyNameForIdentityPromise keyName NameOrFlag.other false
        = Returned.pending
            [⟨"UPDATE Key SET default_key=0 WHERE default_key=1 and identity_name=?",
              [Param.uri (keyName.getPrefix (-1))]⟩] := by
      simp [setDefaultKeyNameForIdentityPromise, hk]
    rw [hrun]
    refine ⟨⟨fun h => absurd h hpend, fun h => ?_⟩, fun _ => rfl⟩
    obtain ⟨n, hn, _⟩ := h
    exact absurd hn (by simp)
  | name m =>
    by_cases hm : m.size ≠ 0 ∧ m.components ≠ (keyName.getPrefix (-1)).components
    · have hrun : setDefaultKeyNameForIdentityPromise keyName (NameOrFlag.name m) false
          = Returned.rejected "SecurityException"
              "Specified identity name does not match the key name" := by
        simp [setDefaultKeyNameForIdentityPromise, hk, NDN.Name.equals, hm.1, hm.2]
      rw [hrun]
      refine ⟨⟨fun _ => ⟨m, rfl, hm.1, hm.2⟩, fun _ => ⟨⟨_, rfl⟩, rfl⟩⟩, fun h => ?_⟩
      exact absurd ⟨m, rfl, hm.1, hm.2⟩ h
    · have hrun : setDefaultKeyNameForIdentityPromise keyName (NameOrFlag.name m) false
          = Returned.pending
              [⟨"UPDATE Key SET default_key=0 WHERE default_key=1 and identity_name=?",
                [Param.uri (keyName.getPrefix (-1))]⟩] := by
        simp only [setDefaultKeyNameForIdentityPromise, hk, NDN.Name.equals]
        have : ¬ (m.size ≠ 0 ∧
            decide (m.components = (keyName.getPrefix (-1)).components) = false) := by
          intro hc
          exact hm ⟨hc.1, by simpa using hc.2⟩
        rw [if_neg this]
        rfl
      rw [hrun]
      refine ⟨⟨fun h => absurd h hpend, fun h => ?_⟩, fun _ => rfl⟩
      obtain ⟨n, hn, h1, h2⟩ := h
      simp only [NameOrFlag.name.injEq] at hn
      subst hn
      exact absurd ⟨h1, h2⟩ hm

theorem setDefaultKeyName_check_witness :
    ((setDefaultKeyNameForIdentityPromise ⟨[[97], [107]]⟩ (NameOrFlag.name ⟨[[98]]⟩)
          false).RejectedUnissued ↔
        ∃ n, NameOrFlag.name ⟨[[98]]⟩ = NameOrFlag.name n ∧ n.size ≠ 0 ∧
          n.components ≠ ((⟨[[97], [107]]⟩ : NDN.Name).getPrefix (-1)).components) ∧
      ((¬ ∃ n, NameOrFlag.name ⟨[[98]]⟩ = NameOrFlag.name n ∧ n.size ≠ 0 ∧
          n.components ≠ ((⟨[[97], [107]]⟩ : NDN.Name).getPrefix (-1)).components) →
        setDefaultKeyNameForIdentityPromise ⟨[[97], [107]]⟩ (NameOrFlag.name ⟨[[98]]⟩) false
          = Returned.pending
              [⟨"UPDATE Key SET default_key=0 WHERE default_key=1 and identity_name=?",
                [Param.uri ((⟨[[97], [107]]⟩ : NDN.Name).getPrefix (-1))]⟩]) :=
  setDefaultKeyName_check ⟨[[97], [107]]⟩ (NameOrFlag.name ⟨[[98]]⟩) (by decide)
    (fun b => by simp)

end BasicIdentityStorage

/-! ## The legacy encoders: validation before output -/

/-- C22. A failure for a missing field is not always raised before the first
write operation. `Signature.encode` with no signature bits and
`ContentName.to_ccnb` with no components do throw with nothing written, and
so does `KeyLocator.to_ccnb` when all three fields are missing; but a
`KeyLocator` of type `NAME` with no key name and a public key set passes
`validate`, so `writeStartElement` is issued and only then does the call on
the missing key name throw. -/
theorem KeyLocator.to_ccnb_partial_output (tags : CCNProtocolDTags)
    (isDefaultDigest : String → Bool) (getDigestOID : String → List Nat)
    (witness_ : Option (List Nat)) (alg : Option DigestAlgorithmValue) (type : Option Nat)
    (key : List Nat) (certificate : Option (List Nat)) (encoder : Encoder) :
    Signature.encode tags isDefaultDigest getDigestOID ⟨witness_, none, alg⟩ encoder =
        ⟨encoder, some "Cannot encode: field values missing."⟩ ∧
      ContentName.to_ccnb tags ⟨none⟩ encoder =
        ⟨encoder, some "CANNOT ENCODE EMPTY CONTENT NAME"⟩ ∧
      KeyLocator.to_ccnb tags ⟨type, none, none, none⟩ encoder =
        ⟨encoder, some "Cannot encode: field values missing."⟩ ∧
      KeyLocator.to_ccnb tags ⟨some KeyLocatorType.NAME, none, some key, certificate⟩ encoder =
        ⟨encoder ++ [WriteOp.startElement tags.KeyLocator], some "TypeError"⟩ ∧
      encoder ++ [WriteOp.startElement tags.KeyLocator] ≠ encoder := by
  refine ⟨rfl, rfl, rfl, ?_, ?_⟩
  · simp [KeyLocator.to_ccnb, KeyLocator.validate, KeyLocatorType.NAME, KeyLocatorType.KEY,
      KeyLocatorType.CERTIFICATE]
  · intro h
    have := congrArg List.length h
    simp at this

/-! ## Names as URIs -/

/-- C23. The URI round trip fails. The name with no component prints as the
empty string, which `createNameArray` splits into one empty string, so the
result has one component and not none, whatever `DataUtils` does. With
conversions that keep the character codes, the one component `a/b` comes
back as the two components `a` and `b`, and the one component `%41` comes
back as `A`: `getName` escapes nothing and `createNameArray` unescapes. -/
theorem ContentName.uri_round_trip_fails (toString toNumbersFromString : List Nat → List Nat) :
    ContentName.getName toString ⟨some []⟩ = Except.ok [] ∧
      ContentName.makeBlob toNumbersFromString
          ((ContentName.createNameArray []).map NamePart.str) =
        [some (toNumbersFromString [])] ∧
      [some (toNumbersFromString [])] ≠ ([] : List (List Nat)).map some ∧
      ContentName.getName id ⟨some [[97, 47, 98]]⟩ = Except.ok [47, 97, 47, 98] ∧
      ContentName.makeBlob id ((ContentName.createNameArray [47, 97, 47, 98]).map NamePart.str) =
        [some [97], some [98]] ∧
      ContentName.getName id ⟨some [[37, 52, 49]]⟩ = Except.ok [47, 37, 52, 49] ∧
      ContentName.makeBlob id ((ContentName.createNameArray [47, 37, 52, 49]).map NamePart.str) =
        [some [65]] := by
  refine ⟨rfl, ?_, by simp, rfl, by decide, rfl, by decide⟩
  have h : ContentName.createNameArray [] = [[]] := by decide
  rw [h]
  rfl

/-! ## The name on the wire -/

theorem XML_consts : XML_TT_NO_MORE = 128 ∧ XML_REG_VAL_BITS = 7 ∧ XML_REG_VAL_MASK = 127 ∧
    XML_TT_BITS = 3 ∧ XML_TT_MASK = 7 ∧ XML_TT_VAL_BITS = 4 ∧ XML_TT_VAL_MASK = 15 ∧
    XML_CLOSE = 0 ∧ XML_DTAG = 2 ∧ XML_BLOB = 5 ∧ XML_TAG = 1 := by decide

theorem shl_or (a d k : Nat) (h : d < 2 ^ k) : a <<< k ||| d = a * 2 ^ k + d := by
  rw [Nat.shiftLeft_eq, Nat.mul_comm a (2 ^ k)]
  exact (Nat.mul_add_lt_is_or h a).symm

theorem headerAcc_append (v : Nat) (a : List Nat) (b : Nat) :
    BinaryXMLDecoder.headerAcc v (a ++ [b]) =
      shl32 (BinaryXMLDecoder.headerAcc v a) XML_REG_VAL_BITS ||| (b &&& XML_REG_VAL_MASK) := by
  simp [BinaryXMLDecoder.headerAcc, List.foldl_append]

theorem noEarlyNull_append (a : List Nat) (b : Nat) : ∀ v,
    BinaryXMLDecoder.NoEarlyNull v a → ¬ (b = 0 ∧ BinaryXMLDecoder.headerAcc v a = 0) →
      BinaryXMLDecoder.NoEarlyNull v (a ++ [b]) := by
  induction a with
  | nil =>
    intro v _ h
    exact ⟨h, trivial⟩
  | cons x xs ih =>
    intro v h1 h2
    exact ⟨h1.1, ih _ h1.2 h2⟩

theorem digits_spec : ∀ (fuel n : Nat), n ≤ fuel → n < 2 ^ 32 →
    BinaryXMLDecoder.headerAcc 0 (encodeTypeAndVal.digits fuel n) = n ∧
      BinaryXMLDecoder.NoEarlyNull 0 (encodeTypeAndVal.digits fuel n) ∧
      ∀ b ∈ encodeTypeAndVal.digits fuel n, b < 128 := by
  intro fuel
  induction fuel with
  | zero =>
    intro n hn _
    have : n = 0 := by omega
    subst this
    exact ⟨rfl, trivial, by simp [encodeTypeAndVal.digits]⟩
  | succ fuel ih =>
    intro n hn h32
    by_cases h0 : n = 0
    · subst h0
      exact ⟨rfl, trivial, by simp [encodeTypeAndVal.digits]⟩
    · have hdiv : n / 128 ≤ fuel := by omega
      obtain ⟨i1, i2, i3⟩ := ih (n / 128) hdiv (by omega)
      have hd : encodeTypeAndVal.digits (fuel + 1) n =
          encodeTypeAndVal.digits fuel (n / 128) ++ [n % 128] := by
        rw [encodeTypeAndVal.digits]
        simp [h0]
      have hacc : BinaryXMLDecoder.headerAcc 0 (encodeTypeAndVal.digits (fuel + 1) n) = n := by
        rw [hd, headerAcc_append, i1, XML_consts.2.1, XML_consts.2.2.1]
        have e1 : n % 128 &&& 127 = n % 128 := by
          have := Nat.and_pow_two_sub_one_eq_mod (n % 128) 7
          simpa using this
        have e2 : shl32 (n / 128) 7 = (n / 128) <<< 7 := by
          unfold shl32
          rw [Nat.shiftLeft_eq]
          apply Nat.mod_eq_of_lt
          omega
        rw [e1, e2, shl_or _ _ _ (by omega)]
        omega
      refine ⟨hacc, ?_, ?_⟩
      · rw [hd]
        apply noEarlyNull_append _ _ _ i2
        rw [i1]
        omega
      · intro b hb
        rw [hd, List.mem_append] at hb
        rcases hb with hb | hb
        · exact i3 b hb
        · simp at hb
          omega

theorem digits_length : ∀ (k fuel n : Nat), n < 128 ^ k →
    (encodeTypeAndVal.digits fuel n).length ≤ k := by
  intro k
  induction k with
  | zero =>
    intro fuel n hn
    have : n = 0 := by simpa using hn
    subst this
    cases fuel <;> simp [encodeTypeAndVal.digits]
  | succ k ih =>
    intro fuel n hn
    cases fuel with
    | zero => simp [encodeTypeAndVal.digits]
    | succ fuel =>
      rw [encodeTypeAndVal.digits]
      by_cases h0 : n = 0
      · simp [h0]
      · simp only [h0, if_false, List.length_append, List.length_singleton]
        have : n / 128 < 128 ^ k := by
          apply Nat.div_lt_of_lt_mul
          rw [Nat.pow_succ] at hn
          omega
        have := ih fuel (n / 128) this
        omega

theorem last_byte_facts : ∀ low, low < 16 → ∀ t, t < 8 →
    (128 ||| (low <<< 3) ||| t) &&& 128 ≠ 0 ∧ (128 ||| (low <<< 3) ||| t) &&& 7 = t ∧
      ((128 ||| (low <<< 3) ||| t) >>> 3) &&& 15 = low := by decide

theorem decodeTypeAndVal_encodeTypeAndVal (pre rest : List Nat) (t val fuel : Nat)
    (ht : t < 8) (hval : val < 2 ^ 31) (hfuel : 5 ≤ fuel) :
    BinaryXMLDecoder.decodeTypeAndVal fuel
        ⟨pre ++ encodeTypeAndVal t val ++ rest, (pre.length : Int)⟩ =
      Run.ret (some ⟨t, (val : Int)⟩)
        ⟨pre ++ encodeTypeAndVal t val ++ rest,
          ((pre.length + (encodeTypeAndVal t val).length : Nat) : Int)⟩ := by
  obtain ⟨c1, c2, c3, c4, c5, c6, c7, _⟩ := XML_consts
  have hsh : val >>> 4 = val / 16 := by
    rw [Nat.shiftRight_eq_div_pow]
  have hand : val &&& 15 = val % 16 := Nat.and_pow_two_sub_one_eq_mod val 4
  have henc : encodeTypeAndVal t val =
      encodeTypeAndVal.digits val (val / 16) ++ [128 ||| ((val % 16) <<< 3) ||| t] := by
    unfold encodeTypeAndVal
    rw [c1, c4, c6, c7, hsh, hand]
  obtain ⟨d1, d2, d3⟩ := digits_spec val (val / 16) (by omega) (by omega)
  have dl := digits_length 4 val (val / 16) (by omega)
  obtain ⟨f1, f2, f3⟩ := last_byte_facts (val % 16) (by omega) t ht
  have hcont : ∀ b ∈ encodeTypeAndVal.digits val (val / 16), b &&& XML_TT_NO_MORE = 0 := by
    intro b hb
    have hb128 := d3 b hb
    rw [c1]
    have e : b &&& 128 = 0 := by
      apply Nat.eq_of_testBit_eq
      intro i
      rw [Nat.testBit_and, Nat.zero_testBit]
      by_cases hi : i = 7
      · subst hi
        have : b.testBit 7 = false := Nat.testBit_eq_false_of_lt (by omega)
        simp [this]
      · have : Nat.testBit 128 i = false := by
          have h128 : (128 : Nat) = 2 ^ 7 := by norm_num
          rw [h128, Nat.testBit_two_pow]
          simp
          omega
        simp [this]
    exact e
  have hdec := BinaryXMLDecoder.decodeTypeAndVal_header pre
    (encodeTypeAndVal.digits val (val / 16)) rest (128 ||| ((val % 16) <<< 3) ||| t) fuel
    (by omega) hcont d2 (by rw [c1]; exact f1)
  have hlist : pre ++ encodeTypeAndVal t val ++ rest =
      pre ++ encodeTypeAndVal.digits val (val / 16) ++
        (128 ||| ((val % 16) <<< 3) ||| t) :: rest := by
    rw [henc]
    simp
  have hval2 : BinaryXMLDecoder.headerVal (encodeTypeAndVal.digits val (val / 16))
      (128 ||| ((val % 16) <<< 3) ||| t) = (val : Int) := by
    unfold BinaryXMLDecoder.headerVal
    rw [d1, c4, c6, c7, f3]
    have e2 : shl32 (val / 16) 4 = (val / 16) <<< 4 := by
      unfold shl32
      rw [Nat.shiftLeft_eq]
      apply Nat.mod_eq_of_lt
      omega
    rw [e2, shl_or _ _ _ (by omega)]
    have e3 : val / 16 * 2 ^ 4 + val % 16 = val := by omega
    rw [e3]
    unfold int32
    have e4 : val % 2 ^ 32 = val := Nat.mod_eq_of_lt (by omega)
    rw [e4, if_pos hval]
  rw [hlist, hdec, c5, f2, hval2]
  have hlen : ((pre.length + (encodeTypeAndVal t val).length : Nat) : Int) =
      (pre.length : Int) + (encodeTypeAndVal.digits val (val / 16)).length + 1 := by
    rw [henc]
    simp
    omega
  rw [hlen]

theorem decode_header_at (d : BinaryXMLDecoder) (pre rest : List Nat) (t val fuel : Nat)
    (ht : t < 8) (hval : val < 2 ^ 31) (hfuel : 5 ≤ fuel)
    (hs : d.istream = pre ++ encodeTypeAndVal t val ++ rest)
    (ho : d.offset = (pre.length : Int)) :
    BinaryXMLDecoder.decodeTypeAndVal fuel d =
      Run.ret (some ⟨t, (val : Int)⟩)
        ⟨d.istream, d.offset + ((encodeTypeAndVal t val).length : Int)⟩ := by
  obtain ⟨s, o⟩ := d
  simp only at hs ho
  subst hs ho
  rw [decodeTypeAndVal_encodeTypeAndVal pre rest t val fuel ht hval hfuel]
  push_cast
  rfl

theorem readStartElement_at (strNum : List Nat → Int → Bool) (d : BinaryXMLDecoder)
    (pre rest : List Nat) (tag fuel : Nat) (htag : tag < 2 ^ 31) (hfuel : 5 ≤ fuel)
    (hs : d.istream = pre ++ encodeTypeAndVal XML_DTAG tag ++ rest)
    (ho : d.offset = (pre.length : Int)) :
    BinaryXMLDecoder.readStartElement strNum fuel d (Tag.num (tag : Int)) false =
      Run.ret () ⟨d.istream, d.offset + ((encodeTypeAndVal XML_DTAG tag).length : Int)⟩ := by
  unfold BinaryXMLDecoder.readStartElement
  rw [decode_header_at d pre rest XML_DTAG tag fuel (by decide) htag hfuel hs ho]
  have hne : XML_DTAG ≠ XML_TAG := by decide
  simp [BinaryXMLDecoder.readStartElement.decodedTag, hne, BinaryXMLDecoder.Tag.differs]

theorem readEndElement_at (d : BinaryXMLDecoder) (pre rest : List Nat)
    (hs : d.istream = pre ++ XML_CLOSE :: rest) (ho : d.offset = (pre.length : Int)) :
    BinaryXMLDecoder.readEndElement d = Run.ret () ⟨d.istream, d.offset + 1⟩ := by
  obtain ⟨s, o⟩ := d
  simp only at hs ho
  subst hs ho
  unfold BinaryXMLDecoder.readEndElement
  simp [BinaryXMLDecoder.next_at]

theorem readBlob_at (d : BinaryXMLDecoder) (pre c rest : List Nat) (fuel : Nat)
    (hc : c.length < 2 ^ 31) (hfuel : 5 ≤ fuel)
    (hs : d.istream = pre ++ encodeTypeAndVal XML_BLOB c.length ++ c ++ XML_CLOSE :: rest)
    (ho : d.offset = (pre.length : Int)) :
    BinaryXMLDecoder.readBlob fuel d =
      Run.ret c ⟨d.istream,
        d.offset + ((encodeTypeAndVal XML_BLOB c.length).length : Int) + (c.length : Int) + 1⟩ := by
  have hs1 : d.istream = pre ++ encodeTypeAndVal XML_BLOB c.length ++ (c ++ XML_CLOSE :: rest) := by
    rw [hs]
    simp
  have h1 := decode_header_at d pre (c ++ XML_CLOSE :: rest) XML_BLOB c.length fuel (by decide)
    hc hfuel hs1 ho
  have hoff : d.offset + ((encodeTypeAndVal XML_BLOB c.length).length : Int) =
      ((pre ++ encodeTypeAndVal XML_BLOB c.length).length : Int) := by
    rw [ho]
    simp
  have h2 := BinaryXMLDecoder.decodeBlob_some_nat fuel
    ⟨d.istream, d.offset + ((encodeTypeAndVal XML_BLOB c.length).length : Int)⟩ c.length
    (by simp only; omega)
  have hbytes : (List.drop (d.offset + ((encodeTypeAndVal XML_BLOB c.length).length : Int)).toNat
      d.istream).take c.length = c := by
    rw [hoff, Int.toNat_ofNat, hs1, List.drop_left, List.take_left]
  simp only [hbytes] at h2
  have h3 := readEndElement_at
    ⟨d.istream, d.offset + ((encodeTypeAndVal XML_BLOB c.length).length : Int) + (c.length : Int)⟩
    (pre ++ encodeTypeAndVal XML_BLOB c.length ++ c) rest hs
    (by simp only; rw [ho]; simp; omega)
  unfold BinaryXMLDecoder.readBlob
  have h2b : BinaryXMLDecoder.decodeBlob fuel d none =
      Run.ret c ⟨d.istream,
        d.offset + ((encodeTypeAndVal XML_BLOB c.length).length : Int) + (c.length : Int)⟩ := by
    rw [← h2]
    simp only [BinaryXMLDecoder.decodeBlob, h1]
  rw [h2b]
  simp only [h3]

theorem readBinaryElement_at (strNum : List Nat → Int → Bool) (d : BinaryXMLDecoder)
    (pre c rest : List Nat) (tag fuel : Nat) (htag : tag < 2 ^ 31) (hc : c.length < 2 ^ 31)
    (hfuel : 5 ≤ fuel)
    (hs : d.istream = pre ++ WriteOp.bytes (WriteOp.element tag (some c)) ++ rest)
    (ho : d.offset = (pre.length : Int)) :
    BinaryXMLDecoder.readBinaryElement strNum fuel d (Tag.num (tag : Int)) false =
      Run.ret c ⟨d.istream,
        d.offset + ((WriteOp.bytes (WriteOp.element tag (some c))).length : Int)⟩ := by
  have hs1 : d.istream = pre ++ encodeTypeAndVal XML_DTAG tag ++
      (encodeTypeAndVal XML_BLOB c.length ++ c ++ XML_CLOSE :: rest) := by
    rw [hs]
    simp [WriteOp.bytes]
  have h1 := readStartElement_at strNum d pre _ tag fuel htag hfuel hs1 ho
  have hs2 : d.istream = pre ++ encodeTypeAndVal XML_DTAG tag ++
      encodeTypeAndVal XML_BLOB c.length ++ c ++ XML_CLOSE :: rest := by
    rw [hs]
    simp [WriteOp.bytes]
  have h2 := readBlob_at ⟨d.istream, d.offset + ((encodeTypeAndVal XML_DTAG tag).length : Int)⟩
    (pre ++ encodeTypeAndVal XML_DTAG tag) c rest fuel hc hfuel hs2
    (by simp only; rw [ho]; simp)
  unfold BinaryXMLDecoder.readBinaryElement
  rw [h1]
  simp only [h2]
  congr 2
  simp [WriteOp.bytes]
  omega

theorem peekStartElement_true_at (g : DecoderGlobals) (d : BinaryXMLDecoder)
    (pre rest : List Nat) (tag fuel : Nat) (htag : tag < 2 ^ 31) (hfuel : 5 ≤ fuel)
    (hs : d.istream = pre ++ encodeTypeAndVal XML_DTAG tag ++ rest)
    (ho : d.offset = (pre.length : Int)) :
    BinaryXMLDecoder.peekStartElement g.tagToString g.DEBUG_MAX_LEN g.stringToTag fuel d
      (some (Tag.num (tag : Int))) = Run.ret true d := by
  have h1 := decode_header_at d pre rest XML_DTAG tag fuel (by decide) htag hfuel hs ho
  have hne : XML_DTAG ≠ XML_TAG := by decide
  simp [BinaryXMLDecoder.peekStartElement, BinaryXMLDecoder.peekStartElementAsLong,
    BinaryXMLDecoder.peekStartElementAsLong.body, h1, hne]

theorem peekStartElement_false_at (g : DecoderGlobals) (d : BinaryXMLDecoder)
    (pre rest : List Nat) (tag : Int) (fuel : Nat) (hfuel : 5 ≤ fuel)
    (hs : d.istream = pre ++ XML_CLOSE :: rest) (ho : d.offset = (pre.length : Int)) :
    BinaryXMLDecoder.peekStartElement g.tagToString g.DEBUG_MAX_LEN g.stringToTag fuel d
      (some (Tag.num tag)) = Run.ret false d := by
  obtain ⟨k, rfl⟩ : ∃ k, fuel = k + 1 := ⟨fuel - 1, by omega⟩
  have hn : d.next = some 0 := by
    obtain ⟨s, o⟩ := d
    simp only at hs ho
    subst hs ho
    exact BinaryXMLDecoder.next_at pre rest XML_CLOSE
  have h1 : BinaryXMLDecoder.decodeTypeAndVal (k + 1) d = Run.ret none d :=
    BinaryXMLDecoder.loop_null k d hn
  simp [BinaryXMLDecoder.peekStartElement, BinaryXMLDecoder.peekStartElementAsLong,
    BinaryXMLDecoder.peekStartElementAsLong.body, h1]

theorem from_ccnb_loop_at (g : DecoderGlobals) (tags : CCNProtocolDTags) (fuel : Nat)
    (hComponent : tags.Component < 2 ^ 31) (hfuel : 5 ≤ fuel) (rest : List Nat) :
    ∀ (cs : List (List Nat)) (pre : List Nat) (acc : List (List Nat)) (turns : Nat)
      (d : BinaryXMLDecoder), (∀ c ∈ cs, c.length < 2 ^ 31) → cs.length < turns →
      d.istream = pre ++
        Encoder.bytes (cs.map (fun c => WriteOp.element tags.Component (some c))) ++
          XML_CLOSE :: rest →
      d.offset = (pre.length : Int) →
      ContentName.from_ccnb.loop g tags fuel turns d acc =
        Run.ret (acc ++ cs) ⟨d.istream, d.offset +
          ((Encoder.bytes (cs.map (fun c => WriteOp.element tags.Component (some c)))).length :
            Int)⟩ := by
  intro cs
  induction cs with
  | nil =>
    intro pre acc turns d _ hturns hs ho
    obtain ⟨k, rfl⟩ : ∃ k, turns = k + 1 := ⟨turns - 1, by simp at hturns; omega⟩
    have hs1 : d.istream = pre ++ XML_CLOSE :: rest := by
      rw [hs]
      simp [Encoder.bytes]
    rw [ContentName.from_ccnb.loop,
      peekStartElement_false_at g d pre rest _ fuel hfuel hs1 ho]
    simp [Encoder.bytes]
  | cons c cs ih =>
    intro pre acc turns d hlen hturns hs ho
    obtain ⟨k, rfl⟩ : ∃ k, turns = k + 1 := ⟨turns - 1, by simp at hturns; omega⟩
    have hb : Encoder.bytes ((c :: cs).map (fun c => WriteOp.element tags.Component (some c))) =
        WriteOp.bytes (WriteOp.element tags.Component (some c)) ++
          Encoder.bytes (cs.map (fun c => WriteOp.element tags.Component (some c))) := by
      simp [Encoder.bytes]
    have hs1 : d.istream = pre ++ encodeTypeAndVal XML_DTAG tags.Component ++
        (encodeTypeAndVal XML_BLOB c.length ++ c ++ [XML_CLOSE] ++
          Encoder.bytes (cs.map (fun c => WriteOp.element tags.Component (some c))) ++
            XML_CLOSE :: rest) := by
      rw [hs, hb]
      simp [WriteOp.bytes]
    have hs2 : d.istream = pre ++ WriteOp.bytes (WriteOp.element tags.Component (some c)) ++
        (Encoder.bytes (cs.map (fun c => WriteOp.element tags.Component (some c))) ++
            XML_CLOSE :: rest) := by
      rw [hs, hb]
      simp
    have hc : c.length < 2 ^ 31 := hlen c (by simp)
    have h1 := peekStartElement_true_at g d pre _ tags.Component fuel hComponent hfuel hs1 ho
    have h2 := readBinaryElement_at g.strNum d pre c _ tags.Component fuel hComponent hc hfuel
      hs2 ho
    have hs3 : d.istream = pre ++ WriteOp.bytes (WriteOp.element tags.Component (some c)) ++
        Encoder.bytes (cs.map (fun c => WriteOp.element tags.Component (some c))) ++
            XML_CLOSE :: rest := by
      rw [hs2]
      simp
    have h3 := ih (pre ++ WriteOp.bytes (WriteOp.element tags.Component (some c))) (acc ++ [c]) k
      ⟨d.istream, d.offset +
        ((WriteOp.bytes (WriteOp.element tags.Component (some c))).length : Int)⟩
      (fun x hx => hlen x (by simp [hx])) (by simp at hturns; omega) hs3
      (by simp only; rw [ho]; simp)
    rw [ContentName.from_ccnb.loop, h1]
    simp only [h2, h3]
    rw [hb]
    simp
    omega

/-- C24, amended. The name on the wire comes back as it went when every
component is shorter than 2^31 bytes. For tag numbers and
component lengths below 2^31, and whatever bytes stand before and after,
`from_ccnb` run at the start of the bytes that the write operations of
`to_ccnb` come to returns a name with exactly the components of `n`, in
order, and leaves the cursor just after those bytes. The header loop needs 5
turns of fuel and the `while` loop one turn more than there are components. -/
theorem ContentName.wire_round_trip (g : DecoderGlobals) (tags : CCNProtocolDTags)
    (components : List (List Nat)) (pre rest : List Nat) (fuel : Nat)
    (hName : tags.Name < 2 ^ 31) (hComponent : tags.Component < 2 ^ 31)
    (hlen : ∀ c ∈ components, c.length < 2 ^ 31)
    (hfuel : 5 ≤ fuel) (hturns : components.length < fuel) :
    (ContentName.to_ccnb tags ⟨some components⟩ []).thrown = none ∧
      ContentName.from_ccnb g tags fuel
          ⟨pre ++ Encoder.bytes (ContentName.to_ccnb tags ⟨some components⟩ []).state ++ rest,
            (pre.length : Int)⟩ =
        Run.ret ⟨some components⟩
          ⟨pre ++ Encoder.bytes (ContentName.to_ccnb tags ⟨some components⟩ []).state ++ rest,
            (pre.length : Int) +
              ((Encoder.bytes (ContentName.to_ccnb tags ⟨some components⟩ []).state).length :
                Int)⟩ := by
  refine ⟨rfl, ?_⟩
  have hb : Encoder.bytes (ContentName.to_ccnb tags ⟨some components⟩ []).state =
      encodeTypeAndVal XML_DTAG tags.Name ++
        Encoder.bytes (components.map (fun c => WriteOp.element tags.Component (some c))) ++
          [XML_CLOSE] := by
    simp [ContentName.to_ccnb, Encoder.bytes, WriteOp.bytes]
  rw [hb]
  generalize hB : Encoder.bytes
    (components.map (fun c => WriteOp.element tags.Component (some c))) = B
  have hs1 : pre ++ (encodeTypeAndVal XML_DTAG tags.Name ++ B ++ [XML_CLOSE]) ++ rest =
      pre ++ encodeTypeAndVal XML_DTAG tags.Name ++ (B ++ XML_CLOSE :: rest) := by simp
  have hs2 : pre ++ (encodeTypeAndVal XML_DTAG tags.Name ++ B ++ [XML_CLOSE]) ++ rest =
      pre ++ encodeTypeAndVal XML_DTAG tags.Name ++ B ++ XML_CLOSE :: rest := by simp
  have h1 := readStartElement_at g.strNum
    ⟨pre ++ (encodeTypeAndVal XML_DTAG tags.Name ++ B ++ [XML_CLOSE]) ++ rest, (pre.length : Int)⟩
    pre (B ++ XML_CLOSE :: rest) tags.Name fuel hName hfuel hs1 rfl
  have h2 := from_ccnb_loop_at g tags fuel hComponent hfuel rest components
    (pre ++ encodeTypeAndVal XML_DTAG tags.Name) [] fuel
    ⟨pre ++ (encodeTypeAndVal XML_DTAG tags.Name ++ B ++ [XML_CLOSE]) ++ rest,
      (pre.length : Int) + ((encodeTypeAndVal XML_DTAG tags.Name).length : Int)⟩
    hlen hturns (by rw [hB]; exact hs2) (by simp)
  rw [hB] at h2
  have h3 := readEndElement_at
    ⟨pre ++ (encodeTypeAndVal XML_DTAG tags.Name ++ B ++ [XML_CLOSE]) ++ rest,
      (pre.length : Int) + ((encodeTypeAndVal XML_DTAG tags.Name).length : Int) +
        (B.length : Int)⟩
    (pre ++ encodeTypeAndVal XML_DTAG tags.Name ++ B) rest hs2 (by simp; omega)
  unfold ContentName.from_ccnb
  rw [h1]
  simp only [h2, h3, List.nil_append]
  congr 2
  simp
  omega

theorem ContentName.wire_round_trip_witness :
    (∀ c ∈ [[1, 2], [], [3]], List.length c < 2 ^ 31) ∧
      (ContentName.to_ccnb ⟨14, 15, 0, 0, 0, 0, 0, 0, 0⟩ ⟨some [[1, 2], [], [3]]⟩ []).thrown = none ∧
      ContentName.from_ccnb ⟨fun _ _ => false, fun _ => none, none, fun _ => none⟩
          ⟨14, 15, 0, 0, 0, 0, 0, 0, 0⟩ 5
          ⟨[9] ++ Encoder.bytes
              (ContentName.to_ccnb ⟨14, 15, 0, 0, 0, 0, 0, 0, 0⟩ ⟨some [[1, 2], [], [3]]⟩ []).state
            ++ [7], (([9] : List Nat).length : Int)⟩ =
        Run.ret ⟨some [[1, 2], [], [3]]⟩
          ⟨[9] ++ Encoder.bytes
              (ContentName.to_ccnb ⟨14, 15, 0, 0, 0, 0, 0, 0, 0⟩ ⟨some [[1, 2], [], [3]]⟩ []).state
            ++ [7],
            (([9] : List Nat).length : Int) +
              ((Encoder.bytes (ContentName.to_ccnb ⟨14, 15, 0, 0, 0, 0, 0, 0, 0⟩
                ⟨some [[1, 2], [], [3]]⟩ []).state).length : Int)⟩ :=
  ⟨by decide,
    ContentName.wire_round_trip ⟨fun _ _ => false, fun _ => none, none, fun _ => none⟩
      ⟨14, 15, 0, 0, 0, 0, 0, 0, 0⟩ [[1, 2], [], [3]] [9] [7] 5 (by decide) (by decide)
      (by decide) (by decide) (by decide)⟩

/-! ## Opening the identity database -/

/-- C31. The constructor does not open the default file. It works out the
default path into its local `databaseFilePath_`, but hands its argument
`databaseFilePath` to `new Sqlite3Promise`: with the path left out the
database is opened on `undefined`, whatever the home directory is; with a
path given it is opened on that path. -/
theorem BasicIdentityStorage.new_opens_argument
    (join : List (Option String) → Except String String) (env : BasicIdentityStorage.Env) :
    (∀ defaultPath,
        join [BasicIdentityStorage.getUserHomePath env, some ".ndn",
          some "ndnsec-public-info.db"] = Except.ok defaultPath →
        BasicIdentityStorage.new join env none = Except.ok ⟨some defaultPath, none⟩) ∧
      (∀ databaseFilePath constructed,
        BasicIdentityStorage.new join env databaseFilePath = Except.ok constructed →
        constructed.opened = databaseFilePath) ∧
      (∀ path, path ≠ "" →
        BasicIdentityStorage.new join env (some path) = Except.ok ⟨some path, some path⟩) ∧
      BasicIdentityStorage.new (fun _ => Except.ok "/home/u/.ndn/ndnsec-public-info.db")
          ⟨some "/home/u", none, none⟩ none =
        Except.ok ⟨some "/home/u/.ndn/ndnsec-public-info.db", none⟩ := by
  refine ⟨?_, ?_, ?_, rfl⟩
  · intro defaultPath h
    simp [BasicIdentityStorage.new, h]
  · intro databaseFilePath constructed h
    have key : ∀ (given : Bool),
        (if given then (Except.ok ⟨databaseFilePath, databaseFilePath⟩ :
            Except String BasicIdentityStorage.Constructed)
          else
            match join [BasicIdentityStorage.getUserHomePath env, some ".ndn",
                some "ndnsec-public-info.db"] with
            | Except.error e => Except.error e
            | Except.ok defaultPath => Except.ok ⟨some defaultPath, databaseFilePath⟩) =
          Except.ok constructed → constructed.opened = databaseFilePath := by
      intro given hg
      cases given with
      | true =>
        simp only [if_true] at hg
        cases hg
        rfl
      | false =>
        simp only [Bool.false_eq_true, if_false] at hg
        cases hj : join [BasicIdentityStorage.getUserHomePath env, some ".ndn",
            some "ndnsec-public-info.db"] with
        | error e =>
          rw [hj] at hg
          cases hg
        | ok defaultPath =>
          rw [hj] at hg
          cases hg
          rfl
    exact key _ h
  · intro path hp
    simp [BasicIdentityStorage.new, hp]

/-! ## Exclusion is not monotone -/

/-- C32. Inserting a range can un-exclude a component. The exclude `[1] ANY`
(one entry, strictly increasing) excludes `[8]`; `[2] < [7]` lies inside the
range it excludes; after `excludeRange(exclude, [2], [7])` the entries are
`[1] ANY, [7]` and `[8]` is no longer excluded. -/
theorem Producer.excludeRange_unexcludes :
    Producer.StrictlyIncreasing
        (Producer.getExcludeEntries [Producer.ExcludeValue.component [1],
          Producer.ExcludeValue.ANY]) ∧
      Component.compare [2] [7] < 0 ∧
      Producer.isExcluded
        (Producer.getExcludeEntries [Producer.ExcludeValue.component [1],
          Producer.ExcludeValue.ANY]) [8] = true ∧
      (Producer.excludeRange [Producer.ExcludeValue.component [1],
        Producer.ExcludeValue.ANY] [2] [7]).thrown = none ∧
      Producer.getExcludeEntries
        (Producer.excludeRange [Producer.ExcludeValue.component [1],
          Producer.ExcludeValue.ANY] [2] [7]).state = [⟨[1], true⟩, ⟨[7], false⟩] ∧
      Producer.isExcluded
        (Producer.getExcludeEntries
          (Producer.excludeRange [Producer.ExcludeValue.component [1],
            Producer.ExcludeValue.ANY] [2] [7]).state) [8] = false := by
  decide

/-! ## The text reader -/

/-- C37. The text reader takes the wrong bytes. `decodeUString(istream, n)`
lets `decodeBlob` move the cursor by `n` and then slices at the new cursor and
moves it again: it returns the text of the bytes at `[offset + n, offset +
2n)` and advances the cursor by `2n`. On the buffer `abcd` with `n = 2` it
returns `cd` and leaves the cursor at 4, not `ab` and 2. -/
theorem BinaryXMLDecoder.decodeUString_skips (fuel : Nat) :
    BinaryXMLDecoder.decodeUString fuel ⟨[0x61, 0x62, 0x63, 0x64], 0⟩ 2 =
        Run.ret [0x63, 0x64] ⟨[0x61, 0x62, 0x63, 0x64], 4⟩ ∧
      (∀ (d : BinaryXMLDecoder) (n : Int),
        BinaryXMLDecoder.decodeUString fuel d n =
          Run.ret ((jsSlice d.istream (d.offset + n) (d.offset + n + n)).map
              (fun b => b &&& 0x7F))
            ⟨d.istream, d.offset + n + n⟩) := by
  refine ⟨?_, fun d n => BinaryXMLDecoder.decodeUString_eq fuel d n⟩
  rw [BinaryXMLDecoder.decodeUString_eq]
  decide

/-! ## The second lookup of `excludeRange` -/

/-- C34. In `Producer.excludeRange` with `from < to`, for every input entry
list, the block that establishes the "from" boundary does not throw, and on
the entries it leaves the second lookup finds an entry: `iFoundTo >=
iNewFrom >= 0`, `iFoundTo` is below the length of the array, and
`entries[iFoundTo]` is an entry. -/
theorem Producer.excludeRange_second_lookup (entries : List Producer.ExcludeEntry)
    (from_ to_ : Component) (hlt : Component.compare from_ to_ < 0) :
    ∃ entries1 iNewFrom foundTo,
      Producer.establishFrom entries from_ = Except.ok (entries1, iNewFrom) ∧
        0 ≤ iNewFrom ∧ iNewFrom ≤ Producer.findEntryBeforeOrAt entries1 to_ ∧
        Producer.findEntryBeforeOrAt entries1 to_ < (entries1.length : Int) ∧
        entries1[(Producer.findEntryBeforeOrAt entries1 to_).toNat]? = some foundTo := by
  have hlt2 : from_ < to_ := (Component.compare_neg_iff _ _).mp hlt
  obtain ⟨P, b, R, hE, _, hble, _, _⟩ := Producer.establishFrom_shape entries from_
  have hbto : b.component_ < to_ := lt_of_le_of_lt hble hlt2
  rcases Producer.findEntryBeforeOrAt_cases (P ++ b :: R) to_ with
    ⟨_, h2⟩ | ⟨pre, e, post, hL, hfind, _, hpost⟩
  · exact absurd (h2 b (by simp)) (not_lt.mpr (le_of_lt hbto))
  · have hge : P.length ≤ pre.length := by
      by_contra hcon
      have hb1 : (P ++ b :: R)[P.length]? = some b := getElem?_mid P R b
      have hi : P.length = pre.length + 1 + (P.length - (pre.length + 1)) := by omega
      rw [hL, hi, getElem?_after] at hb1
      exact absurd (hpost b (List.getElem?_mem hb1)) (not_lt.mpr (le_of_lt hbto))
    have hget : (P ++ b :: R)[pre.length]? = some e := by
      rw [hL]
      exact getElem?_mid pre post e
    have hlen : (pre.length : Int) < ((P ++ b :: R).length : Int) := by
      rw [hL]
      simp
    refine ⟨P ++ b :: R, (P.length : Int), e, hE, by omega, ?_, ?_, ?_⟩
    · rw [hfind]
      omega
    · rw [hfind]
      exact hlen
    · rw [hfind, Int.toNat_ofNat]
      exact hget

theorem Producer.excludeRange_second_lookup_witness :
    Component.compare [1] [7] < 0 ∧
      ∃ entries1 iNewFrom foundTo,
        Producer.establishFrom [⟨[5], true⟩] [1] = Except.ok (entries1, iNewFrom) ∧
          0 ≤ iNewFrom ∧ iNewFrom ≤ Producer.findEntryBeforeOrAt entries1 [7] ∧
          Producer.findEntryBeforeOrAt entries1 [7] < (entries1.length : Int) ∧
          entries1[(Producer.findEntryBeforeOrAt entries1 [7]).toNat]? = some foundTo :=
  ⟨by decide, Producer.excludeRange_second_lookup [⟨[5], true⟩] [1] [7] (by decide)⟩

/-! ## Writing back what `getExcludeEntries` read -/

theorem setExcludeEntries_loop_append (a : List Producer.ExcludeEntry) :
    ∀ (i : Nat) (b : List Producer.ExcludeEntry),
      Producer.setExcludeEntries.loop i (a ++ b) =
        Producer.setExcludeEntries.loop i a ++
          Producer.setExcludeEntries.loop (i + a.length) b := by
  induction a with
  | nil =>
    intro i b
    simp [Producer.setExcludeEntries.loop]
  | cons e a ih =>
    intro i b
    rw [List.cons_append, Producer.setExcludeEntries.loop, Producer.setExcludeEntries.loop,
      ih (i + 1) b, List.length_cons]
    have : i + 1 + a.length = i + (a.length + 1) := by omega
    rw [this, List.append_assoc]

theorem getExcludeEntries_step_ne_nil (acc : List Producer.ExcludeEntry)
    (v : Producer.ExcludeValue) : Producer.getExcludeEntries.step acc v ≠ [] := by
  cases v with
  | component c => simp [Producer.getExcludeEntries.step]
  | ANY =>
    unfold Producer.getExcludeEntries.step
    simp only
    split
    · simp
    · rename_i hlen
      split
      · simp
      · intro h
        rw [h] at hlen
        exact hlen rfl

theorem getExcludeEntries_snoc (ex : Producer.Exclude) (v : Producer.ExcludeValue) :
    Producer.getExcludeEntries (ex ++ [v]) =
      Producer.getExcludeEntries.step (Producer.getExcludeEntries ex) v := by
  simp [Producer.getExcludeEntries, List.foldl_append]

theorem eq_nil_or_snoc {α : Type} (l : List α) : l = [] ∨ ∃ l1 v, l = l1 ++ [v] := by
  rcases List.eq_nil_or_concat l with h | ⟨l1, v, h⟩
  · exact Or.inl h
  · exact Or.inr ⟨l1, v, by rw [h, List.concat_eq_append]⟩

theorem getExcludeEntries_eq_nil (ex : Producer.Exclude)
    (h : Producer.getExcludeEntries ex = []) : ex = [] := by
  rcases eq_nil_or_snoc ex with h0 | ⟨ex1, v, rfl⟩
  · exact h0
  · rw [getExcludeEntries_snoc] at h
    exact absurd h (getExcludeEntries_step_ne_nil _ _)

theorem setExcludeEntries_getExcludeEntries_loop (ex : Producer.Exclude) :
    List.Chain' (fun a b => ¬ (a = Producer.ExcludeValue.ANY ∧ b = Producer.ExcludeValue.ANY))
        ex →
      ex.take 2 ≠ [Producer.ExcludeValue.component [], Producer.ExcludeValue.ANY] →
      Producer.setExcludeEntries.loop 0 (Producer.getExcludeEntries ex) = ex := by
  induction ex using List.reverseRecOn with
  | nil =>
    intro _ _
    rfl
  | append_singleton ex v ih =>
    intro hchain hstart
    have hchain1 := hchain.left_of_append
    have hstart1 : ex.take 2 ≠
        [Producer.ExcludeValue.component [], Producer.ExcludeValue.ANY] := by
      intro h
      have hlen : 2 ≤ ex.length := by
        have := congrArg List.length h
        rw [List.length_take] at this
        simp at this
        omega
      exact hstart (by rw [List.take_append_of_le_length hlen]; exact h)
    have ih1 := ih hchain1 hstart1
    rw [getExcludeEntries_snoc]
    cases v with
    | component c =>
      rw [Producer.getExcludeEntries_step_component, setExcludeEntries_loop_append, ih1]
      simp [Producer.setExcludeEntries.loop, Producer.setExcludeEntries.values]
    | ANY =>
      rcases eq_nil_or_snoc ex with h0 | ⟨ex1, w, rfl⟩
      · subst h0
        rfl
      · cases w with
        | ANY =>
          exfalso
          simp at hchain
        | component c =>
          rw [getExcludeEntries_snoc, Producer.getExcludeEntries_step_component] at ih1 ⊢
          rw [setExcludeEntries_loop_append] at ih1
          have hv : Producer.setExcludeEntries.loop
              (0 + (Producer.getExcludeEntries ex1).length) [⟨c, false⟩] =
              [Producer.ExcludeValue.component c] := by
            simp [Producer.setExcludeEntries.loop, Producer.setExcludeEntries.values]
          rw [hv] at ih1
          have ih2 : Producer.setExcludeEntries.loop 0 (Producer.getExcludeEntries ex1) = ex1 :=
            List.append_cancel_right ih1
          rw [Producer.getExcludeEntries_step_any_snoc, setExcludeEntries_loop_append, ih2]
          have hne : ¬ ((Producer.getExcludeEntries ex1).length = 0 ∧ c.length = 0) := by
            rintro ⟨hk, hc⟩
            have e1 : ex1 = [] :=
              getExcludeEntries_eq_nil ex1 (List.length_eq_zero.mp hk)
            have e2 : c = [] := List.length_eq_zero.mp hc
            subst e1 e2
            exact hstart rfl
          have hv2 : Producer.setExcludeEntries.loop
              (0 + (Producer.getExcludeEntries ex1).length) [⟨c, true⟩] =
              [Producer.ExcludeValue.component c, Producer.ExcludeValue.ANY] := by
            simp only [Producer.setExcludeEntries.loop, Producer.setExcludeEntries.values,
              Nat.zero_add, List.append_nil]
            rw [if_neg (by intro h; exact hne ⟨h.1, h.2.1⟩)]
            simp
          rw [hv2]
          simp

/-- C33, as stated, fails in its second half: the value list that begins with
the zero-length component followed by ANY has no two adjacent ANY markers,
but its entries are the single entry (zero-length component, ANY), which
`setExcludeEntries` takes for a "beginning ANY" and writes back as the lone
marker ANY. -/
theorem Producer.setExcludeEntries_getExcludeEntries_counterexample :
    List.Chain' (fun a b => ¬ (a = Producer.ExcludeValue.ANY ∧ b = Producer.ExcludeValue.ANY))
        [Producer.ExcludeValue.component [], Producer.ExcludeValue.ANY] ∧
      Producer.getExcludeEntries [Producer.ExcludeValue.component [], Producer.ExcludeValue.ANY]
        = [⟨[], true⟩] ∧
      Producer.setExcludeEntries [Producer.ExcludeValue.component [], Producer.ExcludeValue.ANY]
          (Producer.getExcludeEntries
            [Producer.ExcludeValue.component [], Producer.ExcludeValue.ANY]) =
        [Producer.ExcludeValue.ANY] ∧
      Producer.setExcludeEntries [Producer.ExcludeValue.component [], Producer.ExcludeValue.ANY]
          (Producer.getExcludeEntries
            [Producer.ExcludeValue.component [], Producer.ExcludeValue.ANY]) ≠
        [Producer.ExcludeValue.component [], Producer.ExcludeValue.ANY] := by
  refine ⟨by simp, by decide, by decide, by decide⟩

/-- C33, amended. For every array of entries, `getExcludeEntries` applied to
the exclude written by `setExcludeEntries` returns an equal array; and for
every value list with no two adjacent ANY markers that does not begin with
the zero-length component followed by ANY,
`setExcludeEntries(getExcludeEntries(exclude))` reproduces the value list. -/
theorem Producer.entries_round_trip (exclude : Producer.Exclude)
    (hchain : List.Chain'
      (fun a b => ¬ (a = Producer.ExcludeValue.ANY ∧ b = Producer.ExcludeValue.ANY)) exclude)
    (hstart : exclude.take 2 ≠
      [Producer.ExcludeValue.component [], Producer.ExcludeValue.ANY]) :
    Producer.setExcludeEntries exclude (Producer.getExcludeEntries exclude) = exclude ∧
      ∀ (written : Producer.Exclude) (entries : List Producer.ExcludeEntry),
        Producer.getExcludeEntries (Producer.setExcludeEntries written entries) = entries :=
  ⟨setExcludeEntries_getExcludeEntries_loop exclude hchain hstart,
    fun written entries => Producer.getExcludeEntries_setExcludeEntries written entries⟩

theorem Producer.entries_round_trip_witness :
    Producer.setExcludeEntries
        [Producer.ExcludeValue.ANY, Producer.ExcludeValue.component [1],
          Producer.ExcludeValue.ANY, Producer.ExcludeValue.component [3]]
        (Producer.getExcludeEntries
          [Producer.ExcludeValue.ANY, Producer.ExcludeValue.component [1],
            Producer.ExcludeValue.ANY, Producer.ExcludeValue.component [3]]) =
        [Producer.ExcludeValue.ANY, Producer.ExcludeValue.component [1],
          Producer.ExcludeValue.ANY, Producer.ExcludeValue.component [3]] ∧
      ∀ (written : Producer.Exclude) (entries : List Producer.ExcludeEntry),
        Producer.getExcludeEntries (Producer.setExcludeEntries written entries) = entries :=
  Producer.entries_round_trip
    [Producer.ExcludeValue.ANY, Producer.ExcludeValue.component [1],
      Producer.ExcludeValue.ANY, Producer.ExcludeValue.component [3]]
    (by simp) (by decide)

/-! ## The header value as a formula -/

theorem and_128_of_lt (b : Nat) (hb : b < 128) : b &&& 128 = 0 := by
  apply Nat.eq_of_testBit_eq
  intro i
  rw [Nat.testBit_and, Nat.zero_testBit]
  by_cases hi : i = 7
  · subst hi
    have : b.testBit 7 = false := Nat.testBit_eq_false_of_lt (by omega)
    simp [this]
  · have : Nat.testBit 128 i = false := by
      have h128 : (128 : Nat) = 2 ^ 7 := by norm_num
      rw [h128, Nat.testBit_two_pow]
      simp
      omega
    simp [this]

theorem headerAcc_step (v b : Nat) (hb : b < 128) (hv : v * 128 < 2 ^ 32) :
    shl32 v XML_REG_VAL_BITS ||| (b &&& XML_REG_VAL_MASK) = v * 128 + b := by
  rw [XML_consts.2.1, XML_consts.2.2.1]
  have e1 : b &&& 127 = b := by
    have := Nat.and_pow_two_sub_one_eq_mod b 7
    have h2 : b % 2 ^ 7 = b := Nat.mod_eq_of_lt (by omega)
    rw [h2] at this
    simpa using this
  have e2 : shl32 v 7 = v <<< 7 := by
    unfold shl32
    rw [Nat.shiftLeft_eq]
    apply Nat.mod_eq_of_lt
    omega
  rw [e1, e2, shl_or _ _ _ (by omega)]
  norm_num

theorem headerAcc_base128 (hs : List Nat) :
    ∀ v, (∀ b ∈ hs, b < 128) → v * 128 ^ hs.length + base128 hs < 2 ^ 32 →
      BinaryXMLDecoder.headerAcc v hs = v * 128 ^ hs.length + base128 hs ∧
        ((v ≠ 0 ∨ hs.head? ≠ some 0) → BinaryXMLDecoder.NoEarlyNull v hs) := by
  induction hs with
  | nil =>
    intro v _ _
    exact ⟨by simp [BinaryXMLDecoder.headerAcc, base128], fun _ => trivial⟩
  | cons b rest ih =>
    intro v hb hlt
    have hb0 : b < 128 := hb b (by simp)
    have hp : 1 ≤ 128 ^ rest.length := Nat.one_le_pow _ _ (by norm_num)
    have e : v * 128 ^ (b :: rest).length + base128 (b :: rest) =
        (v * 128 + b) * 128 ^ rest.length + base128 rest := by
      simp only [List.length_cons, base128, Nat.pow_succ]
      ring
    rw [e] at hlt
    have hv : v * 128 < 2 ^ 32 := by
      have h1 : (v * 128 + b) * 1 ≤ (v * 128 + b) * 128 ^ rest.length :=
        Nat.mul_le_mul_left _ hp
      omega
    have hstep := headerAcc_step v b hb0 hv
    obtain ⟨i1, i2⟩ := ih (v * 128 + b) (fun x hx => hb x (by simp [hx])) hlt
    refine ⟨?_, ?_⟩
    · rw [e, ← i1]
      simp only [BinaryXMLDecoder.headerAcc, List.foldl_cons]
      rw [hstep]
    · intro hne
      refine ⟨?_, ?_⟩
      · rintro ⟨hb1, hv1⟩
        rcases hne with h | h
        · exact h hv1
        · exact h (by simp [hb1])
      · rw [hstep]
        apply i2
        left
        rcases hne with h | h
        · omega
        · have : b ≠ 0 := by
            intro hb1
            exact h (by simp [hb1])
          omega

/-- C35, as stated, fails: the value is kept as a signed 32-bit integer. On
the header `7F 7F 7F 7F 80` the formula gives 4294967280 and the code returns
-16; on `02 00 00 00 00 00 00 80` the value has wrapped to 0 after six bytes,
so the seventh byte, a zero, is taken for a close byte: the call returns
`null` with the cursor at 6. -/
theorem BinaryXMLDecoder.decodeTypeAndVal_formula_counterexample :
    BinaryXMLDecoder.decodeTypeAndVal 6 ⟨[0x7F, 0x7F, 0x7F, 0x7F, 0x80], 0⟩ =
        Run.ret (some ⟨0, -16⟩) ⟨[0x7F, 0x7F, 0x7F, 0x7F, 0x80], 5⟩ ∧
      headerFormula [0x7F, 0x7F, 0x7F, 0x7F] 0x80 = 4294967280 ∧
      BinaryXMLDecoder.decodeTypeAndVal 9 ⟨[0x02, 0, 0, 0, 0, 0, 0, 0x80], 0⟩ =
        Run.ret none ⟨[0x02, 0, 0, 0, 0, 0, 0, 0x80], 6⟩ := by
  decide

/-- C35, amended. If the bytes at the cursor are `hs` (each below 128, the
first not zero) and then `last` with the high bit set, and the base-128
number of `hs` is below 2^27 (so that the value fits a signed 32-bit
integer), `decodeTypeAndVal` returns the type `last & 7` and the value
`base128 hs * 16 + ((last >> 3) & 15)` and advances the cursor by
`hs.length + 1`; and if the byte at the cursor is `0x00` it returns `null` and
leaves the cursor where it was. -/
theorem BinaryXMLDecoder.decodeTypeAndVal_formula (pre hs rest : List Nat) (last fuel : Nat)
    (hfuel : hs.length < fuel) (hbytes : ∀ b ∈ hs, b < 128) (hfirst : hs.head? ≠ some 0)
    (hlast : last &&& 0x80 ≠ 0) (hsmall : base128 hs < 2 ^ 27) :
    BinaryXMLDecoder.decodeTypeAndVal fuel ⟨pre ++ hs ++ last :: rest, (pre.length : Int)⟩ =
        Run.ret (some ⟨last &&& 7, headerFormula hs last⟩)
          ⟨pre ++ hs ++ last :: rest, (pre.length : Int) + hs.length + 1⟩ ∧
      BinaryXMLDecoder.decodeTypeAndVal fuel ⟨pre ++ 0x00 :: rest, (pre.length : Int)⟩ =
        Run.ret none ⟨pre ++ 0x00 :: rest, (pre.length : Int)⟩ := by
  obtain ⟨c1, c2, c3, c4, c5, c6, c7, _⟩ := XML_consts
  obtain ⟨a1, a2⟩ := headerAcc_base128 hs 0 hbytes (by simp; omega)
  have hcont : ∀ b ∈ hs, b &&& XML_TT_NO_MORE = 0 := by
    intro b hb
    rw [c1]
    exact and_128_of_lt b (hbytes b hb)
  have hdec := BinaryXMLDecoder.decodeTypeAndVal_header pre hs rest last fuel hfuel hcont
    (a2 (Or.inr hfirst)) (by rw [c1]; exact hlast)
  have hval : BinaryXMLDecoder.headerVal hs last = headerFormula hs last := by
    unfold BinaryXMLDecoder.headerVal headerFormula
    rw [a1, c4, c6, c7]
    simp only [Nat.zero_mul, Nat.zero_add]
    have hlow : (last >>> 3) &&& 15 < 16 := by
      have := @Nat.and_le_right (last >>> 3) 15
      omega
    have e2 : shl32 (base128 hs) 4 = (base128 hs) <<< 4 := by
      unfold shl32
      rw [Nat.shiftLeft_eq]
      apply Nat.mod_eq_of_lt
      omega
    rw [e2, shl_or _ _ _ (by omega)]
    unfold int32
    have e4 : (base128 hs * 2 ^ 4 + (last >>> 3 &&& 15)) % 2 ^ 32 =
        base128 hs * 2 ^ 4 + (last >>> 3 &&& 15) := Nat.mod_eq_of_lt (by omega)
    rw [e4, if_pos (by omega)]
    norm_num
  refine ⟨?_, ?_⟩
  · rw [hdec, c5, hval]
  · obtain ⟨k, rfl⟩ : ∃ k, fuel = k + 1 := ⟨fuel - 1, by omega⟩
    exact BinaryXMLDecoder.loop_null k _ (BinaryXMLDecoder.next_at pre rest 0)

theorem BinaryXMLDecoder.decodeTypeAndVal_formula_witness :
    BinaryXMLDecoder.decodeTypeAndVal 3
          ⟨[9] ++ [0x01, 0x00] ++ 0x8A :: [7], (([9] : List Nat).length : Int)⟩ =
        Run.ret (some ⟨0x8A &&& 7, headerFormula [0x01, 0x00] 0x8A⟩)
          ⟨[9] ++ [0x01, 0x00] ++ 0x8A :: [7],
            (([9] : List Nat).length : Int) + ([0x01, 0x00] : List Nat).length + 1⟩ ∧
      BinaryXMLDecoder.decodeTypeAndVal 3 ⟨[9] ++ 0x00 :: [7], (([9] : List Nat).length : Int)⟩ =
        Run.ret none ⟨[9] ++ 0x00 :: [7], (([9] : List Nat).length : Int)⟩ :=
  BinaryXMLDecoder.decodeTypeAndVal_formula [9] [0x01, 0x00] [7] 0x8A 3 (by decide) (by decide)
    (by decide) (by decide) (by decide)

/-! ## Reading a binary element -/

theorem decodeTypeAndVal_header_at (d : BinaryXMLDecoder) (pre hs rest : List Nat)
    (last fuel : Nat) (hfuel : hs.length < fuel)
    (hcont : ∀ b ∈ hs, b &&& XML_TT_NO_MORE = 0) (hnn : BinaryXMLDecoder.NoEarlyNull 0 hs)
    (hlast : last &&& XML_TT_NO_MORE ≠ 0)
    (hs_eq : d.istream = pre ++ hs ++ last :: rest) (ho : d.offset = (pre.length : Int)) :
    BinaryXMLDecoder.decodeTypeAndVal fuel d =
      Run.ret (some ⟨last &&& XML_TT_MASK, BinaryXMLDecoder.headerVal hs last⟩)
        ⟨d.istream, d.offset + (hs.length : Int) + 1⟩ := by
  obtain ⟨s, o⟩ := d
  simp only at hs_eq ho
  subst hs_eq ho
  exact BinaryXMLDecoder.decodeTypeAndVal_header pre hs rest last fuel hfuel hcont hnn hlast

theorem next_head_at (d : BinaryXMLDecoder) (pre following : List Nat)
    (hs_eq : d.istream = pre ++ following) (ho : d.offset = (pre.length : Int)) :
    d.next = following.head? := by
  obtain ⟨s, o⟩ := d
  simp only at hs_eq ho
  subst hs_eq ho
  unfold BinaryXMLDecoder.next
  have h : ¬ ((pre.length : Int) < 0) := by omega
  simp only [h, if_false, Int.toNat_ofNat]
  cases following with
  | nil => simp
  | cons x rest => simpa using getElem?_mid pre rest x

/-- C36. On a buffer that holds, at the cursor, a header of type DTAG whose
value is `t`, a header whose value is the number of bytes of `payload`, the
bytes of `payload` and then the bytes `following`, `readBinaryElement(t)`
returns exactly `payload` and leaves the cursor just after the close byte
when `following` begins with the close byte `0x00`; when the byte after the
payload is another one, or there is none, it throws. The headers are given as
the decoder reads them: bytes with the high bit clear (none taken for a close
byte), then a byte with the high bit set. -/
theorem BinaryXMLDecoder.readBinaryElement_element (strNum : List Nat → Int → Bool)
    (pre hs1 hs2 payload following : List Nat) (l1 l2 fuel : Nat) (t : Int)
    (hfuel : hs1.length < fuel ∧ hs2.length < fuel)
    (hcont1 : ∀ b ∈ hs1, b &&& XML_TT_NO_MORE = 0) (hnn1 : BinaryXMLDecoder.NoEarlyNull 0 hs1)
    (hlast1 : l1 &&& XML_TT_NO_MORE ≠ 0) (htype1 : l1 &&& XML_TT_MASK = XML_DTAG)
    (hval1 : BinaryXMLDecoder.headerVal hs1 l1 = t)
    (hcont2 : ∀ b ∈ hs2, b &&& XML_TT_NO_MORE = 0) (hnn2 : BinaryXMLDecoder.NoEarlyNull 0 hs2)
    (hlast2 : l2 &&& XML_TT_NO_MORE ≠ 0)
    (hval2 : BinaryXMLDecoder.headerVal hs2 l2 = (payload.length : Int)) :
    BinaryXMLDecoder.readBinaryElement strNum fuel
        ⟨pre ++ hs1 ++ [l1] ++ hs2 ++ [l2] ++ payload ++ following, (pre.length : Int)⟩
        (Tag.num t) false =
      if following.head? = some XML_CLOSE then
        Run.ret payload
          ⟨pre ++ hs1 ++ [l1] ++ hs2 ++ [l2] ++ payload ++ following,
            ((pre ++ hs1 ++ [l1] ++ hs2 ++ [l2] ++ payload).length : Int) + 1⟩
      else
        Run.throw "ContentDecodingException: Expected end element"
          ⟨pre ++ hs1 ++ [l1] ++ hs2 ++ [l2] ++ payload ++ following,
            ((pre ++ hs1 ++ [l1] ++ hs2 ++ [l2] ++ payload).length : Int) + 1⟩ := by
  generalize hS : pre ++ hs1 ++ [l1] ++ hs2 ++ [l2] ++ payload ++ following = s
  have e1 : s = pre ++ hs1 ++ l1 :: (hs2 ++ [l2] ++ payload ++ following) := by
    rw [← hS]
    simp
  have e2 : s = (pre ++ hs1 ++ [l1]) ++ hs2 ++ l2 :: (payload ++ following) := by
    rw [← hS]
    simp
  have e3 : s = (pre ++ hs1 ++ [l1] ++ hs2 ++ [l2]) ++ (payload ++ following) := by
    rw [← hS]
    simp
  have e4 : s = (pre ++ hs1 ++ [l1] ++ hs2 ++ [l2] ++ payload) ++ following := by
    rw [← hS]
  have d1 := decodeTypeAndVal_header_at ⟨s, (pre.length : Int)⟩ pre hs1 _ l1 fuel hfuel.1
    hcont1 hnn1 hlast1 e1 rfl
  have o2 : (pre.length : Int) + (hs1.length : Int) + 1 = ((pre ++ hs1 ++ [l1]).length : Int) := by
    simp
    omega
  simp only [o2] at d1
  have d2 := decodeTypeAndVal_header_at ⟨s, ((pre ++ hs1 ++ [l1]).length : Int)⟩
    (pre ++ hs1 ++ [l1]) hs2 _ l2 fuel hfuel.2 hcont2 hnn2 hlast2 e2 rfl
  have o3 : ((pre ++ hs1 ++ [l1]).length : Int) + (hs2.length : Int) + 1 =
      ((pre ++ hs1 ++ [l1] ++ hs2 ++ [l2]).length : Int) := by
    simp
    omega
  simp only [o3, hval2] at d2
  have d3 := BinaryXMLDecoder.decodeBlob_some_nat fuel
    ⟨s, ((pre ++ hs1 ++ [l1] ++ hs2 ++ [l2]).length : Int)⟩ payload.length (by simp only; omega)
  have hbytes : (List.drop (pre ++ hs1 ++ [l1] ++ hs2 ++ [l2]).length s).take payload.length =
      payload := by
    rw [e3, List.drop_left, List.take_left]
  simp only [Int.toNat_ofNat, hbytes] at d3
  have o4 : ((pre ++ hs1 ++ [l1] ++ hs2 ++ [l2]).length : Int) + (payload.length : Int) =
      ((pre ++ hs1 ++ [l1] ++ hs2 ++ [l2] ++ payload).length : Int) := by
    simp
    omega
  simp only [o4] at d3
  have hnext := next_head_at ⟨s, ((pre ++ hs1 ++ [l1] ++ hs2 ++ [l2] ++ payload).length : Int)⟩
    (pre ++ hs1 ++ [l1] ++ hs2 ++ [l2] ++ payload) following e4 rfl
  have hblob : BinaryXMLDecoder.decodeBlob fuel
      ⟨s, ((pre ++ hs1 ++ [l1]).length : Int)⟩ none =
      Run.ret payload ⟨s, ((pre ++ hs1 ++ [l1] ++ hs2 ++ [l2] ++ payload).length : Int)⟩ := by
    rw [← d3]
    simp only [BinaryXMLDecoder.decodeBlob, d2]
  have hne : XML_DTAG ≠ XML_TAG := by decide
  have hstart : BinaryXMLDecoder.readStartElement strNum fuel ⟨s, (pre.length : Int)⟩
      (Tag.num t) false = Run.ret () ⟨s, ((pre ++ hs1 ++ [l1]).length : Int)⟩ := by
    unfold BinaryXMLDecoder.readStartElement
    rw [d1]
    simp [BinaryXMLDecoder.readStartElement.decodedTag, htype1, hne, hval1,
      BinaryXMLDecoder.Tag.differs]
  unfold BinaryXMLDecoder.readBinaryElement
  rw [hstart]
  simp only [BinaryXMLDecoder.readBlob, hblob, BinaryXMLDecoder.readEndElement, hnext]
  by_cases hc : following.head? = some XML_CLOSE
  · simp [hc]
  · simp [hc]

theorem BinaryXMLDecoder.readBinaryElement_element_witness :
    BinaryXMLDecoder.readBinaryElement (fun _ _ => false) 2
        ⟨[9] ++ [] ++ [0x8A] ++ [] ++ [0x8D] ++ [0x41] ++ [0x00, 7],
          (([9] : List Nat).length : Int)⟩
        (Tag.num 1) false =
      if ([0x00, 7] : List Nat).head? = some XML_CLOSE then
        Run.ret [0x41]
          ⟨[9] ++ [] ++ [0x8A] ++ [] ++ [0x8D] ++ [0x41] ++ [0x00, 7],
            (([9] ++ [] ++ [0x8A] ++ [] ++ [0x8D] ++ [0x41] : List Nat).length : Int) + 1⟩
      else
        Run.throw "ContentDecodingException: Expected end element"
          ⟨[9] ++ [] ++ [0x8A] ++ [] ++ [0x8D] ++ [0x41] ++ [0x00, 7],
            (([9] ++ [] ++ [0x8A] ++ [] ++ [0x8D] ++ [0x41] : List Nat).length : Int) + 1⟩ :=
  BinaryXMLDecoder.readBinaryElement_element (fun _ _ => false) [9] [] [] [0x41] [0x00, 7]
    0x8A 0x8D 2 1 (by decide) (by decide) trivial (by decide) (by decide) (by decide)
    (by decide) trivial (by decide) (by decide)

/-! ## Name enumeration: the segments and the value returned -/

theorem upcall_contentParts (g : NameEnumeration.Globals) (c : NameEnumeration.Closure)
    (kind : Int) (upcallInfo : Option NameEnumeration.Data) :
    (NameEnumeration.upcall g c kind upcallInfo).closure.contentParts = c.contentParts ∨
      ∃ data last, upcallInfo = some data ∧
        (kind = g.closureConstants.UPCALL_CONTENT ∨
          kind = g.closureConstants.UPCALL_CONTENT_UNVERIFIED) ∧
        NameEnumeration.endsWithSegmentNumber data.name = true ∧
        data.name.components.bind List.getLast? = some last ∧
        g.bigEndianToUnsignedInt last = c.contentParts.length ∧
        (NameEnumeration.upcall g c kind upcallInfo).closure.contentParts =
          c.contentParts ++ [data.content] := by
  by_cases hk : kind = g.closureConstants.UPCALL_CONTENT ∨
      kind = g.closureConstants.UPCALL_CONTENT_UNVERIFIED
  · cases upcallInfo with
    | none =>
      left
      simp [NameEnumeration.upcall, hk]
    | some data =>
      by_cases he : NameEnumeration.endsWithSegmentNumber data.name = true
      · cases hl : data.name.components.bind List.getLast? with
        | none =>
          left
          simp [NameEnumeration.upcall, hk, he, hl]
        | some last =>
          cases hcs : data.name.components with
          | none =>
            rw [hcs] at hl
            simp at hl
          | some cs =>
            by_cases hseg : g.bigEndianToUnsignedInt last = c.contentParts.length
            · right
              refine ⟨data, last, rfl, hk, he, hl, hseg, ?_⟩
              rw [hcs] at hl
              simp only [NameEnumeration.upcall, hk, he, hl, hcs, hseg, if_true, ne_eq,
                not_true_eq_false, if_false, Bool.not_true, Bool.false_eq_true]
              split
              · split
                · split <;> rfl
                · rfl
              · rfl
            · left
              rw [hcs] at hl
              simp [NameEnumeration.upcall, hk, he, hl, hcs, hseg]
      · left
        simp [NameEnumeration.upcall, hk, he]
  · left
    simp [NameEnumeration.upcall, hk]

theorem upcalls_contentParts (g : NameEnumeration.Globals) (Q : Nat → List Nat → Prop)
    (calls : List (Int × Option NameEnumeration.Data)) :
    ∀ (c : NameEnumeration.Closure), (∀ i part, c.contentParts[i]? = some part → Q i part) →
      (∀ kind data last, (kind, some data) ∈ calls →
        (kind = g.closureConstants.UPCALL_CONTENT ∨
          kind = g.closureConstants.UPCALL_CONTENT_UNVERIFIED) →
        NameEnumeration.endsWithSegmentNumber data.name = true →
        data.name.components.bind List.getLast? = some last →
        Q (g.bigEndianToUnsignedInt last) data.content) →
      ∀ i part, (NameEnumeration.upcalls g c calls).contentParts[i]? = some part → Q i part := by
  induction calls with
  | nil =>
    intro c hc _ i part h
    exact hc i part h
  | cons call rest ih =>
    intro c hc hcalls i part h
    have hstep : NameEnumeration.upcalls g c (call :: rest) =
        NameEnumeration.upcalls g (NameEnumeration.upcall g c call.1 call.2).closure rest := rfl
    rw [hstep] at h
    refine ih (NameEnumeration.upcall g c call.1 call.2).closure ?_ ?_ i part h
    · intro j p hj
      rcases upcall_contentParts g c call.1 call.2 with hsame | ⟨data, last, hi, hk, he, hl, hseg, happ⟩
      · rw [hsame] at hj
        exact hc j p hj
      · rw [happ] at hj
        by_cases hlt : j < c.contentParts.length
        · rw [List.getElem?_append_left hlt] at hj
          exact hc j p hj
        · rw [List.getElem?_append_right (by omega)] at hj
          have hj0 : j - c.contentParts.length = 0 := by
            by_contra hne
            have : ([data.content] : List (List Nat))[j - c.contentParts.length]? = none := by
              apply List.getElem?_eq_none
              simp
              omega
            rw [this] at hj
            cases hj
          rw [hj0] at hj
          simp at hj
          have hjeq : j = c.contentParts.length := by omega
          rw [hjeq, ← hseg, ← hj]
          refine hcalls call.1 data last ?_ hk he hl
          rw [← hi]
          simp
    · intro kind data last hmem
      exact hcalls kind data last (List.mem_cons_of_mem _ hmem)

/-- C38. The value returned is not always `Closure.RESULT_OK`. When the upcall
brings the expected segment and that segment is the final one, and
`parseComponents` and the callback return, `upcall` leaves through the bare
`return` of line 83: it returns `undefined` (first part, on segment 0 of the
name `/a/%00` with `finalBlockID` 0). The rest of the claim holds: after any
sequence of upcalls on a new closure, `contentParts[i]` is the content of a
content upcall whose segment number was `i`; and for a kind other than
content `upcall` calls `onComponents(null)` and returns `RESULT_OK`. -/
theorem NameEnumeration.upcall_returns_undefined (g : NameEnumeration.Globals)
    (k : NameEnumeration.ClosureConstants) (content : List Nat) :
    NameEnumeration.upcall
        ⟨k, fun bytes => bytes.foldl (fun n b => n * 256 + b) 0, fun _ => Except.ok [],
          fun _ => false⟩
        ⟨[], [], []⟩ k.UPCALL_CONTENT
        (some ⟨⟨some [[97], [0]]⟩, content, some ⟨some [0]⟩⟩) =
        ⟨⟨[content], [], [some []]⟩, none⟩ ∧
      (∀ calls i part,
        (NameEnumeration.upcalls g ⟨[], [], []⟩ calls).contentParts[i]? = some part →
          NameEnumeration.Received g calls i part) ∧
      (∀ c kind upcallInfo,
        ¬ (kind = g.closureConstants.UPCALL_CONTENT ∨
          kind = g.closureConstants.UPCALL_CONTENT_UNVERIFIED) →
        NameEnumeration.upcall g c kind upcallInfo =
          ⟨{ c with onComponentsCalls := c.onComponentsCalls ++ [none] },
            some g.closureConstants.RESULT_OK⟩) := by
  refine ⟨?_, ?_, ?_⟩
  · simp [NameEnumeration.upcall, NameEnumeration.endsWithSegmentNumber]
  · intro calls i part h
    refine upcalls_contentParts g (NameEnumeration.Received g calls) calls ⟨[], [], []⟩ ?_ ?_
      i part h
    · intro j p hj
      simp at hj
    · intro kind data last hmem hk he hl
      exact ⟨kind, data, last, hmem, hk, he, hl, rfl, rfl⟩
  · intro c kind upcallInfo hk
    simp [NameEnumeration.upcall, hk]

/-! ## The name on the wire: a component too long for the header -/

/-- What `from_ccnb` does with a name of one component whose blob header is
`40 00 00 00 85`: the header is read as the length -2^31, the cursor goes
back before the start of the buffer, and `readEndElement` throws. -/
theorem from_ccnb_negative_length (g : DecoderGlobals) (tags : CCNProtocolDTags)
    (P : List Nat) (fuel : Nat) (hfuel : 5 ≤ fuel)
    (hName : tags.Name < 2 ^ 31) (hComponent : tags.Component < 2 ^ 31)
    (l1 : ((encodeTypeAndVal XML_DTAG tags.Name).length : Int) = 1)
    (l2 : ((encodeTypeAndVal XML_DTAG tags.Component).length : Int) = 1) :
    ContentName.from_ccnb g tags fuel
        ⟨encodeTypeAndVal XML_DTAG tags.Name ++ (encodeTypeAndVal XML_DTAG tags.Component ++
          ([64, 0, 0, 0] ++ 133 :: (P ++ [XML_CLOSE, XML_CLOSE]))), 0⟩ =
      Run.throw "ContentDecodingException: Expected end element"
        ⟨encodeTypeAndVal XML_DTAG tags.Name ++ (encodeTypeAndVal XML_DTAG tags.Component ++
          ([64, 0, 0, 0] ++ 133 :: (P ++ [XML_CLOSE, XML_CLOSE]))), -2147483640⟩ := by
  generalize hS : encodeTypeAndVal XML_DTAG tags.Name ++
    (encodeTypeAndVal XML_DTAG tags.Component ++
      ([64, 0, 0, 0] ++ 133 :: (P ++ [XML_CLOSE, XML_CLOSE]))) = s
  have hs1 : s = [] ++ encodeTypeAndVal XML_DTAG tags.Name ++
      (encodeTypeAndVal XML_DTAG tags.Component ++
        ([64, 0, 0, 0] ++ 133 :: (P ++ [XML_CLOSE, XML_CLOSE]))) := by
    rw [← hS]
    simp
  have hs2 : s = encodeTypeAndVal XML_DTAG tags.Name ++ encodeTypeAndVal XML_DTAG tags.Component ++
      ([64, 0, 0, 0] ++ 133 :: (P ++ [XML_CLOSE, XML_CLOSE])) := by
    rw [← hS]
    simp
  have hs3 : s = (encodeTypeAndVal XML_DTAG tags.Name ++ encodeTypeAndVal XML_DTAG tags.Component) ++
      [64, 0, 0, 0] ++ 133 :: (P ++ [XML_CLOSE, XML_CLOSE]) := by
    rw [← hS]
    simp
  have h1 := readStartElement_at g.strNum ⟨s, 0⟩ [] _ tags.Name fuel hName hfuel hs1 rfl
  rw [l1] at h1
  have h2 := peekStartElement_true_at g ⟨s, 0 + 1⟩
    (encodeTypeAndVal XML_DTAG tags.Name) _ tags.Component fuel hComponent hfuel hs2
    (by simp only; rw [l1]; rfl)
  have h3 := readStartElement_at g.strNum ⟨s, 0 + 1⟩
    (encodeTypeAndVal XML_DTAG tags.Name) _ tags.Component fuel hComponent hfuel hs2
    (by simp only; rw [l1]; rfl)
  rw [l2] at h3
  have h4 := decodeTypeAndVal_header_at ⟨s, 0 + 1 + 1⟩
    (encodeTypeAndVal XML_DTAG tags.Name ++ encodeTypeAndVal XML_DTAG tags.Component)
    [64, 0, 0, 0] (P ++ [XML_CLOSE, XML_CLOSE]) 133 fuel (by simp; omega) (by decide)
    ⟨by decide, by decide, by decide, by decide, trivial⟩ (by decide) hs3
    (by simp only; rw [List.length_append]; push_cast; rw [l1, l2]; rfl)
  have hv : BinaryXMLDecoder.headerVal [64, 0, 0, 0] 133 = -2147483648 := by decide
  rw [hv] at h4
  have h4len : (([64, 0, 0, 0] : List Nat).length : Int) = 4 := rfl
  rw [h4len] at h4
  obtain ⟨k, rfl⟩ : ∃ k, fuel = k + 1 := ⟨fuel - 1, by omega⟩
  have hoff1 : (0 : Int) + 1 + 1 + 4 + 1 + -2147483648 = -2147483641 := by omega
  have hoff2 : (-2147483641 : Int) + 1 = -2147483640 := by omega
  have hnext : BinaryXMLDecoder.next ⟨s, -2147483641⟩ = none := by
    have hlt : (-2147483641 : Int) < 0 := by omega
    unfold BinaryXMLDecoder.next
    exact if_pos hlt
  have hne : (none : Option Nat) ≠ some XML_CLOSE := fun h => Option.noConfusion h
  have hend : BinaryXMLDecoder.readEndElement ⟨s, -2147483641⟩ =
      Run.throw "ContentDecodingException: Expected end element" ⟨s, -2147483640⟩ := by
    unfold BinaryXMLDecoder.readEndElement
    simp only [hnext, hoff2]
    exact if_pos hne
  have hblob : BinaryXMLDecoder.readBlob (k + 1) ⟨s, 0 + 1 + 1⟩ =
      Run.throw "ContentDecodingException: Expected end element" ⟨s, -2147483640⟩ := by
    unfold BinaryXMLDecoder.readBlob BinaryXMLDecoder.decodeBlob
    simp only [h4, BinaryXMLDecoder.decodeBlob.bytes, hoff1, hend]
  have helem : BinaryXMLDecoder.readBinaryElement g.strNum (k + 1) ⟨s, 0 + 1⟩
      (Tag.num (tags.Component : Int)) false =
      Run.throw "ContentDecodingException: Expected end element" ⟨s, -2147483640⟩ := by
    unfold BinaryXMLDecoder.readBinaryElement
    simp only [h3, hblob]
  have hloop : ContentName.from_ccnb.loop g tags (k + 1) (k + 1) ⟨s, 0 + 1⟩ [] =
      Run.throw "ContentDecodingException: Expected end element" ⟨s, -2147483640⟩ := by
    rw [ContentName.from_ccnb.loop]
    simp only [h2, helem]
  unfold ContentName.from_ccnb
  simp only [h1, hloop]

/-- C24, as stated, fails for a component of 2^31 bytes: the header of its
blob is `40 00 00 00 85`, which the decoder reads as the length -2^31 (the
value is a signed 32-bit integer), so the cursor is moved back before the
start of the buffer and `readEndElement` throws: `from_ccnb` does not return
the name. -/
theorem ContentName.wire_round_trip_counterexample :
    (ContentName.to_ccnb ⟨14, 15, 0, 0, 0, 0, 0, 0, 0⟩
        ⟨some [List.replicate (2 ^ 31) 0]⟩ []).thrown = none ∧
      encodeTypeAndVal XML_BLOB (2 ^ 31) = [64, 0, 0, 0, 133] ∧
      BinaryXMLDecoder.decodeTypeAndVal 5 ⟨[64, 0, 0, 0, 133], 0⟩ =
        Run.ret (some ⟨XML_BLOB, -2147483648⟩) ⟨[64, 0, 0, 0, 133], 5⟩ ∧
      (∀ fuel, 5 ≤ fuel →
        ContentName.from_ccnb ⟨fun _ _ => false, fun _ => none, none, fun _ => none⟩
            ⟨14, 15, 0, 0, 0, 0, 0, 0, 0⟩ fuel
            ⟨Encoder.bytes (ContentName.to_ccnb ⟨14, 15, 0, 0, 0, 0, 0, 0, 0⟩
              ⟨some [List.replicate (2 ^ 31) 0]⟩ []).state, 0⟩ =
          Run.throw "ContentDecodingException: Expected end element"
            ⟨Encoder.bytes (ContentName.to_ccnb ⟨14, 15, 0, 0, 0, 0, 0, 0, 0⟩
              ⟨some [List.replicate (2 ^ 31) 0]⟩ []).state, -2147483640⟩) := by
  have e3 : encodeTypeAndVal XML_BLOB (2 ^ 31) = [64, 0, 0, 0, 133] := by decide
  refine ⟨rfl, e3, by decide, ?_⟩
  intro fuel hfuel
  have hlen : (List.replicate (2 ^ 31) 0 : List Nat).length = 2 ^ 31 := List.length_replicate _ _
  generalize List.replicate (2 ^ 31) 0 = P at hlen ⊢
  have hb : Encoder.bytes (ContentName.to_ccnb ⟨14, 15, 0, 0, 0, 0, 0, 0, 0⟩
      ⟨some [P]⟩ []).state =
      encodeTypeAndVal XML_DTAG 14 ++ (encodeTypeAndVal XML_DTAG 15 ++
        ([64, 0, 0, 0] ++ 133 :: (P ++ [XML_CLOSE, XML_CLOSE]))) := by
    have e3b : encodeTypeAndVal XML_BLOB 2147483648 = [64, 0, 0, 0, 133] := e3
    simp [ContentName.to_ccnb, Encoder.bytes, WriteOp.bytes, hlen, e3b]
  rw [hb]
  exact from_ccnb_negative_length ⟨fun _ _ => false, fun _ => none, none, fun _ => none⟩
    ⟨14, 15, 0, 0, 0, 0, 0, 0, 0⟩ P fuel hfuel (by decide) (by decide) (by decide) (by decide)
